import Mathlib

set_option autoImplicit false

/-!
# Cuckoo hash map (`src/cuckoo-hash-table.hpp`)

A shallow embedding of `Table<Key, Value>` and `CuckooHashMap<Key, Value>`.

* Slot arrays are lists of optional items: `none` is a null `Item*`.
* Items are owned by exactly one slot (or are in flight), so the pointer
  graph is modelled by values.
* The process-wide `std::mt19937` generator behind `generate_constants` is an
  explicit list of the numbers that successive `distribution(generator)`
  calls will return.  A computation that needs a draw when the list is
  exhausted returns `none`; the unbounded `do ... while` loops of the source
  are therefore bounded by the number of draws that are supplied.
* `size_t` arithmetic is reduced modulo `2 ^ 64` in `Table::hash`, where the
  product may wrap.  Counters (`_size`, `_capacity`) are plain naturals.
* An iterator position is a slot of one of the two slot arrays.  The two
  arrays are separate allocations; the address comparisons that
  `operator++` and `operator--` make across them depend on which array lies
  lower in memory, which is a parameter (`Layout`) of the iterator
  functions.  The word `_items[_size]` of a table is kept in a field of its
  own (`Data.past`), whether or not the allocation reserved it (`_extra`).
  A word that nothing has written yet reads as null.
* The iterator of `_find` holds the address of a local variable on the
  paths that find the key; `FoundIterator` keeps that apart from the address
  of a slot.
* Reachable states start from a constructor call that makes both tables
  non-empty (capacity at least 2): `Table::hash` takes a remainder by the
  table size.
* `Rewritten` and `Evolved` describe the mutating operations as sequences of
  elementary steps (slot writes, redraws of the constants, changes of
  `_size`, runs of `_resize`); facts about table sizes, capacity and the
  constants are shown by induction over these steps.
-/

namespace CuckooHashTable

/-- The word size of `size_t`. -/
def SIZE_BITS : Nat := 64

/-- Struct `Table::Item`: a key, a value and the cached pair of hashes. -/
structure Item (K V : Type) where
  key : K
  value : V
  hashes : Nat × Nat
  deriving DecidableEq

/-- The `(key, value)` association an item stands for. -/
def Item.pair {K V : Type} (item : Item K V) : K × V := (item.key, item.value)

/-- Class `Table::Data`. `_items` holds the `_size` slots `[0, _size)`;
`_size` itself is the length of that list.  `_extra` is the number of slots
allocated after them.  `past` is the word `_items[_size]`, the one that
`Table::extra(0)` refers to. -/
structure Data (K V : Type) where
  _extra : Nat
  _items : List (Option (Item K V))
  past : Option (Item K V)

/-- Method `Data::size`. -/
def Data.size {K V : Type} (d : Data K V) : Nat := d._items.length

/-- Constructor `Data(size, extra)` followed by `Table::nullify`, which is how
every call site uses it.  The extra word is not written by either. -/
def Data.create {K V : Type} (size extra : Nat) : Data K V :=
  { _extra := extra, _items := List.replicate size none, past := none }

/-- The array `_constants`, indexed by `enum Constants { A, B, PRIME }`. -/
structure Constants where
  A : Nat
  B : Nat
  PRIME : Nat
  deriving DecidableEq

/-- Class `Table`. -/
structure Table (K V : Type) where
  _data : Data K V
  _constants : Constants

/-- The future outputs of `distribution(generator)`. -/
abbrev Generator := List Nat

/-- Method `Table::size`. -/
def Table.size {K V : Type} (t : Table K V) : Nat := t._data.size

/-- Read through `Table::operator[]`. -/
def Table.get {K V : Type} (t : Table K V) (index : Nat) : Option (Item K V) :=
  t._data._items.getD index none

/-- Write through `Table::operator[]`. -/
def Table.set {K V : Type} (t : Table K V) (index : Nat) (p : Option (Item K V)) : Table K V :=
  { t with _data := { t._data with _items := t._data._items.set index p } }

/-- Write through `Table::extra()`. -/
def Table.set_extra {K V : Type} (t : Table K V) (p : Option (Item K V)) : Table K V :=
  { t with _data := { t._data with past := p } }

/-- Method `Table::hash`. -/
def Table.hash {K V : Type} (t : Table K V) (pre_hash : Nat) : Nat :=
  let result := (t._constants.A * pre_hash + t._constants.B) % 2 ^ SIZE_BITS
  (result % t._constants.PRIME) % t._data.size

/-- Method `Table::nullify`. -/
def Table.nullify {K V : Type} (t : Table K V) : Table K V :=
  { t with _data := { t._data with _items := List.replicate t._data.size none } }

/-- Method `Table::reset`. -/
def Table.reset {K V : Type} (t : Table K V) (new_size : Nat) (extra : Nat) : Table K V :=
  { t with _data := Data.create new_size extra }

/-- The value `std::sqrt(value)` truncated to `size_t`: the largest `r` with
`r * r ≤ value`, found by counting up from `r`. -/
def sqrt_from : Nat → Nat → Nat → Nat
  | 0, _, r => r
  | fuel + 1, value, r => if (r + 1) * (r + 1) ≤ value then sqrt_from fuel value (r + 1) else r

/-- The `for` loop of `Table::_is_prime`, started at `prime`. -/
def _is_prime_loop : Nat → Nat → Nat → Nat → Bool
  | 0, _, _, _ => true
  | fuel + 1, value, boundary, prime =>
    if prime ≤ boundary then
      if value % prime = 0 ∨ value % (prime + 2) = 0 then false
      else _is_prime_loop fuel value boundary (prime + 6)
    else true

/-- Method `Table::_is_prime`. -/
def _is_prime (value : Nat) : Bool :=
  if value ≤ 1 then false
  else if value ≤ 3 then true
  else if value % 2 = 0 ∨ value % 3 = 0 then false
  else _is_prime_loop value value (sqrt_from value value 0) 5

/-- The `do ... while (! _is_prime(...))` loop of `generate_constants`. -/
def draw_prime : Generator → Option (Nat × Generator)
  | [] => none
  | d :: rest => if _is_prime d then some (d, rest) else draw_prime rest

/-- Method `Table::generate_constants`. -/
def Table.generate_constants {K V : Type} (t : Table K V) : Generator → Option (Table K V × Generator)
  | a :: b :: rest =>
    match draw_prime rest with
    | some (p, rest') => some ({ t with _constants := ⟨a, b, p⟩ }, rest')
    | none => none
  | _ => none

/-- Constructor `Table(size_t table_size)`. -/
def Table.create {K V : Type} (table_size : Nat) (gen : Generator) : Option (Table K V × Generator) :=
  Table.generate_constants { _data := Data.create table_size 0, _constants := ⟨0, 0, 0⟩ } gen

/-- Constant `CuckooHashMap::CYCLE_LIMIT`. -/
def CYCLE_LIMIT : Nat := 16

/-- Constant `CuckooHashMap::MINIMUM_CAPACITY`. -/
def MINIMUM_CAPACITY : Nat := 16

/-- The `enum Index { FIRST, SECOND }`. -/
inductive Index where
  | FIRST
  | SECOND
  deriving DecidableEq

/-- The position `_item` of a `BaseIterator`: a slot of one of the two slot
arrays.  Slot `table1.size()` of `SECOND` is the sentinel word. -/
structure Iterator where
  table : Index
  slot : Int
  deriving DecidableEq

/-- Where the allocator has put the two slot arrays, which are separate
allocations: the array of `table0` lies below the array of `table1` in
memory, or above it.  Every `reset` allocates anew, so this can change with
`clear` and `_resize`.  The loops of `operator++` and `operator--` compare
the iterator's address with `end()` or `begin()` of the other array. -/
inductive Layout where
  | first_below
  | second_below
  deriving DecidableEq

/-- Class `CuckooHashMap`; `table0` is `_tables[FIRST]`, `table1` is
`_tables[SECOND]`. -/
structure CuckooHashMap (K V : Type) where
  _size : Nat
  _capacity : Nat
  _pre_hash : K → Nat
  table0 : Table K V
  table1 : Table K V

/-- The exception `std::invalid_argument("No such key!")`. -/
inductive Error where
  | invalid_argument
  deriving DecidableEq

section Operations

variable {K V : Type}

/-- The test `p && p->key == key`. -/
def holds_key [DecidableEq K] (p : Option (Item K V)) (key : K) : Bool :=
  match p with
  | some item => decide (item.key = key)
  | none => false

/-- Method `size`. -/
def CuckooHashMap.size (m : CuckooHashMap K V) : Nat := m._size

/-- Method `capacity`. -/
def CuckooHashMap.capacity (m : CuckooHashMap K V) : Nat := m._capacity

/-- Method `is_empty`. -/
def CuckooHashMap.is_empty (m : CuckooHashMap K V) : Bool := decide (m._size = 0)

/-- Method `_hashes`. -/
def _hashes (m : CuckooHashMap K V) (key : K) : Nat × Nat :=
  let pre_hash := m._pre_hash key
  (m.table0.hash pre_hash, m.table1.hash pre_hash)

/-- Method `_first(size_t)`, read. -/
def _first (m : CuckooHashMap K V) (hash : Nat) : Option (Item K V) := m.table0.get hash

/-- Method `_second(size_t)`, read. -/
def _second (m : CuckooHashMap K V) (hash : Nat) : Option (Item K V) := m.table1.get hash

/-- The statement `std::swap(p_item, _first(p_item))` for a non-null `p_item`:
the new state and the new `p_item`. -/
def swap_first (m : CuckooHashMap K V) (p : Item K V) : CuckooHashMap K V × Option (Item K V) :=
  ({ m with table0 := m.table0.set p.hashes.1 (some p) }, _first m p.hashes.1)

/-- The statement `std::swap(p_item, _second(p_item))` for a non-null `p_item`. -/
def swap_second (m : CuckooHashMap K V) (p : Item K V) : CuckooHashMap K V × Option (Item K V) :=
  ({ m with table1 := m.table1.set p.hashes.2 (some p) }, _second m p.hashes.2)

/-- Method `_items`: copies of both slot arrays (`Data`'s copy constructor
copies the `_size` slots only). -/
def _items (m : CuckooHashMap K V) : List (Option (Item K V)) × List (Option (Item K V)) :=
  (m.table0._data._items, m.table1._data._items)

/-- The `do ... while (p_item)` loop of `_try_rehash` for one item, with
`remaining = CYCLE_LIMIT - iterations`.  `false` is the `return false`. -/
def _try_rehash_item : Nat → CuckooHashMap K V → Item K V → Bool × CuckooHashMap K V
  | 0, m, _ => (false, m)
  | remaining + 1, m, p =>
    match swap_first m p with
    | (m1, none) => (true, m1)
    | (m1, some q) =>
      match swap_second m1 q with
      | (m2, none) => (true, m2)
      | (m2, some r) => _try_rehash_item remaining m2 r

/-- The loop `for (auto& p_item : table)` of `_try_rehash` over one copied
slot array. -/
def _try_rehash_table : CuckooHashMap K V → List (Option (Item K V)) → Bool × CuckooHashMap K V
  | m, [] => (true, m)
  | m, none :: rest => _try_rehash_table m rest
  | m, some p :: rest =>
    match _try_rehash_item CYCLE_LIMIT m { p with hashes := _hashes m p.key } with
    | (true, m1) => _try_rehash_table m1 rest
    | (false, m1) => (false, m1)

/-- Method `_try_rehash`.  The parameter `old` is taken by value, so the
caller's snapshot is not modified; `old_table_size` is not read. -/
def _try_rehash (m : CuckooHashMap K V)
    (old : List (Option (Item K V)) × List (Option (Item K V))) : Bool × CuckooHashMap K V :=
  match _try_rehash_table m old.1 with
  | (true, m1) => _try_rehash_table m1 old.2
  | (false, m1) => (false, m1)

/-- The body of the `do` loop of `_rehash`: nullify and draw new constants for
each table in turn. -/
def regenerate (m : CuckooHashMap K V) (gen : Generator) : Option (CuckooHashMap K V × Generator) :=
  match m.table0.nullify.generate_constants gen with
  | none => none
  | some (t0, gen0) =>
    match m.table1.nullify.generate_constants gen0 with
    | none => none
    | some (t1, gen1) => some ({ m with table0 := t0, table1 := t1 }, gen1)

/-- The loop `do ... while (! _try_rehash(old, old_table_size))` of `_rehash`,
for at most `fuel` rounds. -/
def _rehash_loop : Nat → CuckooHashMap K V → List (Option (Item K V)) × List (Option (Item K V)) →
    Generator → Option (CuckooHashMap K V × Generator)
  | 0, _, _, _ => none
  | fuel + 1, m, old, gen =>
    match regenerate m gen with
    | none => none
    | some (m1, gen1) =>
      match _try_rehash m1 old with
      | (true, m2) => some (m2, gen1)
      | (false, m2) => _rehash_loop fuel m2 old gen1

/-- Method `_rehash(old, old_capacity)`; the second parameter is only passed
on to `_try_rehash`, which does not read it.  Every round takes at least six
draws, so the loop cannot run for more rounds than there are draws
(`_rehash_loop_fuel`). -/
def _rehash (m : CuckooHashMap K V) (old : List (Option (Item K V)) × List (Option (Item K V)))
    (gen : Generator) : Option (CuckooHashMap K V × Generator) :=
  _rehash_loop gen.length m old gen

/-- Method `_resize`.  Both tables are reset to `_capacity` slots (the
constructor and `clear` use `_capacity / 2`). -/
def _resize [Inhabited K] [Inhabited V] (m : CuckooHashMap K V) (gen : Generator) :
    Option (CuckooHashMap K V × Generator) :=
  let new_capacity := m._size * 4
  if new_capacity < MINIMUM_CAPACITY then some (m, gen)
  else
    let old := _items m
    let m1 : CuckooHashMap K V :=
      { m with _capacity := new_capacity,
               table0 := m.table0.reset new_capacity 0,
               table1 := m.table1.reset new_capacity 1 }
    match _rehash m1 old gen with
    | none => none
    | some (m2, gen2) =>
      some ({ m2 with table1 := m2.table1.set_extra (some ⟨default, default, (0, 0)⟩) }, gen2)

/-- The `while (p_item)` loop of `_insert`, with
`remaining = CYCLE_LIMIT - iterations`.  The result is the state when the loop
is left and the item that is in flight at that point: `some _` exactly when
the loop was left through `++iterations > CYCLE_LIMIT`. -/
def _insert_loop : Nat → CuckooHashMap K V → Option (Item K V) → CuckooHashMap K V × Option (Item K V)
  | _, m, none => (m, none)
  | 0, m, some p => (m, some p)
  | remaining + 1, m, some p =>
    match swap_second m p with
    | (m1, none) => (m1, none)
    | (m1, some q) =>
      match swap_first m1 q with
      | (m2, r) => _insert_loop remaining m2 r

/-- The last statement of `_insert`: `if (++_size == _capacity/2) _resize();`. -/
def _insert_finish [Inhabited K] [Inhabited V] (m : CuckooHashMap K V) (gen : Generator) :
    Option (CuckooHashMap K V × Generator) :=
  let m1 : CuckooHashMap K V := { m with _size := m._size + 1 }
  if m1._size = m1._capacity / 2 then _resize m1 gen else some (m1, gen)

/-- Method `_insert`.  On the cycle-limit branch the source calls
`_rehash(_items())` and leaves the loop; the local `p_item` is not used
again. -/
def _insert [Inhabited K] [Inhabited V] (m : CuckooHashMap K V) (p_item : Item K V) (gen : Generator) :
    Option (Iterator × CuckooHashMap K V × Generator) :=
  let iterator : Iterator := ⟨Index.FIRST, p_item.hashes.1⟩
  match swap_first m p_item with
  | (m1, p1) =>
    match _insert_loop CYCLE_LIMIT m1 p1 with
    | (m2, none) => (_insert_finish m2 gen).map fun r => (iterator, r)
    | (m2, some _) =>
      match _rehash m2 (_items m2) gen with
      | none => none
      | some (m3, gen3) => (_insert_finish m3 gen3).map fun r => (iterator, r)

/-- Method `end`. -/
def CuckooHashMap.end_ (m : CuckooHashMap K V) : Iterator := ⟨Index.SECOND, m.table1.size⟩

/-- The assignment `p->value = value` through a slot. -/
def set_value (p : Option (Item K V)) (value : V) : Option (Item K V) :=
  p.map fun item => { item with value := value }

/-- Method `_try_update`. -/
def _try_update [DecidableEq K] (m : CuckooHashMap K V) (key : K) (value : V) :
    (Iterator × (Nat × Nat)) × CuckooHashMap K V :=
  let hashes := _hashes m key
  if holds_key (_first m hashes.1) key then
    ((⟨Index.FIRST, hashes.1⟩, hashes),
      { m with table0 := m.table0.set hashes.1 (set_value (_first m hashes.1) value) })
  else if holds_key (_second m hashes.2) key then
    ((⟨Index.SECOND, hashes.2⟩, hashes),
      { m with table1 := m.table1.set hashes.2 (set_value (_second m hashes.2) value) })
  else ((m.end_, hashes), m)

/-- Method `insert(key, value)`. -/
def CuckooHashMap.insert [DecidableEq K] [Inhabited K] [Inhabited V]
    (m : CuckooHashMap K V) (key : K) (value : V) (gen : Generator) :
    Option (Iterator × CuckooHashMap K V × Generator) :=
  match _try_update m key value with
  | (update, m1) =>
    if update.1 ≠ m1.end_ then some (update.1, m1, gen)
    else _insert m1 ⟨key, value, update.2⟩ gen

/-- Method `_erase`, whose argument is the slot `hash` of `table`.  The
decrement `--_size` is only reached with a live item in that slot. -/
def _erase [Inhabited K] [Inhabited V] (m : CuckooHashMap K V) (table : Index) (hash : Nat)
    (gen : Generator) : Option (CuckooHashMap K V × Generator) :=
  let m1 : CuckooHashMap K V :=
    match table with
    | Index.FIRST => { m with table0 := m.table0.set hash none }
    | Index.SECOND => { m with table1 := m.table1.set hash none }
  let m2 : CuckooHashMap K V := { m1 with _size := m1._size - 1 }
  if m2._size = m2._capacity / 8 then _resize m2 gen else some (m2, gen)

/-- Method `erase_if_found`. -/
def CuckooHashMap.erase_if_found [DecidableEq K] [Inhabited K] [Inhabited V]
    (m : CuckooHashMap K V) (key : K) (gen : Generator) :
    Option (Bool × CuckooHashMap K V × Generator) :=
  let hashes := _hashes m key
  if holds_key (_first m hashes.1) key then
    (_erase m Index.FIRST hashes.1 gen).map fun r => (true, r)
  else if holds_key (_second m hashes.2) key then
    (_erase m Index.SECOND hashes.2 gen).map fun r => (true, r)
  else some (false, m, gen)

/-- Method `erase(key)`: `Except.error` is the thrown `std::invalid_argument`,
which leaves the map as it was. -/
def CuckooHashMap.erase [DecidableEq K] [Inhabited K] [Inhabited V]
    (m : CuckooHashMap K V) (key : K) (gen : Generator) :
    Option (Except Error (CuckooHashMap K V × Generator)) :=
  match m.erase_if_found key gen with
  | none => none
  | some (true, r) => some (Except.ok r)
  | some (false, _) => some (Except.error Error.invalid_argument)

/-- Method `clear`. -/
def CuckooHashMap.clear [Inhabited K] [Inhabited V] (m : CuckooHashMap K V) : CuckooHashMap K V :=
  let table_size := MINIMUM_CAPACITY / 2
  { m with _capacity := MINIMUM_CAPACITY,
           table0 := m.table0.reset table_size 0,
           table1 := (m.table1.reset table_size 1).set_extra (some ⟨default, default, (0, 0)⟩),
           _size := 0 }

/-- Method `contains`. -/
def CuckooHashMap.contains [DecidableEq K] (m : CuckooHashMap K V) (key : K) : Bool :=
  let hashes := _hashes m key
  if holds_key (_first m hashes.1) key then true
  else if holds_key (_second m hashes.2) key then true
  else false

/-- Method `_at`, as a value. -/
def _at [DecidableEq K] (m : CuckooHashMap K V) (key : K) : Except Error V :=
  let hashes := _hashes m key
  match _first m hashes.1 with
  | some first =>
    if first.key = key then Except.ok first.value
    else
      match _second m hashes.2 with
      | some second => if second.key = key then Except.ok second.value else Except.error Error.invalid_argument
      | none => Except.error Error.invalid_argument
  | none =>
    match _second m hashes.2 with
    | some second => if second.key = key then Except.ok second.value else Except.error Error.invalid_argument
    | none => Except.error Error.invalid_argument

/-- Method `at`. -/
def CuckooHashMap.at_ [DecidableEq K] (m : CuckooHashMap K V) (key : K) : Except Error V := _at m key

/-- The `_item` pointer of the iterator that `_find` returns.  `_find` reads
the candidate slot into a local variable (`auto first = _first(...)`, a copy
of the slot's pointer, where `_try_update` and `_at` write `auto&`) and hands
that variable to `_iterator`, which keeps the address of its argument.  On
the two paths that find the key the iterator therefore holds the address of
a local variable of `_find` (`at_local`, with what the variable held), whose
lifetime ends when `_find` returns; only `return end()` gives the address of
a word of a slot array (`at_slot`). -/
inductive FoundIterator (K V : Type) where
  | at_slot (it : Iterator)
  | at_local (held : Option (Item K V))
  deriving DecidableEq

/-- Method `_find`. -/
def _find [DecidableEq K] (m : CuckooHashMap K V) (key : K) : FoundIterator K V :=
  let hashes := _hashes m key
  let first := _first m hashes.1
  if holds_key first key then FoundIterator.at_local first
  else
    let second := _second m hashes.2
    if holds_key second key then FoundIterator.at_local second
    else FoundIterator.at_slot m.end_

/-- Method `find`. -/
def CuckooHashMap.find [DecidableEq K] (m : CuckooHashMap K V) (key : K) : FoundIterator K V :=
  _find m key

/-- The assignment `_at(key) = value` of `insert_or_assign`: the state after
it, or the exception. -/
def _at_assign [DecidableEq K] (m : CuckooHashMap K V) (key : K) (value : V) :
    Except Error (CuckooHashMap K V) :=
  let hashes := _hashes m key
  if holds_key (_first m hashes.1) key then
    Except.ok { m with table0 := m.table0.set hashes.1 (set_value (_first m hashes.1) value) }
  else if holds_key (_second m hashes.2) key then
    Except.ok { m with table1 := m.table1.set hashes.2 (set_value (_second m hashes.2) value) }
  else Except.error Error.invalid_argument

/-- Method `operator[]`: the value referred to by the returned reference. -/
def CuckooHashMap.subscript [DecidableEq K] [Inhabited K] [Inhabited V]
    (m : CuckooHashMap K V) (key : K) (gen : Generator) :
    Option (V × CuckooHashMap K V × Generator) :=
  match _at m key with
  | Except.ok v => some (v, m, gen)
  | Except.error _ =>
    match _insert m ⟨key, default, _hashes m key⟩ gen with
    | none => none
    | some (_, r) => some (default, r)

/-- Method `insert_or_assign`. -/
def CuckooHashMap.insert_or_assign [DecidableEq K] [Inhabited K] [Inhabited V]
    (m : CuckooHashMap K V) (key : K) (value : V) (gen : Generator) :
    Option ((Iterator × Bool) × CuckooHashMap K V × Generator) :=
  match _at_assign m key value with
  | Except.ok m1 => some ((m1.end_, false), m1, gen)
  | Except.error _ =>
    match _insert m ⟨key, value, _hashes m key⟩ gen with
    | none => none
    | some (iterator, r) => some ((iterator, true), r)

/-- The two tables built by `_tables({_capacity/2, _capacity/2 + 1})`. -/
def create_tables (capacity : Nat) (gen : Generator) :
    Option ((Table K V × Table K V) × Generator) :=
  match Table.create (capacity / 2) gen with
  | none => none
  | some (t0, gen0) =>
    match Table.create (capacity / 2 + 1) gen0 with
    | none => none
    | some (t1, gen1) => some ((t0, t1), gen1)

/-- Constructor `CuckooHashMap(pre_hash, capacity)`. -/
def CuckooHashMap.create [Inhabited K] [Inhabited V] (pre_hash : K → Nat) (capacity : Nat)
    (gen : Generator) : Option (CuckooHashMap K V × Generator) :=
  match create_tables capacity gen with
  | none => none
  | some ((t0, t1), gen1) =>
    some ({ _size := 0, _capacity := capacity, _pre_hash := pre_hash, table0 := t0,
            table1 := t1.set_extra (some ⟨default, default, (0, 0)⟩) }, gen1)

/-- Constructor `CuckooHashMap(items, pre_hash, capacity)`. -/
def CuckooHashMap.create_from_list (items : List (K × V)) (pre_hash : K → Nat) (capacity : Nat)
    (gen : Generator) : Option (CuckooHashMap K V × Generator) :=
  match create_tables (max items.length capacity) gen with
  | none => none
  | some ((t0, t1), gen1) =>
    some ({ _size := 0, _capacity := max items.length capacity, _pre_hash := pre_hash,
            table0 := t0, table1 := t1 }, gen1)

/-- The slot `*_item` an iterator refers to. -/
def slot_at (m : CuckooHashMap K V) (it : Iterator) : Option (Item K V) :=
  match it.table with
  | Index.FIRST => if 0 ≤ it.slot then m.table0.get it.slot.toNat else none
  | Index.SECOND =>
    if it.slot = m.table1.size then m.table1._data.past
    else if 0 ≤ it.slot then m.table1.get it.slot.toNat else none

/-- The comparison `_item < (*_tables)[SECOND].end()`.  For a slot of
`table1` both addresses lie in one array and the slot indices decide; for a
slot of `table0` the addresses lie in two allocations, and the comparison
holds exactly when the array of `table0` lies below that of `table1`. -/
def before_second_end (layout : Layout) (m : CuckooHashMap K V) (it : Iterator) : Bool :=
  match it.table with
  | Index.FIRST => decide (layout = Layout.first_below)
  | Index.SECOND => decide (it.slot < m.table1.size)

/-- The body of the `do` loop of `operator++`. -/
def step_forward (m : CuckooHashMap K V) (it : Iterator) : Iterator :=
  let next : Iterator := { it with slot := it.slot + 1 }
  if next = ⟨Index.FIRST, m.table0.size⟩ then ⟨Index.SECOND, 0⟩ else next

/-- The `do ... while` loop of `operator++`, for at most `fuel` rounds. -/
def increment_loop : Nat → Layout → CuckooHashMap K V → Iterator → Option Iterator
  | 0, _, _, _ => none
  | fuel + 1, layout, m, it =>
    let next := step_forward m it
    if (slot_at m next).isNone && before_second_end layout m next then
      increment_loop fuel layout m next
    else some next

/-- Method `BaseIterator::operator++`. -/
def increment (layout : Layout) (m : CuckooHashMap K V) (it : Iterator) : Option Iterator :=
  increment_loop (m.table0.size + m.table1.size + 2) layout m it

/-- The comparison `_item >= (*_tables)[FIRST].begin()`.  For a slot of
`table0` the slot indices decide; for a slot of `table1` the comparison holds
exactly when the array of `table1` lies above that of `table0`. -/
def from_first_begin (layout : Layout) (it : Iterator) : Bool :=
  match it.table with
  | Index.FIRST => decide (0 ≤ it.slot)
  | Index.SECOND => decide (layout = Layout.first_below)

/-- The body of the `do` loop of `operator--`. -/
def step_backward (m : CuckooHashMap K V) (it : Iterator) : Iterator :=
  if it = ⟨Index.SECOND, 0⟩ then ⟨Index.FIRST, (m.table0.size : Int) - 1⟩
  else { it with slot := it.slot - 1 }

/-- The `do ... while` loop of `operator--`, for at most `fuel` rounds. -/
def decrement_loop : Nat → Layout → CuckooHashMap K V → Iterator → Option Iterator
  | 0, _, _, _ => none
  | fuel + 1, layout, m, it =>
    let previous := step_backward m it
    if (slot_at m previous).isNone && from_first_begin layout previous then
      decrement_loop fuel layout m previous
    else some previous

/-- Method `BaseIterator::operator--`. -/
def decrement (layout : Layout) (m : CuckooHashMap K V) (it : Iterator) : Option Iterator :=
  decrement_loop (m.table0.size + m.table1.size + 2) layout m it

/-- Method `begin`: the constructor `BaseIterator(tables)` steps back from
`front()` and then applies `operator++`. -/
def CuckooHashMap.begin_ (m : CuckooHashMap K V) (layout : Layout) : Option Iterator :=
  increment layout m ⟨Index.FIRST, -1⟩

/-- The pair `(key, value)` seen through `operator*`. -/
def dereference (m : CuckooHashMap K V) (it : Iterator) : Option (K × V) :=
  (slot_at m it).map Item.pair

/-- The pairs met by `for (it = begin(); it != end(); ++it)`, for at most
`fuel` positions. -/
def iteration_from : Nat → Layout → CuckooHashMap K V → Iterator →
    Option (List (Option (K × V)))
  | 0, _, _, _ => none
  | fuel + 1, layout, m, it =>
    if it = m.end_ then some []
    else
      match increment layout m it with
      | none => none
      | some next =>
        (iteration_from fuel layout m next).map fun rest => dereference m it :: rest

/-- The traversal from `begin()` to `end()`. -/
def iteration (layout : Layout) (m : CuckooHashMap K V) : Option (List (Option (K × V))) :=
  match m.begin_ layout with
  | none => none
  | some it => iteration_from (m.table0.size + m.table1.size + 2) layout m it

/-- The items held in the real slots of both tables, `table0` first. -/
def live (m : CuckooHashMap K V) : List (Item K V) :=
  m.table0._data._items.reduceOption ++ m.table1._data._items.reduceOption

/-- The `(key, value)` associations held in the real slots. -/
def pairs (m : CuckooHashMap K V) : List (K × V) :=
  (live m).map Item.pair

/-- The keys held in the real slots. -/
def keys (m : CuckooHashMap K V) : List K :=
  (live m).map Item.key

/-- States reachable from a constructor (one that makes both tables
non-empty, so that `Table::hash` is defined) by the mutating public
operations, whatever numbers the generator returns. -/
inductive Reachable [DecidableEq K] [Inhabited K] [Inhabited V] : CuckooHashMap K V → Prop where
  | create (pre_hash : K → Nat) (capacity : Nat) (gen gen' : Generator) (m : CuckooHashMap K V) :
      2 ≤ capacity → CuckooHashMap.create pre_hash capacity gen = some (m, gen') → Reachable m
  | create_from_list (items : List (K × V)) (pre_hash : K → Nat) (capacity : Nat)
      (gen gen' : Generator) (m : CuckooHashMap K V) :
      2 ≤ max items.length capacity →
      CuckooHashMap.create_from_list items pre_hash capacity gen = some (m, gen') → Reachable m
  | insert (m m' : CuckooHashMap K V) (key : K) (value : V) (gen gen' : Generator) (it : Iterator) :
      Reachable m → m.insert key value gen = some (it, m', gen') → Reachable m'
  | erase_if_found (m m' : CuckooHashMap K V) (key : K) (gen gen' : Generator) (found : Bool) :
      Reachable m → m.erase_if_found key gen = some (found, m', gen') → Reachable m'
  | erase (m m' : CuckooHashMap K V) (key : K) (gen gen' : Generator) :
      Reachable m → m.erase key gen = some (Except.ok (m', gen')) → Reachable m'
  | subscript (m m' : CuckooHashMap K V) (key : K) (gen gen' : Generator) (v : V) :
      Reachable m → m.subscript key gen = some (v, m', gen') → Reachable m'
  | insert_or_assign (m m' : CuckooHashMap K V) (key : K) (value : V) (gen gen' : Generator)
      (r : Iterator × Bool) :
      Reachable m → m.insert_or_assign key value gen = some (r, m', gen') → Reachable m'
  | clear (m : CuckooHashMap K V) : Reachable m → Reachable m.clear

/-- One call of a mutating public operation that has returned: `Step m m'`. -/
inductive Step [DecidableEq K] [Inhabited K] [Inhabited V] :
    CuckooHashMap K V → CuckooHashMap K V → Prop where
  | insert (m m' : CuckooHashMap K V) (key : K) (value : V) (gen gen' : Generator) (it : Iterator) :
      m.insert key value gen = some (it, m', gen') → Step m m'
  | erase_if_found (m m' : CuckooHashMap K V) (key : K) (gen gen' : Generator) (found : Bool) :
      m.erase_if_found key gen = some (found, m', gen') → Step m m'
  | erase (m m' : CuckooHashMap K V) (key : K) (gen gen' : Generator) :
      m.erase key gen = some (Except.ok (m', gen')) → Step m m'
  | subscript (m m' : CuckooHashMap K V) (key : K) (gen gen' : Generator) (v : V) :
      m.subscript key gen = some (v, m', gen') → Step m m'
  | insert_or_assign (m m' : CuckooHashMap K V) (key : K) (value : V) (gen gen' : Generator)
      (r : Iterator × Bool) :
      m.insert_or_assign key value gen = some (r, m', gen') → Step m m'
  | clear (m : CuckooHashMap K V) : Step m m.clear

/-- A sequence of such calls: `Steps m m'`. -/
inductive Steps [DecidableEq K] [Inhabited K] [Inhabited V] :
    CuckooHashMap K V → CuckooHashMap K V → Prop where
  | done (m : CuckooHashMap K V) : Steps m m
  | next (m m1 m2 : CuckooHashMap K V) : Steps m m1 → Step m1 m2 → Steps m m2

/-- The state `m` is what a constructor call leaves, with `capacity` the
initial capacity it ends up with. -/
inductive Constructed [Inhabited K] [Inhabited V] : Nat → CuckooHashMap K V → Prop where
  | create (pre_hash : K → Nat) (capacity : Nat) (gen gen' : Generator) (m : CuckooHashMap K V) :
      CuckooHashMap.create pre_hash capacity gen = some (m, gen') → Constructed capacity m
  | create_from_list (items : List (K × V)) (pre_hash : K → Nat) (capacity : Nat)
      (gen gen' : Generator) (m : CuckooHashMap K V) :
      CuckooHashMap.create_from_list items pre_hash capacity gen = some (m, gen') →
      Constructed (max items.length capacity) m

/-- The capacity that `_resize` leaves when it is entered with `_size = size`
and `_capacity = capacity`. -/
def resized_capacity (size capacity : Nat) : Nat :=
  if size * 4 < MINIMUM_CAPACITY then capacity else size * 4

/-- The calls `insert(k, v)` for the pairs of a list, in order (the range
overload of `insert`). -/
def insert_all [DecidableEq K] [Inhabited K] [Inhabited V] :
    CuckooHashMap K V → List (K × V) → Generator → Option (CuckooHashMap K V × Generator)
  | m, [], gen => some (m, gen)
  | m, (key, value) :: rest, gen =>
    match m.insert key value gen with
    | none => none
    | some (_, m1, gen1) => insert_all m1 rest gen1

/-- Two states that agree on everything but the contents of the real slots:
the pre-hash, both tables' constants and sizes, the counters and the
sentinel word. -/
structure SameFrame (m m' : CuckooHashMap K V) : Prop where
  pre_hash : m'._pre_hash = m._pre_hash
  constants0 : m'.table0._constants = m.table0._constants
  constants1 : m'.table1._constants = m.table1._constants
  size0 : m'.table0.size = m.table0.size
  size1 : m'.table1.size = m.table1.size
  count : m'._size = m._size
  capacity : m'._capacity = m._capacity
  sentinel : m'.table1._data.past = m.table1._data.past

/-- Two states that agree on the pre-hash, both tables' sizes, the counters
and the sentinel word (the constants may differ). -/
structure SameShape (m m' : CuckooHashMap K V) : Prop where
  pre_hash : m'._pre_hash = m._pre_hash
  size0 : m'.table0.size = m.table0.size
  size1 : m'.table1.size = m.table1.size
  count : m'._size = m._size
  capacity : m'._capacity = m._capacity
  sentinel : m'.table1._data.past = m.table1._data.past

/-- The cached pair of an item is the pair `_hashes` computes for its key. -/
def Cached (m : CuckooHashMap K V) (item : Item K V) : Prop :=
  item.hashes = _hashes m item.key

/-- Every item in a real slot carries the current pair of hashes and sits at
the index that pair names for its table. -/
def Placed (m : CuckooHashMap K V) : Prop :=
  (∀ i item, m.table0.get i = some item → Cached m item ∧ item.hashes.1 = i) ∧
  (∀ j item, m.table1.get j = some item → Cached m item ∧ item.hashes.2 = j)

/-- The invariant of reachable states: items are placed, keys are pairwise
distinct, both tables have at least one real slot, and `_size` is at least
the number of live items. -/
structure Inv (m : CuckooHashMap K V) : Prop where
  placed : Placed m
  nodup : (keys m).Nodup
  pos0 : 0 < m.table0.size
  pos1 : 0 < m.table1.size
  count : (live m).length ≤ m._size

/-- The state `m` with the word at `table1.extra()` replaced by `s`. -/
def with_sentinel (m : CuckooHashMap K V) (s : Option (Item K V)) : CuckooHashMap K V :=
  { m with table1 := m.table1.set_extra s }

/-- What a caller of `erase_if_found` can tell apart without looking at the
sentinel word: the returned flag, the real slots and the generator. -/
def erase_view (r : Bool × CuckooHashMap K V × Generator) :
    Bool × (List (Option (Item K V)) × List (Option (Item K V))) × Generator :=
  (r.1, _items r.2.1, r.2.2)

/-- The number of words that `Data(size, extra)` allocates for the slot
array: `new item_ptr[_size + extra]`. -/
def Data.allocated {K V : Type} (d : Data K V) : Nat := d.size + d._extra

/-- The `while (p_item)` loop of `_insert` (as `_insert_loop`), together with
the number of `std::swap` statements it executes. -/
def _insert_loop_counted : Nat → CuckooHashMap K V → Option (Item K V) →
    (CuckooHashMap K V × Option (Item K V)) × Nat
  | _, m, none => ((m, none), 0)
  | 0, m, some p => ((m, some p), 0)
  | remaining + 1, m, some p =>
    match swap_second m p with
    | (m1, none) => ((m1, none), 1)
    | (m1, some q) =>
      match swap_first m1 q with
      | (m2, r) =>
        match _insert_loop_counted remaining m2 r with
        | (result, swaps) => (result, swaps + 2)

/-- The number of `std::swap` statements that `_insert(p_item)` executes: the
one before the loop and those of the loop. -/
def _insert_swaps (m : CuckooHashMap K V) (p_item : Item K V) : Nat :=
  match swap_first m p_item with
  | (m1, p1) => (_insert_loop_counted CYCLE_LIMIT m1 p1).2 + 1

/-- The `do ... while (p_item)` loop of `_try_rehash` for one item (as
`_try_rehash_item`), together with the number of `std::swap` statements it
executes. -/
def _try_rehash_item_counted : Nat → CuckooHashMap K V → Item K V → (Bool × CuckooHashMap K V) × Nat
  | 0, m, _ => ((false, m), 0)
  | remaining + 1, m, p =>
    match swap_first m p with
    | (m1, none) => ((true, m1), 1)
    | (m1, some q) =>
      match swap_second m1 q with
      | (m2, none) => ((true, m2), 2)
      | (m2, some r) =>
        match _try_rehash_item_counted remaining m2 r with
        | (result, swaps) => (result, swaps + 2)

/-- The iterator position number `index` in the order of a traversal: the
slots of `table0`, then the slots of `table1`, then the sentinel word, which
is number `table0.size() + table1.size()`. -/
def position (m : CuckooHashMap K V) (index : Nat) : Iterator :=
  if index < m.table0.size then ⟨Index.FIRST, index⟩
  else ⟨Index.SECOND, ((index - m.table0.size : Nat) : Int)⟩

/-- The state `m'` arises from `m` by writes to real slots and by rounds of
`nullify` and `generate_constants` on both tables: `Rewritten m m'`. -/
inductive Rewritten : CuckooHashMap K V → CuckooHashMap K V → Prop where
  | same (m : CuckooHashMap K V) : Rewritten m m
  | set0 (m m1 : CuckooHashMap K V) (i : Nat) (x : Option (Item K V)) :
      Rewritten m m1 → Rewritten m { m1 with table0 := m1.table0.set i x }
  | set1 (m m1 : CuckooHashMap K V) (j : Nat) (x : Option (Item K V)) :
      Rewritten m m1 → Rewritten m { m1 with table1 := m1.table1.set j x }
  | regenerate (m m1 m2 : CuckooHashMap K V) (gen gen' : Generator) :
      Rewritten m m1 → regenerate m1 gen = some (m2, gen') → Rewritten m m2

/-- The state of `_resize` right after the two calls of `reset`. -/
def reset_tables (m : CuckooHashMap K V) : CuckooHashMap K V :=
  { m with _capacity := m._size * 4,
           table0 := m.table0.reset (m._size * 4) 0,
           table1 := m.table1.reset (m._size * 4) 1 }

/-- The state `m'` arises from `m` by the steps the mutating operations other
than `clear` are made of: rewrites of the slots and constants, changes of
`_size`, and runs of `_resize` past the floor, which are entered with
`_size == _capacity / 2` or `_size == _capacity / 8`, reset both tables,
rewrite them and store the sentinel: `Evolved m m'`. -/
inductive Evolved [Inhabited K] [Inhabited V] : CuckooHashMap K V → CuckooHashMap K V → Prop where
  | same (m : CuckooHashMap K V) : Evolved m m
  | rewrite (m m1 m2 : CuckooHashMap K V) : Evolved m m1 → Rewritten m1 m2 → Evolved m m2
  | count (m m1 : CuckooHashMap K V) (n : Nat) : Evolved m m1 → Evolved m { m1 with _size := n }
  | resize (m m1 m2 : CuckooHashMap K V) : Evolved m m1 →
      (m1._size = m1._capacity / 2 ∨ m1._size = m1._capacity / 8) →
      MINIMUM_CAPACITY ≤ m1._size * 4 → Rewritten (reset_tables m1) m2 →
      Evolved m { m2 with table1 := m2.table1.set_extra (some ⟨default, default, (0, 0)⟩) }

/-- One call of `insert`, `operator[]`, `insert_or_assign`, `erase` or
`erase_if_found` that has returned: `Edit m m'`. -/
inductive Edit [DecidableEq K] [Inhabited K] [Inhabited V] :
    CuckooHashMap K V → CuckooHashMap K V → Prop where
  | insert (m m' : CuckooHashMap K V) (key : K) (value : V) (gen gen' : Generator) (it : Iterator) :
      m.insert key value gen = some (it, m', gen') → Edit m m'
  | erase_if_found (m m' : CuckooHashMap K V) (key : K) (gen gen' : Generator) (found : Bool) :
      m.erase_if_found key gen = some (found, m', gen') → Edit m m'
  | erase (m m' : CuckooHashMap K V) (key : K) (gen gen' : Generator) :
      m.erase key gen = some (Except.ok (m', gen')) → Edit m m'
  | subscript (m m' : CuckooHashMap K V) (key : K) (gen gen' : Generator) (v : V) :
      m.subscript key gen = some (v, m', gen') → Edit m m'
  | insert_or_assign (m m' : CuckooHashMap K V) (key : K) (value : V) (gen gen' : Generator)
      (r : Iterator × Bool) :
      m.insert_or_assign key value gen = some (r, m', gen') → Edit m m'

/-- A sequence of such calls: `Edits m m'`. -/
inductive Edits [DecidableEq K] [Inhabited K] [Inhabited V] :
    CuckooHashMap K V → CuckooHashMap K V → Prop where
  | done (m : CuckooHashMap K V) : Edits m m
  | next (m m1 m2 : CuckooHashMap K V) : Edits m m1 → Edit m1 m2 → Edits m m2

/-- The constant `PRIME` of either table is a prime number. -/
def PrimeConstants (m : CuckooHashMap K V) : Prop :=
  Nat.Prime m.table0._constants.PRIME ∧ Nat.Prime m.table1._constants.PRIME

end Operations

/-! ## Concrete scenarios -/

deriving instance DecidableEq for Except

/-- Six draws: the constants `(A, B, PRIME) = (64, 64, 67)` for each of the
two tables.  All three numbers lie in the range `[64, 10^6]` of the
distribution and 67 passes `_is_prime`. -/
def draws : Generator := [64, 64, 67, 64, 64, 67]

/-- A stub pre-hash that maps every key to the same value. -/
def stub_pre_hash (_ : Nat) : Nat := 0

/-- The identity pre-hash on `size_t` keys. -/
def identity_pre_hash (key : Nat) : Nat := key

/-- A map of capacity 16 with the stub pre-hash, after `insert(1, 10)` and
`insert(2, 20)`. -/
def two_collisions : Option (CuckooHashMap Nat Nat × Generator) :=
  (CuckooHashMap.create stub_pre_hash 16 draws).bind fun r => insert_all r.1 [(1, 10), (2, 20)] r.2

/-- The map `two_collisions` after `insert(3, 30)`, with six more draws at
hand for the rehash. -/
def three_collisions : Option (CuckooHashMap Nat Nat × Generator) :=
  two_collisions.bind fun r => insert_all r.1 [(3, 30)] draws

/-- A map of capacity 16 with the identity pre-hash, after `insert(22, 1)`,
`insert(31, 2)` and `insert(98, 3)`.  Under the constants of `draws` the
candidate slots are `(1, 2)` for 22 and `(6, 2)` for 31 and 98. -/
def three_keys : Option (CuckooHashMap Nat Nat × Generator) :=
  (CuckooHashMap.create identity_pre_hash 16 draws).bind fun r =>
    insert_all r.1 [(22, 1), (31, 2), (98, 3)] r.2

/-- The map `three_keys` after `insert(89, 4)`; the candidate slots of 89 are
`(1, 2)`. -/
def four_keys : Option (CuckooHashMap Nat Nat × Generator) :=
  three_keys.bind fun r => insert_all r.1 [(89, 4)] draws

/-- The state of `two_collisions`. -/
def two_collisions_map : CuckooHashMap Nat Nat := (two_collisions.get (by decide)).1

/-- The state of `three_collisions`. -/
def three_collisions_map : CuckooHashMap Nat Nat := (three_collisions.get (by decide)).1

/-- The state of `three_keys`. -/
def three_keys_map : CuckooHashMap Nat Nat := (three_keys.get (by decide)).1

/-- A fresh map of capacity 16 with the stub pre-hash, and the draws that
are left of twelve. -/
def fresh_stub : CuckooHashMap Nat Nat × Generator :=
  (CuckooHashMap.create stub_pre_hash 16 (draws ++ draws)).get (by decide)

/-- The outcome of inserting the keys 1, 2, 3 into `fresh_stub`. -/
def three_inserts : CuckooHashMap Nat Nat × Generator :=
  (insert_all fresh_stub.1 [(1, 10), (2, 20), (3, 30)] fresh_stub.2).get (by decide)

/-- A map of capacity 16 with the identity pre-hash after the inserts of the
keys 0 to 6, which go to seven different slots of `table0`. -/
def seven_keys : Option (CuckooHashMap Nat Nat × Generator) :=
  (CuckooHashMap.create identity_pre_hash 16 draws).bind fun r =>
    insert_all r.1 [(0, 0), (1, 10), (2, 20), (3, 30), (4, 40), (5, 50), (6, 60)] r.2

/-- The state of `seven_keys`. -/
def seven_keys_map : CuckooHashMap Nat Nat := (seven_keys.get (by decide)).1

/-- The state in which the eighth insert, `insert(7, 70)`, calls `_resize`:
the new item is placed and `_size` has become `8 = _capacity / 2`. -/
def resize_input : CuckooHashMap Nat Nat :=
  { (swap_first seven_keys_map ⟨7, 70, _hashes seven_keys_map 7⟩).1 with _size := 8 }

/-- The outcome of `_resize` on `resize_input`. -/
def resize_output : CuckooHashMap Nat Nat × Generator :=
  (_resize resize_input draws).get (by decide)

/-- A map of capacity 16 with the identity pre-hash after `insert(22, 1)` and
`insert(89, 2)`: both keys have the candidate slots `(1, 2)`, so 89 sits in
slot 1 of `table0` and 22 in slot 2 of `table1`. -/
def pair_keys : Option (CuckooHashMap Nat Nat × Generator) :=
  (CuckooHashMap.create identity_pre_hash 16 draws).bind fun r =>
    insert_all r.1 [(22, 1), (89, 2)] r.2

/-- The state of `pair_keys`. -/
def pair_keys_map : CuckooHashMap Nat Nat := (pair_keys.get (by decide)).1

/-- A fresh map of capacity 16 with the identity pre-hash. -/
def fresh_identity : CuckooHashMap Nat Nat × Generator :=
  (CuckooHashMap.create identity_pre_hash 16 draws).get (by decide)

/-- The map `resize_output` (capacity 32, keys 0 to 7) after
`erase_if_found` of the keys 0, 1 and 2. -/
def five_keys : Option (Bool × CuckooHashMap Nat Nat × Generator) :=
  ((resize_output.1.erase_if_found 0 []).bind fun r => r.2.1.erase_if_found 1 []).bind fun r =>
    r.2.1.erase_if_found 2 []

/-- The state of `five_keys`: size 5, capacity 32. -/
def five_keys_map : CuckooHashMap Nat Nat := (five_keys.get (by decide)).2.1

/-- The outcome of `erase_if_found(3)` on `five_keys_map`. -/
def shrink_outcome : Bool × CuckooHashMap Nat Nat × Generator :=
  (five_keys_map.erase_if_found 3 draws).get (by decide)

/-- The map built by the initializer-list constructor from the list
`{(1, 10)}` with the stub pre-hash and capacity 16. -/
def listed_map : CuckooHashMap Nat Nat :=
  ((CuckooHashMap.create_from_list [(1, 10)] stub_pre_hash 16 draws).get (by decide)).1

/-- The state in which `erase_if_found(22)` on `three_keys_map` calls
`_resize`: slot 1 of `table0` is cleared and `_size` has become
`2 = _capacity / 8`. -/
def floor_input : CuckooHashMap Nat Nat :=
  { three_keys_map with table0 := three_keys_map.table0.set 1 none, _size := 2 }

/-- A fresh map of capacity 4 with the identity pre-hash: `table0` has 2
real slots and `table1` has 3. -/
def small_fresh : CuckooHashMap Nat Nat × Generator :=
  (CuckooHashMap.create identity_pre_hash 4 draws).get (by decide)

/-- The outcome of `insert(1, 10)` on `small_fresh`. -/
def small_one : Iterator × CuckooHashMap Nat Nat × Generator :=
  (small_fresh.1.insert 1 10 []).get (by decide)

/-- The outcome of `insert(2, 20)` after that: `_size` becomes
`2 = _capacity / 2`. -/
def small_two : Iterator × CuckooHashMap Nat Nat × Generator :=
  (small_one.2.1.insert 2 20 []).get (by decide)

/-- A fresh map of capacity 16 with the identity pre-hash after `clear()`:
both tables have 8 real slots. -/
def cleared_fresh : CuckooHashMap Nat Nat := fresh_identity.1.clear

/-- The map `cleared_fresh` after `insert(22, 1)` and `insert(89, 2)`: both
keys have the candidate slots `(1, 1)`, so 89 sits in slot 1 of `table0` and
22 in slot 1 of `table1`. -/
def cleared_pair : Option (CuckooHashMap Nat Nat × Generator) :=
  insert_all cleared_fresh [(22, 1), (89, 2)] []

/-- The state of `cleared_pair`. -/
def cleared_pair_map : CuckooHashMap Nat Nat := (cleared_pair.get (by decide)).1

/-- The map after a call of `erase`: the new state when it returned, the old
one when it threw. -/
def after_erase {K V : Type} (m : CuckooHashMap K V)
    (r : Except Error (CuckooHashMap K V × Generator)) : CuckooHashMap K V :=
  match r with
  | Except.ok (m', _) => m'
  | Except.error _ => m

section Lemmas

variable {K V : Type} {α : Type}

/-! ## Slot arrays as lists -/

theorem reduceOption_set_perm (l : List (Option α)) (i : Nat) (x : Option α) (h : i < l.length) :
    ((l.set i x).reduceOption ++ (l.getD i none).toList).Perm (x.toList ++ l.reduceOption) := by
  induction l generalizing i with
  | nil => simp at h
  | cons a l ih =>
    cases i with
    | zero =>
      cases a <;> cases x <;> simp [List.reduceOption_cons_of_some, List.reduceOption_cons_of_none]
    | succ i =>
      have := ih i (by simpa using h)
      cases a with
      | none => simpa [List.reduceOption_cons_of_none] using this
      | some a =>
        simp only [List.set_cons_succ, List.reduceOption_cons_of_some, List.getD_cons_succ, List.cons_append]
        exact (this.cons a).trans List.perm_middle.symm

theorem reduceOption_replicate_none (n : Nat) : (List.replicate n (none : Option α)).reduceOption = [] := by
  induction n with
  | zero => rfl
  | succ n ih => simp [List.replicate_succ, List.reduceOption_cons_of_none, ih]

theorem getD_set_eq (l : List (Option α)) (i j : Nat) (x : Option α) :
    (l.set i x).getD j none = if i = j ∧ i < l.length then x else l.getD j none := by
  simp only [List.getD_eq_getElem?_getD, List.getElem?_set]
  by_cases hij : i = j
  · by_cases hl : i < l.length
    · subst hij
      simp [hl]
    · subst hij
      simp [hl]
      simp at hl
      simp [List.getElem?_eq_none hl]
  · simp [hij]

theorem getD_eq_some_iff (l : List (Option α)) (i : Nat) (a : α) :
    l.getD i none = some a ↔ l[i]? = some (some a) := by
  simp only [List.getD_eq_getElem?_getD]
  cases h : l[i]? with
  | none => simp
  | some o => simp

theorem mem_reduceOption_of_getD (l : List (Option α)) (i : Nat) (a : α) (h : l.getD i none = some a) :
    a ∈ l.reduceOption := by
  rw [List.reduceOption_mem_iff]
  rw [getD_eq_some_iff] at h
  exact List.getElem?_mem h

theorem getD_of_mem_reduceOption (l : List (Option α)) (a : α) (h : a ∈ l.reduceOption) :
    ∃ i, l.getD i none = some a := by
  rw [List.reduceOption_mem_iff] at h
  obtain ⟨i, hi⟩ := List.getElem?_of_mem h
  exact ⟨i, (getD_eq_some_iff l i a).2 hi⟩

theorem lt_length_of_getD (l : List (Option α)) (i : Nat) (a : α) (h : l.getD i none = some a) :
    i < l.length := by
  rw [getD_eq_some_iff] at h
  by_contra hc
  simp at hc
  simp [List.getElem?_eq_none hc] at h

/-! ## States that differ only in slot contents -/

theorem SameFrame.same (m : CuckooHashMap K V) : SameFrame m m :=
  ⟨rfl, rfl, rfl, rfl, rfl, rfl, rfl, rfl⟩

theorem SameFrame.step {m1 m2 m3 : CuckooHashMap K V} (h12 : SameFrame m1 m2) (h23 : SameFrame m2 m3) :
    SameFrame m1 m3 :=
  ⟨h23.pre_hash.trans h12.pre_hash, h23.constants0.trans h12.constants0,
    h23.constants1.trans h12.constants1, h23.size0.trans h12.size0, h23.size1.trans h12.size1,
    h23.count.trans h12.count, h23.capacity.trans h12.capacity, h23.sentinel.trans h12.sentinel⟩

theorem SameFrame.hashes {m m' : CuckooHashMap K V} (h : SameFrame m m') (key : K) :
    _hashes m' key = _hashes m key := by
  have h0 := h.size0
  have h1 := h.size1
  simp only [Table.size] at h0 h1
  simp [_hashes, Table.hash, h.pre_hash, h.constants0, h.constants1, h0, h1]

theorem SameFrame.cached {m m' : CuckooHashMap K V} (h : SameFrame m m') {item : Item K V}
    (hc : Cached m item) : Cached m' item := by
  unfold Cached at *
  rw [h.hashes]; exact hc

theorem swap_first_frame (m : CuckooHashMap K V) (p : Item K V) : SameFrame m (swap_first m p).1 := by
  constructor <;> simp [swap_first, Table.set, Table.size, Data.size]

theorem swap_second_frame (m : CuckooHashMap K V) (p : Item K V) : SameFrame m (swap_second m p).1 := by
  constructor <;> simp [swap_second, Table.set, Table.size, Data.size]

theorem Cached.lt0 {m : CuckooHashMap K V} {p : Item K V} (hc : Cached m p) (h0 : 0 < m.table0.size) :
    p.hashes.1 < m.table0.size := by
  unfold Cached at hc
  rw [hc]
  exact Nat.mod_lt _ h0

theorem Cached.lt1 {m : CuckooHashMap K V} {p : Item K V} (hc : Cached m p) (h1 : 0 < m.table1.size) :
    p.hashes.2 < m.table1.size := by
  unfold Cached at hc
  rw [hc]
  exact Nat.mod_lt _ h1

theorem swap_first_placed {m : CuckooHashMap K V} {p : Item K V} (hp : Placed m) (hc : Cached m p) :
    Placed (swap_first m p).1 := by
  have hf := swap_first_frame m p
  refine ⟨?_, ?_⟩
  · intro i item hi
    simp only [swap_first, Table.get, Table.set, getD_set_eq] at hi
    split at hi
    · rename_i h
      cases hi
      exact ⟨hf.cached hc, h.1⟩
    · exact ⟨hf.cached (hp.1 i item hi).1, (hp.1 i item hi).2⟩
  · intro j item hj
    exact ⟨hf.cached (hp.2 j item hj).1, (hp.2 j item hj).2⟩

theorem swap_second_placed {m : CuckooHashMap K V} {p : Item K V} (hp : Placed m) (hc : Cached m p) :
    Placed (swap_second m p).1 := by
  have hf := swap_second_frame m p
  refine ⟨?_, ?_⟩
  · intro i item hi
    exact ⟨hf.cached (hp.1 i item hi).1, (hp.1 i item hi).2⟩
  · intro j item hj
    simp only [swap_second, Table.get, Table.set, getD_set_eq] at hj
    split at hj
    · rename_i h
      cases hj
      exact ⟨hf.cached hc, h.1⟩
    · exact ⟨hf.cached (hp.2 j item hj).1, (hp.2 j item hj).2⟩

theorem swap_first_out {m : CuckooHashMap K V} (p q : Item K V) (hp : Placed m)
    (h : (swap_first m p).2 = some q) : Cached (swap_first m p).1 q :=
  (swap_first_frame m p).cached (hp.1 _ q h).1

theorem swap_second_out {m : CuckooHashMap K V} (p q : Item K V) (hp : Placed m)
    (h : (swap_second m p).2 = some q) : Cached (swap_second m p).1 q :=
  (swap_second_frame m p).cached (hp.2 _ q h).1

theorem swap_first_perm (m : CuckooHashMap K V) (p : Item K V) (h : p.hashes.1 < m.table0.size) :
    (live (swap_first m p).1 ++ (swap_first m p).2.toList).Perm (p :: live m) := by
  have key := reduceOption_set_perm m.table0._data._items p.hashes.1 (some p) h
  show ((m.table0._data._items.set p.hashes.1 (some p)).reduceOption ++ m.table1._data._items.reduceOption
    ++ (m.table0._data._items.getD p.hashes.1 none).toList).Perm
    (p :: (m.table0._data._items.reduceOption ++ m.table1._data._items.reduceOption))
  rw [List.append_assoc]
  refine (List.Perm.append_left _ List.perm_append_comm).trans ?_
  rw [← List.append_assoc]
  exact key.append_right _

theorem swap_second_perm (m : CuckooHashMap K V) (p : Item K V) (h : p.hashes.2 < m.table1.size) :
    (live (swap_second m p).1 ++ (swap_second m p).2.toList).Perm (p :: live m) := by
  have key := reduceOption_set_perm m.table1._data._items p.hashes.2 (some p) h
  show (m.table0._data._items.reduceOption ++ (m.table1._data._items.set p.hashes.2 (some p)).reduceOption
    ++ (m.table1._data._items.getD p.hashes.2 none).toList).Perm
    (p :: (m.table0._data._items.reduceOption ++ m.table1._data._items.reduceOption))
  rw [List.append_assoc]
  refine (List.Perm.append_left _ key).trans ?_
  exact List.perm_middle

/-! ## The displacement loops -/

theorem _insert_loop_spec (remaining : Nat) (m : CuckooHashMap K V) (p : Option (Item K V))
    (hp : Placed m) (hc : ∀ q, p = some q → Cached m q)
    (h0 : 0 < m.table0.size) (h1 : 0 < m.table1.size) :
    SameFrame m (_insert_loop remaining m p).1 ∧ Placed (_insert_loop remaining m p).1 ∧
      (live (_insert_loop remaining m p).1 ++ (_insert_loop remaining m p).2.toList).Perm
        (p.toList ++ live m) := by
  induction remaining generalizing m p with
  | zero =>
    cases p with
    | none => simp [_insert_loop, SameFrame.same, hp]
    | some p =>
      simp only [_insert_loop, Option.toList, SameFrame.same, hp, true_and]
      exact List.perm_append_comm
  | succ n ih =>
    cases p with
    | none => simp [_insert_loop, SameFrame.same, hp]
    | some p =>
      have hcp := hc p rfl
      have f1 := swap_second_frame m p
      have p1 := swap_second_placed hp hcp
      have e1 := swap_second_perm m p (hcp.lt1 h1)
      rcases hs : swap_second m p with ⟨m1, q⟩
      rw [hs] at f1 p1 e1
      simp only at f1 p1 e1
      cases q with
      | none =>
        simp only [_insert_loop, hs]
        exact ⟨f1, p1, by simpa using e1⟩
      | some q =>
        have hcq : Cached m1 q := by
          have := swap_second_out p q hp (by rw [hs])
          rwa [hs] at this
        have f2 := swap_first_frame m1 q
        have p2 := swap_first_placed p1 hcq
        have e2 := swap_first_perm m1 q (hcq.lt0 (by rw [f1.size0]; exact h0))
        rcases hs2 : swap_first m1 q with ⟨m2, r⟩
        rw [hs2] at f2 p2 e2
        simp only at f2 p2 e2
        have hcr : ∀ r', r = some r' → Cached m2 r' := by
          intro r' hr
          have := swap_first_out q r' p1 (by rw [hs2]; exact hr)
          rwa [hs2] at this
        obtain ⟨f3, p3, e3⟩ := ih m2 r p2 hcr (by rw [f2.size0, f1.size0]; exact h0)
          (by rw [f2.size1, f1.size1]; exact h1)
        simp only [_insert_loop, hs, hs2]
        refine ⟨(f1.step f2).step f3, p3, e3.trans ?_⟩
        -- r.toList ++ live m2 ~ p :: live m
        have e2' : (r.toList ++ live m2).Perm (q :: live m1) := List.perm_append_comm.trans e2
        have e1' : (q :: live m1).Perm (p :: live m) := by
          simpa using (List.perm_append_comm.trans e1)
        simpa using e2'.trans e1'

theorem _try_rehash_item_spec (remaining : Nat) (m : CuckooHashMap K V) (p : Item K V)
    (hp : Placed m) (hc : Cached m p) (h0 : 0 < m.table0.size) (h1 : 0 < m.table1.size) :
    SameFrame m (_try_rehash_item remaining m p).2 ∧ Placed (_try_rehash_item remaining m p).2 ∧
      ((_try_rehash_item remaining m p).1 = true →
        (live (_try_rehash_item remaining m p).2).Perm (p :: live m)) := by
  induction remaining generalizing m p with
  | zero => simp [_try_rehash_item, SameFrame.same, hp]
  | succ n ih =>
    have f1 := swap_first_frame m p
    have p1 := swap_first_placed hp hc
    have e1 := swap_first_perm m p (hc.lt0 h0)
    rcases hs : swap_first m p with ⟨m1, q⟩
    rw [hs] at f1 p1 e1
    simp only at f1 p1 e1
    cases q with
    | none =>
      simp only [_try_rehash_item, hs]
      exact ⟨f1, p1, fun _ => by simpa using e1⟩
    | some q =>
      have hcq : Cached m1 q := by
        have := swap_first_out p q hp (by rw [hs])
        rwa [hs] at this
      have f2 := swap_second_frame m1 q
      have p2 := swap_second_placed p1 hcq
      have e2 := swap_second_perm m1 q (hcq.lt1 (by rw [f1.size1]; exact h1))
      rcases hs2 : swap_second m1 q with ⟨m2, r⟩
      rw [hs2] at f2 p2 e2
      simp only at f2 p2 e2
      have e1' : (q :: live m1).Perm (p :: live m) := by
        simpa using (List.perm_append_comm.trans e1)
      cases r with
      | none =>
        simp only [_try_rehash_item, hs, hs2]
        exact ⟨f1.step f2, p2, fun _ => (by simpa using e2 : (live m2).Perm (q :: live m1)).trans e1'⟩
      | some r =>
        have hcr : Cached m2 r := by
          have := swap_second_out q r p1 (by rw [hs2])
          rwa [hs2] at this
        obtain ⟨f3, p3, e3⟩ := ih m2 r p2 hcr (by rw [f2.size0, f1.size0]; exact h0)
          (by rw [f2.size1, f1.size1]; exact h1)
        simp only [_try_rehash_item, hs, hs2]
        refine ⟨(f1.step f2).step f3, p3, fun hb => (e3 hb).trans ?_⟩
        have e2' : (r :: live m2).Perm (q :: live m1) := by
          simpa using (List.perm_append_comm.trans e2)
        exact e2'.trans e1'

theorem _try_rehash_table_spec (old : List (Option (Item K V))) (m : CuckooHashMap K V)
    (hp : Placed m) (h0 : 0 < m.table0.size) (h1 : 0 < m.table1.size) :
    SameFrame m (_try_rehash_table m old).2 ∧ Placed (_try_rehash_table m old).2 ∧
      ((_try_rehash_table m old).1 = true →
        (pairs (_try_rehash_table m old).2).Perm (old.reduceOption.map Item.pair ++ pairs m)) := by
  induction old generalizing m with
  | nil => simp [_try_rehash_table, SameFrame.same, hp]
  | cons a old ih =>
    cases a with
    | none => simpa [_try_rehash_table, List.reduceOption_cons_of_none] using ih m hp h0 h1
    | some p =>
      have hc : Cached m { p with hashes := _hashes m p.key } := rfl
      obtain ⟨f1, p1, e1⟩ := _try_rehash_item_spec CYCLE_LIMIT m _ hp hc h0 h1
      rcases hs : _try_rehash_item CYCLE_LIMIT m { p with hashes := _hashes m p.key } with ⟨b, m1⟩
      rw [hs] at f1 p1 e1
      simp only at f1 p1 e1
      cases b with
      | false => simp only [_try_rehash_table, hs]; exact ⟨f1, p1, by simp⟩
      | true =>
        obtain ⟨f2, p2, e2⟩ := ih m1 p1 (by rw [f1.size0]; exact h0) (by rw [f1.size1]; exact h1)
        simp only [_try_rehash_table, hs]
        refine ⟨f1.step f2, p2, fun hb => (e2 hb).trans ?_⟩
        have e1' : (pairs m1).Perm (p.pair :: pairs m) := by
          have := (e1 rfl).map Item.pair
          simpa [pairs, Item.pair] using this
        simp only [List.reduceOption_cons_of_some, List.map_cons, List.cons_append]
        exact (List.Perm.append_left _ e1').trans List.perm_middle

theorem _try_rehash_spec (old : List (Option (Item K V)) × List (Option (Item K V)))
    (m : CuckooHashMap K V) (hp : Placed m) (h0 : 0 < m.table0.size) (h1 : 0 < m.table1.size) :
    SameFrame m (_try_rehash m old).2 ∧ Placed (_try_rehash m old).2 ∧
      ((_try_rehash m old).1 = true →
        (pairs (_try_rehash m old).2).Perm
          ((old.1.reduceOption ++ old.2.reduceOption).map Item.pair ++ pairs m)) := by
  obtain ⟨f1, p1, e1⟩ := _try_rehash_table_spec old.1 m hp h0 h1
  rcases hs : _try_rehash_table m old.1 with ⟨b, m1⟩
  rw [hs] at f1 p1 e1
  simp only at f1 p1 e1
  cases b with
  | false => simp only [_try_rehash, hs]; exact ⟨f1, p1, by simp⟩
  | true =>
    obtain ⟨f2, p2, e2⟩ := _try_rehash_table_spec old.2 m1 p1 (by rw [f1.size0]; exact h0)
      (by rw [f1.size1]; exact h1)
    simp only [_try_rehash, hs]
    refine ⟨f1.step f2, p2, fun hb => (e2 hb).trans ?_⟩
    rw [List.map_append, List.append_assoc]
    exact (List.Perm.append_left _ (e1 rfl)).trans
      ((List.perm_append_comm_assoc _ _ _))

/-! ## Rehash and resize -/

theorem SameShape.same_shape (m : CuckooHashMap K V) : SameShape m m :=
  ⟨rfl, rfl, rfl, rfl, rfl, rfl⟩

theorem SameShape.step_shape {m1 m2 m3 : CuckooHashMap K V} (h12 : SameShape m1 m2) (h23 : SameShape m2 m3) :
    SameShape m1 m3 :=
  ⟨h23.pre_hash.trans h12.pre_hash, h23.size0.trans h12.size0, h23.size1.trans h12.size1,
    h23.count.trans h12.count, h23.capacity.trans h12.capacity, h23.sentinel.trans h12.sentinel⟩

theorem SameFrame.shape {m m' : CuckooHashMap K V} (h : SameFrame m m') : SameShape m m' :=
  ⟨h.pre_hash, h.size0, h.size1, h.count, h.capacity, h.sentinel⟩

theorem generate_constants_data (t t' : Table K V) (gen gen' : Generator)
    (h : t.generate_constants gen = some (t', gen')) : t'._data = t._data := by
  unfold Table.generate_constants at h
  split at h
  · split at h
    · cases h; rfl
    · cases h
  · cases h

theorem regenerate_spec (m m1 : CuckooHashMap K V) (gen gen1 : Generator)
    (h : regenerate m gen = some (m1, gen1)) :
    SameShape m m1 ∧ Placed m1 ∧ live m1 = [] := by
  unfold regenerate at h
  split at h
  · cases h
  · rename_i t0 gen0 h0
    split at h
    · cases h
    · rename_i t1 gen1' h1
      cases h
      have d0 := generate_constants_data _ _ _ _ h0
      have d1 := generate_constants_data _ _ _ _ h1
      have e0 : t0._data._items = List.replicate m.table0._data._items.length none := by
        rw [d0]; rfl
      have e1 : t1._data._items = List.replicate m.table1._data._items.length none := by
        rw [d1]; rfl
      refine ⟨⟨rfl, ?_, ?_, rfl, rfl, ?_⟩, ⟨?_, ?_⟩, ?_⟩
      · simp [Table.size, Data.size, e0]
      · simp [Table.size, Data.size, e1]
      · show t1._data.past = _
        rw [d1]; rfl
      · intro i item hi
        simp [Table.get, e0, List.getD_eq_getElem?_getD, List.getElem?_replicate] at hi
        split at hi <;> simp at hi
      · intro i item hi
        simp [Table.get, e1, List.getD_eq_getElem?_getD, List.getElem?_replicate] at hi
        split at hi <;> simp at hi
      · simp [live, e0, e1, reduceOption_replicate_none]

theorem _rehash_loop_spec (fuel : Nat) (m m' : CuckooHashMap K V)
    (old : List (Option (Item K V)) × List (Option (Item K V))) (gen gen' : Generator)
    (h0 : 0 < m.table0.size) (h1 : 0 < m.table1.size)
    (h : _rehash_loop fuel m old gen = some (m', gen')) :
    SameShape m m' ∧ Placed m' ∧
      (pairs m').Perm ((old.1.reduceOption ++ old.2.reduceOption).map Item.pair) := by
  induction fuel generalizing m gen with
  | zero => simp [_rehash_loop] at h
  | succ n ih =>
    simp only [_rehash_loop] at h
    split at h
    · cases h
    · rename_i m1 gen1 hr
      obtain ⟨s1, p1, l1⟩ := regenerate_spec m m1 gen gen1 hr
      have h0' : 0 < m1.table0.size := by rw [s1.size0]; exact h0
      have h1' : 0 < m1.table1.size := by rw [s1.size1]; exact h1
      obtain ⟨f2, p2, e2⟩ := _try_rehash_spec old m1 p1 h0' h1'
      split at h
      · rename_i m2 ht
        cases h
        rw [ht] at f2 p2 e2
        refine ⟨s1.step_shape f2.shape, p2, ?_⟩
        have := e2 rfl
        simpa [pairs, l1] using this
      · rename_i m2 ht
        rw [ht] at f2
        obtain ⟨s3, p3, e3⟩ := ih m2 gen1 (by rw [f2.size0]; exact h0') (by rw [f2.size1]; exact h1') h
        exact ⟨(s1.step_shape f2.shape).step_shape s3, p3, e3⟩

theorem _rehash_spec (m m' : CuckooHashMap K V)
    (old : List (Option (Item K V)) × List (Option (Item K V))) (gen gen' : Generator)
    (h0 : 0 < m.table0.size) (h1 : 0 < m.table1.size)
    (h : _rehash m old gen = some (m', gen')) :
    SameShape m m' ∧ Placed m' ∧
      (pairs m').Perm ((old.1.reduceOption ++ old.2.reduceOption).map Item.pair) :=
  _rehash_loop_spec gen.length m m' old gen gen' h0 h1 h

theorem Placed.set_extra {m : CuckooHashMap K V} (hp : Placed m) (x : Option (Item K V)) :
    Placed { m with table1 := m.table1.set_extra x } := hp

theorem _resize_spec [Inhabited K] [Inhabited V] (m m' : CuckooHashMap K V) (gen gen' : Generator)
    (h : _resize m gen = some (m', gen')) :
    (m._size * 4 < MINIMUM_CAPACITY ∧ m' = m ∧ gen' = gen) ∨
    (MINIMUM_CAPACITY ≤ m._size * 4 ∧ m'._capacity = m._size * 4 ∧ m'.table0.size = m._size * 4 ∧
      m'.table1.size = m._size * 4 ∧ m'._size = m._size ∧ m'._pre_hash = m._pre_hash ∧
      Placed m' ∧ (pairs m').Perm (pairs m)) := by
  unfold _resize at h
  simp only at h
  split at h
  · rename_i hlt
    cases h
    exact Or.inl ⟨hlt, rfl, rfl⟩
  · rename_i hge
    have hge' : MINIMUM_CAPACITY ≤ m._size * 4 := Nat.le_of_not_lt hge
    have hpos : 0 < m._size * 4 := Nat.lt_of_lt_of_le (by decide) hge'
    split at h
    · cases h
    · rename_i m2 gen2 hr
      cases h
      obtain ⟨s, p, e⟩ := _rehash_spec _ m2 _ _ _
        (by simpa [Table.reset, Table.size, Data.size, Data.create] using hpos)
        (by simpa [Table.reset, Table.size, Data.size, Data.create] using hpos) hr
      refine Or.inr ⟨hge', ?_, ?_, ?_, ?_, ?_, p, ?_⟩
      · simpa using s.capacity
      · simpa [Table.reset, Table.size, Data.size, Data.create] using s.size0
      · simpa [Table.reset, Table.size, Data.size, Data.create, Table.set_extra] using s.size1
      · simpa using s.count
      · simpa using s.pre_hash
      · simpa [pairs, live, _items, Table.set_extra] using e

/-! ## Writing one slot -/

theorem set0_frame (m : CuckooHashMap K V) (i : Nat) (x : Option (Item K V)) :
    SameFrame m { m with table0 := m.table0.set i x } := by
  constructor <;> simp [Table.set, Table.size, Data.size]

theorem set1_frame (m : CuckooHashMap K V) (j : Nat) (x : Option (Item K V)) :
    SameFrame m { m with table1 := m.table1.set j x } := by
  constructor <;> simp [Table.set, Table.size, Data.size]

theorem set0_placed {m : CuckooHashMap K V} (hp : Placed m) (i : Nat) (x : Option (Item K V))
    (hx : ∀ item, x = some item → Cached m item ∧ item.hashes.1 = i) :
    Placed { m with table0 := m.table0.set i x } := by
  have hf := set0_frame m i x
  refine ⟨?_, ?_⟩
  · intro i' item hi
    simp only [Table.get, Table.set, getD_set_eq] at hi
    split at hi
    · rename_i h
      obtain ⟨hc, hidx⟩ := hx item hi
      exact ⟨hf.cached hc, hidx.trans h.1⟩
    · exact ⟨hf.cached (hp.1 i' item hi).1, (hp.1 i' item hi).2⟩
  · intro j item hj
    exact ⟨hf.cached (hp.2 j item hj).1, (hp.2 j item hj).2⟩

theorem set1_placed {m : CuckooHashMap K V} (hp : Placed m) (j : Nat) (x : Option (Item K V))
    (hx : ∀ item, x = some item → Cached m item ∧ item.hashes.2 = j) :
    Placed { m with table1 := m.table1.set j x } := by
  have hf := set1_frame m j x
  refine ⟨?_, ?_⟩
  · intro i item hi
    exact ⟨hf.cached (hp.1 i item hi).1, (hp.1 i item hi).2⟩
  · intro j' item hj
    simp only [Table.get, Table.set, getD_set_eq] at hj
    split at hj
    · rename_i h
      obtain ⟨hc, hidx⟩ := hx item hj
      exact ⟨hf.cached hc, hidx.trans h.1⟩
    · exact ⟨hf.cached (hp.2 j' item hj).1, (hp.2 j' item hj).2⟩

theorem set0_perm (m : CuckooHashMap K V) (i : Nat) (x : Option (Item K V)) (h : i < m.table0.size) :
    (live { m with table0 := m.table0.set i x } ++ (m.table0.get i).toList).Perm
      (x.toList ++ live m) := by
  have key := reduceOption_set_perm m.table0._data._items i x h
  show ((m.table0._data._items.set i x).reduceOption ++ m.table1._data._items.reduceOption
    ++ (m.table0._data._items.getD i none).toList).Perm
    (x.toList ++ (m.table0._data._items.reduceOption ++ m.table1._data._items.reduceOption))
  rw [List.append_assoc]
  refine (List.Perm.append_left _ List.perm_append_comm).trans ?_
  rw [← List.append_assoc, ← List.append_assoc]
  exact key.append_right _

theorem set1_perm (m : CuckooHashMap K V) (j : Nat) (x : Option (Item K V)) (h : j < m.table1.size) :
    (live { m with table1 := m.table1.set j x } ++ (m.table1.get j).toList).Perm
      (x.toList ++ live m) := by
  have key := reduceOption_set_perm m.table1._data._items j x h
  show (m.table0._data._items.reduceOption ++ (m.table1._data._items.set j x).reduceOption
    ++ (m.table1._data._items.getD j none).toList).Perm
    (x.toList ++ (m.table0._data._items.reduceOption ++ m.table1._data._items.reduceOption))
  rw [List.append_assoc]
  refine (List.Perm.append_left _ key).trans ?_
  exact List.perm_append_comm_assoc _ _ _

theorem get0_lt {m : CuckooHashMap K V} {i : Nat} {item : Item K V}
    (h : m.table0.get i = some item) : i < m.table0.size :=
  lt_length_of_getD _ _ _ h

theorem get1_lt {m : CuckooHashMap K V} {j : Nat} {item : Item K V}
    (h : m.table1.get j = some item) : j < m.table1.size :=
  lt_length_of_getD _ _ _ h

theorem get0_mem_live {m : CuckooHashMap K V} {i : Nat} {item : Item K V}
    (h : m.table0.get i = some item) : item ∈ live m :=
  List.mem_append_left _ (mem_reduceOption_of_getD _ _ _ h)

theorem get1_mem_live {m : CuckooHashMap K V} {j : Nat} {item : Item K V}
    (h : m.table1.get j = some item) : item ∈ live m :=
  List.mem_append_right _ (mem_reduceOption_of_getD _ _ _ h)

theorem mem_live_iff {m : CuckooHashMap K V} {item : Item K V} :
    item ∈ live m ↔ (∃ i, m.table0.get i = some item) ∨ (∃ j, m.table1.get j = some item) := by
  constructor
  · intro h
    rcases List.mem_append.1 h with h | h
    · exact Or.inl (getD_of_mem_reduceOption _ _ h)
    · exact Or.inr (getD_of_mem_reduceOption _ _ h)
  · rintro (⟨i, h⟩ | ⟨j, h⟩)
    · exact get0_mem_live h
    · exact get1_mem_live h

theorem keys_eq_map_pairs (m : CuckooHashMap K V) : keys m = (pairs m).map Prod.fst := by
  simp [keys, pairs, List.map_map, Function.comp_def, Item.pair]

theorem length_pairs (m : CuckooHashMap K V) : (pairs m).length = (live m).length := by
  simp [pairs]

/-! ## Lookups -/

theorem holds_key_iff [DecidableEq K] (p : Option (Item K V)) (key : K) :
    holds_key p key = true ↔ ∃ item, p = some item ∧ item.key = key := by
  cases p <;> simp [holds_key]

theorem contains_iff [DecidableEq K] (m : CuckooHashMap K V) (key : K) :
    m.contains key = true ↔
      holds_key (_first m (_hashes m key).1) key = true ∨
      holds_key (_second m (_hashes m key).2) key = true := by
  unfold CuckooHashMap.contains
  simp only
  split
  · simp [*]
  · split <;> simp [*]

theorem mem_keys_of_contains [DecidableEq K] {m : CuckooHashMap K V} {key : K}
    (h : m.contains key = true) : key ∈ keys m := by
  rw [contains_iff] at h
  rcases h with h | h
  · obtain ⟨item, hi, hk⟩ := (holds_key_iff _ _).1 h
    exact List.mem_map.2 ⟨item, get0_mem_live hi, hk⟩
  · obtain ⟨item, hi, hk⟩ := (holds_key_iff _ _).1 h
    exact List.mem_map.2 ⟨item, get1_mem_live hi, hk⟩

theorem contains_of_mem_keys [DecidableEq K] {m : CuckooHashMap K V} (hp : Placed m) {key : K}
    (h : key ∈ keys m) : m.contains key = true := by
  obtain ⟨item, hmem, hk⟩ := List.mem_map.1 h
  rw [contains_iff]
  rcases mem_live_iff.1 hmem with ⟨i, hi⟩ | ⟨j, hj⟩
  · left
    obtain ⟨hc, hidx⟩ := hp.1 i item hi
    unfold Cached at hc
    rw [hk] at hc
    rw [← hc, hidx]
    exact (holds_key_iff _ _).2 ⟨item, hi, hk⟩
  · right
    obtain ⟨hc, hidx⟩ := hp.2 j item hj
    unfold Cached at hc
    rw [hk] at hc
    rw [← hc, hidx]
    exact (holds_key_iff _ _).2 ⟨item, hj, hk⟩

theorem _at_mem [DecidableEq K] {m : CuckooHashMap K V} {key : K} {v : V}
    (h : _at m key = Except.ok v) : ∃ item ∈ live m, item.key = key ∧ item.value = v := by
  unfold _at at h
  simp only at h
  split at h
  · rename_i first h1
    split at h
    · rename_i hk
      cases h
      exact ⟨first, get0_mem_live h1, hk, rfl⟩
    · split at h
      · rename_i second h2
        split at h
        · rename_i hk
          cases h
          exact ⟨second, get1_mem_live h2, hk, rfl⟩
        · cases h
      · cases h
  · split at h
    · rename_i second h2
      split at h
      · rename_i hk
        cases h
        exact ⟨second, get1_mem_live h2, hk, rfl⟩
      · cases h
    · cases h

theorem _at_ok_of_contains [DecidableEq K] {m : CuckooHashMap K V} {key : K}
    (h : m.contains key = true) : ∃ v, _at m key = Except.ok v := by
  rw [contains_iff] at h
  unfold _at
  simp only
  rcases h with h | h
  · obtain ⟨item, hi, hk⟩ := (holds_key_iff _ _).1 h
    rw [hi]
    simp [hk]
  · obtain ⟨item, hi, hk⟩ := (holds_key_iff _ _).1 h
    rw [hi]
    split
    · split
      · exact ⟨_, rfl⟩
      · simp [hk]
    · simp [hk]

theorem _at_error_of_not_contains [DecidableEq K] {m : CuckooHashMap K V} {key : K}
    (h : m.contains key = false) : _at m key = Except.error Error.invalid_argument := by
  cases hat : _at m key with
  | ok v =>
    exfalso
    have hc : ¬ (m.contains key = true) := by simp [h]
    apply hc
    rw [contains_iff]
    unfold _at at hat
    simp only at hat
    split at hat
    · rename_i first h1
      split at hat
      · rename_i hk
        exact Or.inl ((holds_key_iff _ _).2 ⟨first, h1, hk⟩)
      · split at hat
        · rename_i second h2
          split at hat
          · rename_i hk
            exact Or.inr ((holds_key_iff _ _).2 ⟨second, h2, hk⟩)
          · cases hat
        · cases hat
    · split at hat
      · rename_i second h2
        split at hat
        · rename_i hk
          exact Or.inr ((holds_key_iff _ _).2 ⟨second, h2, hk⟩)
        · cases hat
      · cases hat
  | error e => cases e; rfl

theorem eq_of_mem_live_of_key {m : CuckooHashMap K V} (hn : (keys m).Nodup) {a b : Item K V}
    (ha : a ∈ live m) (hb : b ∈ live m) (hk : a.key = b.key) : a = b :=
  List.inj_on_of_nodup_map hn ha hb hk

theorem _at_of_mem_pairs [DecidableEq K] {m : CuckooHashMap K V} (hp : Placed m)
    (hn : (keys m).Nodup) {key : K} {v : V} (h : (key, v) ∈ pairs m) :
    _at m key = Except.ok v := by
  obtain ⟨item, hmem, hpair⟩ := List.mem_map.1 h
  have hk : item.key = key := congrArg Prod.fst hpair
  have hv : item.value = v := congrArg Prod.snd hpair
  have hc : m.contains key = true :=
    contains_of_mem_keys hp (List.mem_map.2 ⟨item, hmem, hk⟩)
  obtain ⟨v', hv'⟩ := _at_ok_of_contains hc
  obtain ⟨item', hmem', hk', hval'⟩ := _at_mem hv'
  have : item' = item := eq_of_mem_live_of_key hn hmem' hmem (hk'.trans hk.symm)
  rw [hv', ← hval', this, hv]

/-! ## Structural insert -/

theorem _insert_finish_spec [Inhabited K] [Inhabited V] (m m' : CuckooHashMap K V)
    (gen gen' : Generator) (hp : Placed m) (h0 : 0 < m.table0.size) (h1 : 0 < m.table1.size)
    (h : _insert_finish m gen = some (m', gen')) :
    Placed m' ∧ 0 < m'.table0.size ∧ 0 < m'.table1.size ∧ m'._size = m._size + 1 ∧
      m'._pre_hash = m._pre_hash ∧ (pairs m').Perm (pairs m) := by
  unfold _insert_finish at h
  simp only at h
  split at h
  · rcases _resize_spec _ _ _ _ h with ⟨_, hm, _⟩ | ⟨hge, _, s0, s1, hsz, hpre, hpl, hperm⟩
    · subst hm
      exact ⟨hp, h0, h1, rfl, rfl, List.Perm.refl _⟩
    · have hpos : 0 < (m._size + 1) * 4 := by omega
      exact ⟨hpl, by rw [s0]; exact hpos, by rw [s1]; exact hpos, hsz, hpre, hperm⟩
  · cases h
    exact ⟨hp, h0, h1, rfl, rfl, List.Perm.refl _⟩

theorem _insert_spec [Inhabited K] [Inhabited V] (m m' : CuckooHashMap K V) (p : Item K V)
    (gen gen' : Generator) (it : Iterator) (hp : Placed m) (h0 : 0 < m.table0.size)
    (h1 : 0 < m.table1.size) (hc : Cached m p)
    (h : _insert m p gen = some (it, m', gen')) :
    Placed m' ∧ 0 < m'.table0.size ∧ 0 < m'.table1.size ∧ m'._size = m._size + 1 ∧
      m'._pre_hash = m._pre_hash ∧
      ∃ dropped : List (K × V), dropped.length ≤ 1 ∧ (pairs m' ++ dropped).Perm (p.pair :: pairs m) := by
  unfold _insert at h
  simp only at h
  have f1 := swap_first_frame m p
  have p1 := swap_first_placed hp hc
  have e1 := swap_first_perm m p (hc.lt0 h0)
  rcases hs : swap_first m p with ⟨m1, q1⟩
  rw [hs] at f1 p1 e1 h
  simp only at f1 p1 e1 h
  have hcq : ∀ q, q1 = some q → Cached m1 q := by
    intro q hq
    have := swap_first_out p q hp (by rw [hs]; exact hq)
    rwa [hs] at this
  have h0' : 0 < m1.table0.size := by rw [f1.size0]; exact h0
  have h1' : 0 < m1.table1.size := by rw [f1.size1]; exact h1
  obtain ⟨f2, p2, e2⟩ := _insert_loop_spec CYCLE_LIMIT m1 q1 p1 hcq h0' h1'
  rcases hl : _insert_loop CYCLE_LIMIT m1 q1 with ⟨m2, q2⟩
  rw [hl] at f2 p2 e2 h
  simp only at f2 p2 e2 h
  have h0'' : 0 < m2.table0.size := by rw [f2.size0]; exact h0'
  have h1'' : 0 < m2.table1.size := by rw [f2.size1]; exact h1'
  have e12 : (live m2 ++ q2.toList).Perm (p :: live m) :=
    e2.trans (List.perm_append_comm.trans e1)
  cases q2 with
  | none =>
    rcases hfin : _insert_finish m2 gen with _ | ⟨m3, gen3⟩
    · simp [hfin] at h
    simp only [hfin, Option.map_some', Option.some.injEq, Prod.mk.injEq] at h
    obtain ⟨-, hm, hg⟩ := h
    subst hm hg
    obtain ⟨p3, a, b, hsz, hpre, hperm⟩ := _insert_finish_spec m2 m3 gen gen3 p2 h0'' h1'' hfin
    refine ⟨p3, a, b, ?_, ?_, [], by simp, ?_⟩
    · rw [hsz, f2.count, f1.count]
    · rw [hpre, f2.pre_hash, f1.pre_hash]
    · have : (pairs m2).Perm (p.pair :: pairs m) := by
        have := e12.map Item.pair
        simpa [pairs] using this
      simpa using hperm.trans this
  | some q =>
    rcases hr : _rehash m2 (_items m2) gen with _ | ⟨m3, gen3⟩
    · simp [hr] at h
    · simp only [hr] at h
      rcases hfin : _insert_finish m3 gen3 with _ | ⟨m4, gen4⟩
      · simp [hfin] at h
      simp only [hfin, Option.map_some', Option.some.injEq, Prod.mk.injEq] at h
      obtain ⟨-, hm, hg⟩ := h
      subst hm hg
      obtain ⟨s3, p3, e3⟩ := _rehash_spec m2 m3 _ gen gen3 h0'' h1'' hr
      obtain ⟨p4, a, b, hsz, hpre, hperm⟩ := _insert_finish_spec m3 m4 gen3 gen4 p3
        (by rw [s3.size0]; exact h0'') (by rw [s3.size1]; exact h1'') hfin
      refine ⟨p4, a, b, ?_, ?_, [q.pair], by simp, ?_⟩
      · rw [hsz, s3.count, f2.count, f1.count]
      · rw [hpre, s3.pre_hash, f2.pre_hash, f1.pre_hash]
      · have e3' : (pairs m3).Perm (pairs m2) := by simpa [pairs, live, _items] using e3
        have : (pairs m2 ++ [q.pair]).Perm (p.pair :: pairs m) := by
          have := e12.map Item.pair
          simpa [pairs] using this
        exact ((hperm.trans e3').append_right _).trans this

/-! ## The invariant -/

theorem Inv.of_perm {m m' : CuckooHashMap K V} (hinv : Inv m) (hp : Placed m')
    (h0 : 0 < m'.table0.size) (h1 : 0 < m'.table1.size) (extra dropped : List (K × V))
    (hperm : (pairs m' ++ dropped).Perm (extra ++ pairs m))
    (hnew : ∀ x ∈ extra, x.1 ∉ keys m) (hex : (extra.map Prod.fst).Nodup)
    (hsz : (live m).length + extra.length ≤ m'._size + dropped.length) : Inv m' := by
  refine ⟨hp, ?_, h0, h1, ?_⟩
  · have hk := hperm.map Prod.fst
    rw [List.map_append, List.map_append, ← keys_eq_map_pairs, ← keys_eq_map_pairs] at hk
    have hnd : (extra.map Prod.fst ++ keys m).Nodup := by
      refine List.Nodup.append hex hinv.nodup ?_
      intro a ha hb
      obtain ⟨x, hx, rfl⟩ := List.mem_map.1 ha
      exact hnew x hx hb
    exact (List.nodup_append.1 (hk.nodup_iff.2 hnd)).1
  · have hl := hperm.length_eq
    simp only [List.length_append, length_pairs] at hl
    omega

/-! ## Update in place -/

theorem set0_value_inv {m : CuckooHashMap K V} (hinv : Inv m) {i : Nat} {item : Item K V}
    (hi : m.table0.get i = some item) (value : V) :
    Inv { m with table0 := m.table0.set i (set_value (m.table0.get i) value) } ∧
      (keys { m with table0 := m.table0.set i (set_value (m.table0.get i) value) }).Perm (keys m) := by
  have hf := set0_frame m i (set_value (m.table0.get i) value)
  have hperm := set0_perm m i (set_value (m.table0.get i) value) (get0_lt hi)
  rw [hi] at hperm hf ⊢
  simp only [set_value, Option.map_some', Option.toList, List.singleton_append] at hperm hf ⊢
  have hk : (keys { m with table0 := m.table0.set i (some { item with value := value }) }).Perm
      (keys m) := by
    have := (List.perm_append_comm.trans hperm).map Item.key
    simp only [List.map_cons, List.singleton_append] at this
    exact this.cons_inv
  refine ⟨⟨?_, hk.nodup_iff.2 hinv.nodup, ?_, ?_, ?_⟩, hk⟩
  · refine set0_placed hinv.placed i _ ?_
    intro item' h'
    cases h'
    exact ⟨(hinv.placed.1 i item hi).1, (hinv.placed.1 i item hi).2⟩
  · rw [hf.size0]; exact hinv.pos0
  · rw [hf.size1]; exact hinv.pos1
  · have := hk.length_eq
    simp only [keys, List.length_map] at this
    rw [this]
    exact hinv.count

theorem set1_value_inv {m : CuckooHashMap K V} (hinv : Inv m) {j : Nat} {item : Item K V}
    (hj : m.table1.get j = some item) (value : V) :
    Inv { m with table1 := m.table1.set j (set_value (m.table1.get j) value) } ∧
      (keys { m with table1 := m.table1.set j (set_value (m.table1.get j) value) }).Perm (keys m) := by
  have hf := set1_frame m j (set_value (m.table1.get j) value)
  have hperm := set1_perm m j (set_value (m.table1.get j) value) (get1_lt hj)
  rw [hj] at hperm hf ⊢
  simp only [set_value, Option.map_some', Option.toList, List.singleton_append] at hperm hf ⊢
  have hk : (keys { m with table1 := m.table1.set j (some { item with value := value }) }).Perm
      (keys m) := by
    have := (List.perm_append_comm.trans hperm).map Item.key
    simp only [List.map_cons, List.singleton_append] at this
    exact this.cons_inv
  refine ⟨⟨?_, hk.nodup_iff.2 hinv.nodup, ?_, ?_, ?_⟩, hk⟩
  · refine set1_placed hinv.placed j _ ?_
    intro item' h'
    cases h'
    exact ⟨(hinv.placed.2 j item hj).1, (hinv.placed.2 j item hj).2⟩
  · rw [hf.size0]; exact hinv.pos0
  · rw [hf.size1]; exact hinv.pos1
  · have := hk.length_eq
    simp only [keys, List.length_map] at this
    rw [this]
    exact hinv.count

theorem _try_update_of_not_contains [DecidableEq K] (m : CuckooHashMap K V) (key : K) (value : V)
    (h : m.contains key = false) : _try_update m key value = ((m.end_, _hashes m key), m) := by
  have hc : ¬ (m.contains key = true) := by simp [h]
  rw [contains_iff, not_or] at hc
  unfold _try_update
  simp only
  rw [if_neg hc.1, if_neg hc.2]

theorem _try_update_snd_hashes [DecidableEq K] (m : CuckooHashMap K V) (key : K) (value : V) :
    (_try_update m key value).1.2 = _hashes m key := by
  unfold _try_update
  simp only
  split
  · rfl
  · split <;> rfl

theorem _try_update_of_contains [DecidableEq K] (m : CuckooHashMap K V) (key : K) (value : V)
    (h : m.contains key = true) :
    (_try_update m key value).1.1 ≠ (_try_update m key value).2.end_ := by
  rw [contains_iff] at h
  unfold _try_update
  simp only
  split
  · simp [CuckooHashMap.end_]
  · rename_i h1
    have h2 : holds_key (_second m (_hashes m key).2) key = true := by
      rcases h with h | h
      · exact absurd h h1
      · exact h
    rw [if_pos h2]
    obtain ⟨item, hi, -⟩ := (holds_key_iff _ _).1 h2
    have hlt := get1_lt hi
    simp only [CuckooHashMap.end_, ne_eq, Iterator.mk.injEq, true_and]
    simp only [Table.size, Data.size, Table.set, List.length_set] at hlt ⊢
    omega

theorem _try_update_inv [DecidableEq K] {m : CuckooHashMap K V} (hinv : Inv m) (key : K) (value : V) :
    Inv (_try_update m key value).2 ∧ (keys (_try_update m key value).2).Perm (keys m) ∧
      (_try_update m key value).2._size = m._size ∧
      (_try_update m key value).2._pre_hash = m._pre_hash := by
  unfold _try_update
  simp only
  split
  · rename_i h1
    obtain ⟨item, hi, -⟩ := (holds_key_iff _ _).1 h1
    obtain ⟨a, b⟩ := set0_value_inv hinv hi value
    exact ⟨a, b, rfl, rfl⟩
  · split
    · rename_i h2
      obtain ⟨item, hi, -⟩ := (holds_key_iff _ _).1 h2
      obtain ⟨a, b⟩ := set1_value_inv hinv hi value
      exact ⟨a, b, rfl, rfl⟩
    · exact ⟨hinv, List.Perm.refl _, rfl, rfl⟩

theorem _at_assign_eq [DecidableEq K] (m : CuckooHashMap K V) (key : K) (value : V) :
    _at_assign m key value =
      if m.contains key = true then Except.ok (_try_update m key value).2
      else Except.error Error.invalid_argument := by
  unfold _at_assign _try_update CuckooHashMap.contains
  simp only
  split
  · simp
  · split <;> simp

/-! ## Public operations keep the invariant -/

theorem insert_spec [DecidableEq K] [Inhabited K] [Inhabited V] {m m' : CuckooHashMap K V}
    (hinv : Inv m) {key : K} {value : V} {gen gen' : Generator} {it : Iterator}
    (h : m.insert key value gen = some (it, m', gen')) :
    Inv m' ∧ m'._pre_hash = m._pre_hash ∧
      (m.contains key = true → m'._size = m._size) ∧
      (m.contains key = false → m'._size = m._size + 1) ∧
      (∀ k ∈ keys m', k = key ∨ k ∈ keys m) := by
  unfold CuckooHashMap.insert at h
  cases hc : m.contains key with
  | true =>
    have hne := _try_update_of_contains m key value hc
    obtain ⟨i1, k1, s1, ph1⟩ := _try_update_inv hinv key value
    rcases hu : _try_update m key value with ⟨update, m1⟩
    rw [hu] at h hne i1 k1 s1 ph1
    simp only at h hne i1 k1 s1 ph1
    rw [if_pos hne] at h
    simp only [Option.some.injEq, Prod.mk.injEq] at h
    obtain ⟨-, hm, -⟩ := h
    subst hm
    exact ⟨i1, ph1, fun _ => s1, (fun hf => by cases hf), fun k hk => Or.inr (k1.subset hk)⟩
  | false =>
    rw [_try_update_of_not_contains m key value hc] at h
    simp only [ne_eq, not_true_eq_false, if_false] at h
    have hnk : key ∉ keys m := fun hk => by
      have := contains_of_mem_keys hinv.placed hk
      rw [hc] at this
      cases this
    obtain ⟨pl, a, b, hsz, hpre, dropped, hd, hperm⟩ :=
      _insert_spec m m' ⟨key, value, _hashes m key⟩ gen gen' it hinv.placed hinv.pos0 hinv.pos1 rfl h
    have hinv' : Inv m' := by
      refine Inv.of_perm hinv pl a b [(key, value)] dropped hperm ?_ (by simp) ?_
      · intro x hx
        simp only [List.mem_singleton] at hx
        subst hx
        exact hnk
      · have := hinv.count
        simp only [List.length_singleton]
        omega
    refine ⟨hinv', hpre, (fun hf => by cases hf), fun _ => hsz, ?_⟩
    intro k hk
    rw [keys_eq_map_pairs] at hk
    obtain ⟨x, hx, rfl⟩ := List.mem_map.1 hk
    have : x ∈ (⟨key, value, _hashes m key⟩ : Item K V).pair :: pairs m :=
      hperm.subset (List.mem_append_left _ hx)
    rcases List.mem_cons.1 this with h1 | h1
    · left; rw [h1]; rfl
    · right; rw [keys_eq_map_pairs]; exact List.mem_map.2 ⟨x, h1, rfl⟩

theorem _erase_spec [Inhabited K] [Inhabited V] {m m' : CuckooHashMap K V} (hinv : Inv m)
    (table : Index) {hash : Nat} {item : Item K V} {gen gen' : Generator}
    (hslot : (match table with
      | Index.FIRST => m.table0.get hash
      | Index.SECOND => m.table1.get hash) = some item)
    (h : _erase m table hash gen = some (m', gen')) :
    Inv m' ∧ m'._pre_hash = m._pre_hash ∧ m'._size = m._size - 1 ∧
      (pairs m' ++ [item.pair]).Perm (pairs m) := by
  -- the state after `p_item = nullptr`
  have key : ∀ m1 : CuckooHashMap K V, Placed m1 → SameFrame m m1 →
      (live m1 ++ [item]).Perm (live m) →
      (if m1._size - 1 = m1._capacity / 8 then _resize { m1 with _size := m1._size - 1 } gen
        else some ({ m1 with _size := m1._size - 1 }, gen)) = some (m', gen') →
      Inv m' ∧ m'._pre_hash = m._pre_hash ∧ m'._size = m._size - 1 ∧
        (pairs m' ++ [item.pair]).Perm (pairs m) := by
    intro m1 p1 f1 e1 h
    have a1 : 0 < m1.table0.size := by rw [f1.size0]; exact hinv.pos0
    have b1 : 0 < m1.table1.size := by rw [f1.size1]; exact hinv.pos1
    have e1' : (pairs m1 ++ [item.pair]).Perm (pairs m) := by
      have := e1.map Item.pair
      simpa [pairs] using this
    have hcount : (live m1).length + 1 ≤ m._size := by
      have := e1.length_eq
      have := hinv.count
      simp only [List.length_append, List.length_singleton] at *
      omega
    have fin : ∀ m2 : CuckooHashMap K V, Placed m2 → 0 < m2.table0.size → 0 < m2.table1.size →
        m2._size = m._size - 1 → m2._pre_hash = m._pre_hash → (pairs m2).Perm (pairs m1) →
        Inv m2 ∧ m2._pre_hash = m._pre_hash ∧ m2._size = m._size - 1 ∧
          (pairs m2 ++ [item.pair]).Perm (pairs m) := by
      intro m2 p2 a b hsz hpre hperm
      have hperm2 : (pairs m2 ++ [item.pair]).Perm (pairs m) := (hperm.append_right _).trans e1'
      refine ⟨Inv.of_perm hinv p2 a b [] [item.pair] hperm2 (by simp) (by simp) ?_, hpre, hsz, hperm2⟩
      have := hinv.count
      simp only [List.length_nil, List.length_singleton]
      omega
    split at h
    · rcases _resize_spec _ _ _ _ h with ⟨_, hm, _⟩ | ⟨hge, _, s0, s1, hsz, hpre, hpl, hperm⟩
      · subst hm
        exact fin _ p1 a1 b1 (by simp [f1.count]) f1.pre_hash (List.Perm.refl _)
      · simp only at hge s0 s1 hsz hpre
        have hpos : 0 < (m1._size - 1) * 4 := Nat.lt_of_lt_of_le (by decide) hge
        exact fin _ hpl (by rw [s0]; exact hpos) (by rw [s1]; exact hpos)
          (by rw [hsz, f1.count]) (by rw [hpre, f1.pre_hash]) hperm
    · cases h
      exact fin _ p1 a1 b1 (by simp [f1.count]) f1.pre_hash (List.Perm.refl _)
  unfold _erase at h
  simp only at h
  cases table with
  | FIRST =>
    simp only at hslot h
    refine key _ (set0_placed hinv.placed hash none (by simp)) (set0_frame m hash none) ?_ h
    have := set0_perm m hash none (get0_lt hslot)
    simpa [hslot] using this
  | SECOND =>
    simp only at hslot h
    refine key _ (set1_placed hinv.placed hash none (by simp)) (set1_frame m hash none) ?_ h
    have := set1_perm m hash none (get1_lt hslot)
    simpa [hslot] using this

theorem erase_if_found_spec [DecidableEq K] [Inhabited K] [Inhabited V] {m m' : CuckooHashMap K V}
    (hinv : Inv m) {key : K} {gen gen' : Generator} {found : Bool}
    (h : m.erase_if_found key gen = some (found, m', gen')) :
    Inv m' ∧ m'._pre_hash = m._pre_hash ∧ found = m.contains key ∧
      (found = false → m' = m ∧ gen' = gen) ∧
      (found = true → m'._size = m._size - 1 ∧
        ∃ item : Item K V, item.key = key ∧ (pairs m' ++ [item.pair]).Perm (pairs m)) := by
  unfold CuckooHashMap.erase_if_found at h
  simp only at h
  split at h
  · rename_i h1
    obtain ⟨item, hi, hk⟩ := (holds_key_iff _ _).1 h1
    rcases he : _erase m Index.FIRST (_hashes m key).1 gen with _ | ⟨m2, gen2⟩
    · simp [he] at h
    simp only [he, Option.map_some', Option.some.injEq, Prod.mk.injEq] at h
    obtain ⟨hf, hm, hg⟩ := h
    subst hf hm hg
    obtain ⟨i2, hpre, hsz, hperm⟩ := _erase_spec hinv Index.FIRST hi he
    refine ⟨i2, hpre, ?_, by simp, fun _ => ⟨hsz, item, hk, hperm⟩⟩
    exact ((contains_iff m key).2 (Or.inl h1)).symm
  · rename_i h1
    split at h
    · rename_i h2
      obtain ⟨item, hi, hk⟩ := (holds_key_iff _ _).1 h2
      rcases he : _erase m Index.SECOND (_hashes m key).2 gen with _ | ⟨m2, gen2⟩
      · simp [he] at h
      simp only [he, Option.map_some', Option.some.injEq, Prod.mk.injEq] at h
      obtain ⟨hf, hm, hg⟩ := h
      subst hf hm hg
      obtain ⟨i2, hpre, hsz, hperm⟩ := _erase_spec hinv Index.SECOND hi he
      refine ⟨i2, hpre, ?_, by simp, fun _ => ⟨hsz, item, hk, hperm⟩⟩
      exact ((contains_iff m key).2 (Or.inr h2)).symm
    · rename_i h2
      simp only [Option.some.injEq, Prod.mk.injEq] at h
      obtain ⟨hf, hm, hg⟩ := h
      subst hf hm hg
      refine ⟨hinv, rfl, ?_, fun _ => ⟨rfl, rfl⟩, fun hf => by cases hf⟩
      cases hc : m.contains key with
      | false => rfl
      | true =>
        rcases (contains_iff m key).1 hc with h | h
        · exact absurd h h1
        · exact absurd h h2

theorem erase_eq [DecidableEq K] [Inhabited K] [Inhabited V] (m : CuckooHashMap K V) (key : K)
    (gen : Generator) (r : Except Error (CuckooHashMap K V × Generator)) :
    m.erase key gen = some r ↔
      (∃ m' gen', m.erase_if_found key gen = some (true, m', gen') ∧ r = Except.ok (m', gen')) ∨
      (∃ m' gen', m.erase_if_found key gen = some (false, m', gen') ∧
        r = Except.error Error.invalid_argument) := by
  unfold CuckooHashMap.erase
  rcases h : m.erase_if_found key gen with _ | ⟨found, m', gen'⟩
  · simp
  · cases found
    · simp only [Option.some.injEq, Prod.mk.injEq, Bool.false_eq_true, false_and, exists_const,
        exists_false, true_and, false_or]
      exact ⟨fun h => ⟨m', gen', ⟨rfl, rfl⟩, h.symm⟩, fun ⟨_, _, _, h⟩ => h.symm⟩
    · simp only [Option.some.injEq, Prod.mk.injEq, true_and, Bool.true_eq_false, false_and,
        exists_const, exists_false, or_false]
      constructor
      · intro h; exact ⟨m', gen', ⟨rfl, rfl⟩, h.symm⟩
      · rintro ⟨a, b, ⟨rfl, rfl⟩, h⟩; exact h.symm

theorem not_contains_of_at_error [DecidableEq K] {m : CuckooHashMap K V} {key : K} {e : Error}
    (h : _at m key = Except.error e) : m.contains key = false := by
  cases hc : m.contains key with
  | false => rfl
  | true =>
    obtain ⟨v, hv⟩ := _at_ok_of_contains hc
    rw [hv] at h
    cases h

theorem not_mem_keys_of_not_contains [DecidableEq K] {m : CuckooHashMap K V} (hp : Placed m)
    {key : K} (h : m.contains key = false) : key ∉ keys m := by
  intro hk
  have := contains_of_mem_keys hp hk
  rw [h] at this
  cases this

theorem _insert_inv [DecidableEq K] [Inhabited K] [Inhabited V] {m m' : CuckooHashMap K V}
    (hinv : Inv m) {key : K} {value : V} {gen gen' : Generator} {it : Iterator}
    (hc : m.contains key = false)
    (h : _insert m ⟨key, value, _hashes m key⟩ gen = some (it, m', gen')) :
    Inv m' ∧ m'._pre_hash = m._pre_hash ∧ m'._size = m._size + 1 ∧
      ∃ dropped : List (K × V), dropped.length ≤ 1 ∧
        (pairs m' ++ dropped).Perm ((key, value) :: pairs m) := by
  obtain ⟨pl, a, b, hsz, hpre, dropped, hd, hperm⟩ :=
    _insert_spec m m' ⟨key, value, _hashes m key⟩ gen gen' it hinv.placed hinv.pos0 hinv.pos1 rfl h
  refine ⟨?_, hpre, hsz, dropped, hd, hperm⟩
  refine Inv.of_perm hinv pl a b [(key, value)] dropped hperm ?_ (by simp) ?_
  · intro x hx
    simp only [List.mem_singleton] at hx
    subst hx
    exact not_mem_keys_of_not_contains hinv.placed hc
  · have := hinv.count
    simp only [List.length_singleton]
    omega

theorem subscript_inv [DecidableEq K] [Inhabited K] [Inhabited V] {m m' : CuckooHashMap K V}
    (hinv : Inv m) {key : K} {gen gen' : Generator} {v : V}
    (h : m.subscript key gen = some (v, m', gen')) : Inv m' := by
  unfold CuckooHashMap.subscript at h
  split at h
  · simp only [Option.some.injEq, Prod.mk.injEq] at h
    obtain ⟨-, hm, -⟩ := h
    subst hm
    exact hinv
  · rename_i e hat
    rcases hi : _insert m ⟨key, default, _hashes m key⟩ gen with _ | ⟨it, m2, gen2⟩
    · simp [hi] at h
    simp only [hi, Option.some.injEq, Prod.mk.injEq] at h
    obtain ⟨-, hm, -⟩ := h
    subst hm
    exact (_insert_inv hinv (not_contains_of_at_error hat) hi).1

theorem insert_or_assign_inv [DecidableEq K] [Inhabited K] [Inhabited V] {m m' : CuckooHashMap K V}
    (hinv : Inv m) {key : K} {value : V} {gen gen' : Generator} {r : Iterator × Bool}
    (h : m.insert_or_assign key value gen = some (r, m', gen')) : Inv m' := by
  unfold CuckooHashMap.insert_or_assign at h
  rw [_at_assign_eq] at h
  cases hc : m.contains key with
  | true =>
    simp only [hc, if_true, Option.some.injEq, Prod.mk.injEq] at h
    obtain ⟨-, hm, -⟩ := h
    subst hm
    exact (_try_update_inv hinv key value).1
  | false =>
    simp only [hc, Bool.false_eq_true, if_false] at h
    rcases hi : _insert m ⟨key, value, _hashes m key⟩ gen with _ | ⟨it, m2, gen2⟩
    · simp [hi] at h
    simp only [hi, Option.some.injEq, Prod.mk.injEq] at h
    obtain ⟨-, hm, -⟩ := h
    subst hm
    exact (_insert_inv hinv hc hi).1

theorem inv_of_empty {m : CuckooHashMap K V} (h0 : m.table0._data._items = List.replicate m.table0.size none)
    (h1 : m.table1._data._items = List.replicate m.table1.size none)
    (a : 0 < m.table0.size) (b : 0 < m.table1.size) : Inv m := by
  have hl : live m = [] := by
    unfold live
    rw [h0, h1]
    simp [reduceOption_replicate_none]
  refine ⟨⟨?_, ?_⟩, ?_, a, b, ?_⟩
  · intro i item hi
    have := get0_mem_live hi
    rw [hl] at this
    cases this
  · intro i item hi
    have := get1_mem_live hi
    rw [hl] at this
    cases this
  · simp [keys, hl]
  · simp [hl]

theorem clear_inv [Inhabited K] [Inhabited V] (m : CuckooHashMap K V) : Inv m.clear := by
  apply inv_of_empty <;>
    simp [CuckooHashMap.clear, Table.reset, Table.set_extra, Data.create, Table.size, Data.size,
      MINIMUM_CAPACITY]

theorem create_tables_spec {capacity : Nat} {gen gen1 : Generator} {t0 t1 : Table K V}
    (h : create_tables capacity gen = some ((t0, t1), gen1)) :
    t0._data = Data.create (capacity / 2) 0 ∧ t1._data = Data.create (capacity / 2 + 1) 0 := by
  unfold create_tables at h
  rcases h0 : (Table.create (capacity / 2) gen : Option (Table K V × Generator)) with _ | ⟨a, g0⟩
  · simp [h0] at h
  simp only [h0] at h
  rcases h1 : (Table.create (capacity / 2 + 1) g0 : Option (Table K V × Generator)) with _ | ⟨b, g1⟩
  · simp [h1] at h
  simp only [h1, Option.some.injEq, Prod.mk.injEq] at h
  obtain ⟨⟨ha, hb⟩, -⟩ := h
  subst ha hb
  exact ⟨generate_constants_data _ _ _ _ h0, generate_constants_data _ _ _ _ h1⟩

theorem create_inv [Inhabited K] [Inhabited V] {pre_hash : K → Nat} {capacity : Nat}
    {gen gen' : Generator} {m : CuckooHashMap K V} (hcap : 2 ≤ capacity)
    (h : CuckooHashMap.create pre_hash capacity gen = some (m, gen')) : Inv m := by
  unfold CuckooHashMap.create at h
  rcases ht : (create_tables capacity gen : Option ((Table K V × Table K V) × Generator))
    with _ | ⟨⟨t0, t1⟩, g⟩
  · simp [ht] at h
  simp only [ht, Option.some.injEq, Prod.mk.injEq] at h
  obtain ⟨hm, -⟩ := h
  subst hm
  obtain ⟨d0, d1⟩ := create_tables_spec ht
  have : 0 < capacity / 2 := by omega
  apply inv_of_empty <;>
    simp [Table.set_extra, Table.size, Data.size, d0, d1, Data.create, this]

theorem create_from_list_inv {items : List (K × V)} {pre_hash : K → Nat} {capacity : Nat}
    {gen gen' : Generator} {m : CuckooHashMap K V} (hcap : 2 ≤ max items.length capacity)
    (h : CuckooHashMap.create_from_list items pre_hash capacity gen = some (m, gen')) : Inv m := by
  unfold CuckooHashMap.create_from_list at h
  rcases ht : (create_tables (max items.length capacity) gen :
    Option ((Table K V × Table K V) × Generator)) with _ | ⟨⟨t0, t1⟩, g⟩
  · simp [ht] at h
  simp only [ht, Option.some.injEq, Prod.mk.injEq] at h
  obtain ⟨hm, -⟩ := h
  subst hm
  obtain ⟨d0, d1⟩ := create_tables_spec ht
  have : 0 < max items.length capacity / 2 := by omega
  apply inv_of_empty <;>
    simp [Table.size, Data.size, d0, d1, Data.create, this]

theorem Reachable.inv [DecidableEq K] [Inhabited K] [Inhabited V] {m : CuckooHashMap K V}
    (h : Reachable m) : Inv m := by
  induction h with
  | create pre_hash capacity gen gen' m hcap hc => exact create_inv hcap hc
  | create_from_list items pre_hash capacity gen gen' m hcap hc => exact create_from_list_inv hcap hc
  | insert m m' key value gen gen' it _ hi ih => exact (insert_spec ih hi).1
  | erase_if_found m m' key gen gen' found _ he ih => exact (erase_if_found_spec ih he).1
  | erase m m' key gen gen' _ he ih =>
    rcases (erase_eq m key gen _).1 he with ⟨m2, g2, h1, h2⟩ | ⟨m2, g2, _, h2⟩
    · cases h2
      exact (erase_if_found_spec ih h1).1
    · cases h2
  | subscript m m' key gen gen' v _ hs ih => exact subscript_inv ih hs
  | insert_or_assign m m' key value gen gen' r _ hs ih => exact insert_or_assign_inv ih hs
  | clear m _ ih => exact clear_inv m

/-! ## Adequacy of the bounded loops -/

theorem sqrt_from_eq (fuel value r : Nat) (hr : r ≤ Nat.sqrt value) (hf : Nat.sqrt value ≤ r + fuel) :
    sqrt_from fuel value r = Nat.sqrt value := by
  induction fuel generalizing r with
  | zero =>
    simp only [sqrt_from]
    omega
  | succ n ih =>
    simp only [sqrt_from]
    split
    · rename_i h
      exact ih (r + 1) (Nat.le_sqrt.2 h) (by omega)
    · rename_i h
      have : ¬ (r + 1 ≤ Nat.sqrt value) := fun hle => h (Nat.le_sqrt.1 hle)
      omega

theorem sqrt_from_zero (value : Nat) : sqrt_from value value 0 = Nat.sqrt value :=
  sqrt_from_eq value value 0 (Nat.zero_le _) (by simpa using Nat.sqrt_le_self value)

/-- C1 (the code breaks it): with a stub pre-hash that sends the keys 1, 2, 3
to the same value, `insert(1, 10)`, `insert(2, 20)`, `insert(3, 30)` on a map
of capacity 16 all return, and immediately after the third `contains(3)` is
false and `at(3)` throws `std::invalid_argument`. -/
theorem insert_loses_inserted_key :
    (three_collisions.map fun r => r.1.contains 3) = some false ∧
    (three_collisions.map fun r => r.1.at_ 3) = some (Except.error Error.invalid_argument) := by
  decide

/-- C2 (the code breaks it): in the map holding 22, 31 and 98, key 22 is
present with value 1; after `insert(89, 4)` returns, `contains(22)` is false
and `at(22)` throws, although 89 is a different key. -/
theorem insert_loses_other_key :
    (three_keys.map fun r => (r.1.contains 22, r.1.at_ 22)) = some (true, Except.ok 1) ∧
    (four_keys.map fun r => (r.1.contains 22, r.1.at_ 22)) =
      some (false, Except.error Error.invalid_argument) ∧
    (four_keys.map fun r => r.1.contains 89) = some true := by
  decide

/-- C3 (the code breaks it): key 3 is absent from `two_collisions`, whose
slots hold `(2, 20)` and `(1, 10)`; after `insert(3, 30)` returns the slots
hold the same two items and no item `(3, 30)`: the item in flight when the
cycle limit is exceeded is not re-homed. -/
theorem insert_drops_item_in_flight :
    (two_collisions.map fun r => (r.1.contains 3, pairs r.1)) = some (false, [(2, 20), (1, 10)]) ∧
    (three_collisions.map fun r => pairs r.1) = some [(2, 20), (1, 10)] := by
  decide

/-- C5 (the code breaks it): after the three inserts of `three_collisions`,
`size()` is 3 while only two real slots hold an item. -/
theorem size_exceeds_live_items :
    (three_collisions.map fun r => (r.1.size, (live r.1).length)) = some (3, 2) := by
  decide

/-- C9 (the code breaks it): after inserting the three distinct keys 1, 2, 3
into a fresh map (`three_collisions`), the traversal from `begin()` to
`end()` visits two positions, holding `(2, 20)` and `(1, 10)`; `(3, 30)` is
not met.  That is with the array of `table0` below that of `table1`; with
the arrays the other way round the traversal also stops at the seven null
slots of `table0`, and `(3, 30)` is not met either. -/
theorem iteration_misses_inserted_pair :
    (three_collisions.map fun r => iteration Layout.first_below r.1) =
      some (some [some (2, 20), some (1, 10)]) ∧
    (three_collisions.map fun r => iteration Layout.second_below r.1) =
      some (some [some (2, 20), none, none, none, none, none, none, none, some (1, 10)]) := by
  decide

theorem reachable_insert_all [DecidableEq K] [Inhabited K] [Inhabited V]
    (kvs : List (K × V)) (m m' : CuckooHashMap K V) (gen gen' : Generator) (hm : Reachable m)
    (h : insert_all m kvs gen = some (m', gen')) : Reachable m' := by
  induction kvs generalizing m gen with
  | nil =>
    simp only [insert_all, Option.some.injEq, Prod.mk.injEq] at h
    rw [← h.1]; exact hm
  | cons kv kvs ih =>
    obtain ⟨key, value⟩ := kv
    simp only [insert_all] at h
    rcases hi : m.insert key value gen with _ | ⟨it, m1, gen1⟩
    · simp [hi] at h
    · simp only [hi] at h
      exact ih m1 gen1 (Reachable.insert m m1 key value gen gen1 it hm hi) h

theorem reachable_create [DecidableEq K] [Inhabited K] [Inhabited V]
    (pre_hash : K → Nat) (capacity : Nat) (gen : Generator) (hcap : 2 ≤ capacity)
    (r : CuckooHashMap K V × Generator)
    (h : CuckooHashMap.create pre_hash capacity gen = some r) : Reachable r.1 :=
  Reachable.create pre_hash capacity gen r.2 r.1 hcap h

theorem reachable_bind_insert_all [DecidableEq K] [Inhabited K] [Inhabited V]
    (o : Option (CuckooHashMap K V × Generator)) (ho : ∀ r, o = some r → Reachable r.1)
    (kvs : List (K × V)) (f : CuckooHashMap K V × Generator → Generator)
    (r : CuckooHashMap K V × Generator)
    (h : (o.bind fun s => insert_all s.1 kvs (f s)) = some r) : Reachable r.1 := by
  rcases ho' : o with _ | s
  · simp [ho'] at h
  · simp only [ho', Option.some_bind] at h
    exact reachable_insert_all kvs s.1 r.1 (f s) r.2 (ho s ho') h

theorem two_collisions_reachable : Reachable two_collisions_map :=
  reachable_bind_insert_all _ (reachable_create stub_pre_hash 16 draws (by decide)) _
    (fun r => r.2) _ (Option.some_get _).symm

theorem three_collisions_reachable : Reachable three_collisions_map :=
  reachable_bind_insert_all _
    (reachable_bind_insert_all _ (reachable_create stub_pre_hash 16 draws (by decide)) _
      (fun r => r.2)) _ (fun _ => draws) _ (Option.some_get _).symm

/-- C4: in every state reachable from a constructor by `insert`, `erase`,
`erase_if_found`, `operator[]`, `insert_or_assign` and `clear`, an item in
slot `i` of `table0` has `table0.hash(pre_hash(key)) = i`, an item in real
slot `j` of `table1` has `table1.hash(pre_hash(key)) = j`, and the keys held
in the slots of the two tables are pairwise distinct. -/
theorem placement_invariant [DecidableEq K] [Inhabited K] [Inhabited V] (m : CuckooHashMap K V)
    (h : Reachable m) :
    (∀ i item, m.table0.get i = some item → m.table0.hash (m._pre_hash item.key) = i) ∧
    (∀ j item, m.table1.get j = some item → m.table1.hash (m._pre_hash item.key) = j) ∧
    (keys m).Nodup := by
  have hinv := h.inv
  refine ⟨?_, ?_, hinv.nodup⟩
  · intro i item hi
    obtain ⟨hc, hidx⟩ := hinv.placed.1 i item hi
    rw [← hidx, hc]
    rfl
  · intro j item hj
    obtain ⟨hc, hidx⟩ := hinv.placed.2 j item hj
    rw [← hidx, hc]
    rfl

/-- Witness for C4: the map with the colliding keys 1 and 2. -/
theorem placement_invariant_witness :
    Reachable two_collisions_map ∧
    ((∀ i item, two_collisions_map.table0.get i = some item →
        two_collisions_map.table0.hash (two_collisions_map._pre_hash item.key) = i) ∧
      (∀ j item, two_collisions_map.table1.get j = some item →
        two_collisions_map.table1.hash (two_collisions_map._pre_hash item.key) = j) ∧
      (keys two_collisions_map).Nodup) :=
  ⟨two_collisions_reachable, placement_invariant two_collisions_map two_collisions_reachable⟩

theorem erase_if_found_of_not_contains [DecidableEq K] [Inhabited K] [Inhabited V]
    (m : CuckooHashMap K V) (key : K) (gen : Generator) (h : m.contains key = false) :
    m.erase_if_found key gen = some (false, m, gen) := by
  have hc : ¬ (m.contains key = true) := by simp [h]
  rw [contains_iff, not_or] at hc
  unfold CuckooHashMap.erase_if_found
  simp only
  rw [if_neg hc.1, if_neg hc.2]

theorem erase_of_not_contains [DecidableEq K] [Inhabited K] [Inhabited V]
    (m : CuckooHashMap K V) (key : K) (gen : Generator) (h : m.contains key = false) :
    m.erase key gen = some (Except.error Error.invalid_argument) := by
  unfold CuckooHashMap.erase
  rw [erase_if_found_of_not_contains m key gen h]

theorem three_keys_reachable : Reachable three_keys_map :=
  reachable_bind_insert_all _ (reachable_create identity_pre_hash 16 draws (by decide)) _
    (fun r => r.2) _ (Option.some_get _).symm

theorem _at_of_first [DecidableEq K] (m : CuckooHashMap K V) (key : K) (item : Item K V)
    (h : _first m (_hashes m key).1 = some item) (hk : item.key = key) :
    _at m key = Except.ok item.value := by
  unfold _at
  simp only
  rw [h]
  simp [hk]

theorem _at_of_second [DecidableEq K] (m : CuckooHashMap K V) (key : K) (item : Item K V)
    (h1 : holds_key (_first m (_hashes m key).1) key = false)
    (h : _second m (_hashes m key).2 = some item) (hk : item.key = key) :
    _at m key = Except.ok item.value := by
  unfold _at
  simp only
  rw [h]
  cases hf : _first m (_hashes m key).1 with
  | none => simp [hk]
  | some first =>
    rw [hf] at h1
    have : ¬ first.key = key := by simpa [holds_key] using h1
    simp [hk, this]

theorem get_set_self_or {l : List (Option (Item K V))} (i j : Nat) (item : Item K V) (value : V)
    (key : K) (hi : l.getD i none = some item) (hk : item.key = key) :
    (l.set i (some { item with value := value })).getD j none = l.getD j none ∨
      ∃ old, l.getD j none = some old ∧ old.key = key ∧
        (l.set i (some { item with value := value })).getD j none = some { old with value := value } := by
  rw [getD_set_eq]
  split
  · rename_i h
    right
    exact ⟨item, by rw [← h.1]; exact hi, hk, rfl⟩
  · left; rfl

theorem _try_update_state [DecidableEq K] (m : CuckooHashMap K V) (key : K) (value : V)
    (h : m.contains key = true) :
    (∃ item, _first m (_hashes m key).1 = some item ∧ item.key = key ∧
      (_try_update m key value).2 =
        { m with table0 := m.table0.set (_hashes m key).1 (some { item with value := value }) }) ∨
    (holds_key (_first m (_hashes m key).1) key = false ∧
      ∃ item, _second m (_hashes m key).2 = some item ∧ item.key = key ∧
        (_try_update m key value).2 =
          { m with table1 := m.table1.set (_hashes m key).2 (some { item with value := value }) }) := by
  rw [contains_iff] at h
  unfold _try_update
  simp only
  by_cases h1 : holds_key (_first m (_hashes m key).1) key = true
  · rw [if_pos h1]
    obtain ⟨item, hi, hk⟩ := (holds_key_iff _ _).1 h1
    exact Or.inl ⟨item, hi, hk, by rw [hi]; rfl⟩
  · rw [if_neg h1]
    have h2 : holds_key (_second m (_hashes m key).2) key = true := by
      rcases h with h | h
      · exact absurd h h1
      · exact h
    rw [if_pos h2]
    obtain ⟨item, hi, hk⟩ := (holds_key_iff _ _).1 h2
    exact Or.inr ⟨by simpa using h1, item, hi, hk, by rw [hi]; rfl⟩

/-- C7: when `contains(key)` is true, `insert(key, value)` returns without
drawing from the generator; afterwards `at(key)` is `value`, `size()`,
`capacity()`, both tables' constants and sizes are unchanged, and every slot
of either table holds what it held before, except that the value of an item
with this key is overwritten in its slot. -/
theorem insert_existing_key [DecidableEq K] [Inhabited K] [Inhabited V] (m : CuckooHashMap K V)
    (key : K) (value : V) (gen : Generator) (h : m.contains key = true) :
    ∃ it m', m.insert key value gen = some (it, m', gen) ∧
      m'.at_ key = Except.ok value ∧ m'.size = m.size ∧ m'.capacity = m.capacity ∧
      m'.table0._constants = m.table0._constants ∧ m'.table1._constants = m.table1._constants ∧
      m'.table0.size = m.table0.size ∧ m'.table1.size = m.table1.size ∧
      (∀ i, m'.table0.get i = m.table0.get i ∨
        ∃ old, m.table0.get i = some old ∧ old.key = key ∧
          m'.table0.get i = some { old with value := value }) ∧
      (∀ j, m'.table1.get j = m.table1.get j ∨
        ∃ old, m.table1.get j = some old ∧ old.key = key ∧
          m'.table1.get j = some { old with value := value }) := by
  have hne := _try_update_of_contains m key value h
  refine ⟨(_try_update m key value).1.1, (_try_update m key value).2, ?_, ?_⟩
  · unfold CuckooHashMap.insert
    simp only
    rw [if_pos hne]
  · rcases _try_update_state m key value h with ⟨item, hi, hk, hst⟩ | ⟨h1, item, hi, hk, hst⟩
    · rw [hst]
      have hf := set0_frame m (_hashes m key).1 (some { item with value := value })
      refine ⟨?_, rfl, rfl, hf.constants0, hf.constants1, hf.size0, hf.size1, ?_, fun j => Or.inl rfl⟩
      · refine _at_of_first _ key { item with value := value } ?_ hk
        rw [hf.hashes]
        have hlt := get0_lt hi
        simp only [Table.size, Data.size] at hlt
        simp [_first, Table.get, Table.set, getD_set_eq, hlt]
      · intro i
        exact get_set_self_or _ i item value key hi hk
    · rw [hst]
      have hf := set1_frame m (_hashes m key).2 (some { item with value := value })
      refine ⟨?_, rfl, rfl, hf.constants0, hf.constants1, hf.size0, hf.size1, fun i => Or.inl rfl, ?_⟩
      · refine _at_of_second _ key { item with value := value } ?_ ?_ hk
        · rw [hf.hashes]
          exact h1
        · rw [hf.hashes]
          have hlt := get1_lt hi
          simp only [Table.size, Data.size] at hlt
          simp [_second, Table.get, Table.set, getD_set_eq, hlt]
      · intro j
        exact get_set_self_or _ j item value key hi hk

/-- Witness for C7: `insert(1, 11)` on the map that holds the keys 1 and 2. -/
theorem insert_existing_key_witness :
    two_collisions_map.contains 1 = true ∧
    ∃ it m', two_collisions_map.insert 1 11 [] = some (it, m', []) ∧
      m'.at_ 1 = Except.ok 11 ∧ m'.size = two_collisions_map.size ∧
      m'.capacity = two_collisions_map.capacity ∧
      m'.table0._constants = two_collisions_map.table0._constants ∧
      m'.table1._constants = two_collisions_map.table1._constants ∧
      m'.table0.size = two_collisions_map.table0.size ∧
      m'.table1.size = two_collisions_map.table1.size ∧
      (∀ i, m'.table0.get i = two_collisions_map.table0.get i ∨
        ∃ old, two_collisions_map.table0.get i = some old ∧ old.key = 1 ∧
          m'.table0.get i = some { old with value := 11 }) ∧
      (∀ j, m'.table1.get j = two_collisions_map.table1.get j ∨
        ∃ old, two_collisions_map.table1.get j = some old ∧ old.key = 1 ∧
          m'.table1.get j = some { old with value := 11 }) :=
  ⟨by decide, insert_existing_key two_collisions_map 1 11 [] (by decide)⟩

theorem create_spec [Inhabited K] [Inhabited V] {pre_hash : K → Nat} {capacity : Nat}
    {gen gen' : Generator} {m : CuckooHashMap K V}
    (h : CuckooHashMap.create pre_hash capacity gen = some (m, gen')) :
    m._size = 0 ∧ m._capacity = capacity ∧ live m = [] := by
  unfold CuckooHashMap.create at h
  rcases ht : (create_tables capacity gen : Option ((Table K V × Table K V) × Generator))
    with _ | ⟨⟨t0, t1⟩, g⟩
  · simp [ht] at h
  simp only [ht, Option.some.injEq, Prod.mk.injEq] at h
  obtain ⟨hm, -⟩ := h
  subst hm
  obtain ⟨d0, d1⟩ := create_tables_spec ht
  refine ⟨rfl, rfl, ?_⟩
  simp [live, Table.set_extra, d0, d1, Data.create, reduceOption_replicate_none]

theorem insert_all_spec [DecidableEq K] [Inhabited K] [Inhabited V] (kvs : List (K × V))
    (m m' : CuckooHashMap K V) (gen gen' : Generator) (hinv : Inv m)
    (hnd : (kvs.map Prod.fst).Nodup) (hnew : ∀ kv ∈ kvs, kv.1 ∉ keys m)
    (h : insert_all m kvs gen = some (m', gen')) :
    Inv m' ∧ m'._size = m._size + kvs.length := by
  induction kvs generalizing m gen with
  | nil =>
    simp only [insert_all, Option.some.injEq, Prod.mk.injEq] at h
    rw [← h.1]
    exact ⟨hinv, rfl⟩
  | cons kv kvs ih =>
    obtain ⟨key, value⟩ := kv
    simp only [insert_all] at h
    rcases hi : m.insert key value gen with _ | ⟨it, m1, gen1⟩
    · simp [hi] at h
    · simp only [hi] at h
      have hk : key ∉ keys m := hnew (key, value) (List.mem_cons_self _ _)
      have hc : m.contains key = false := by
        cases hc : m.contains key with
        | false => rfl
        | true => exact absurd (mem_keys_of_contains hc) hk
      obtain ⟨hinv1, -, -, hsz, hsub⟩ := insert_spec hinv hi
      simp only [List.map_cons, List.nodup_cons] at hnd
      obtain ⟨h2, hsz2⟩ := ih m1 gen1 hinv1 hnd.2 (by
        intro kv hkv hmem
        rcases hsub kv.1 hmem with h1 | h1
        · exact hnd.1 (by rw [← h1]; exact List.mem_map_of_mem _ hkv)
        · exact hnew kv (List.mem_cons_of_mem _ hkv) h1) h
      refine ⟨h2, ?_⟩
      rw [hsz2, hsz hc, List.length_cons]
      omega

/-- C8: if a map is constructed with a capacity of at least 2 and the pairs
of a list with pairwise distinct keys are inserted one after the other, then,
whatever the generator returns during construction and the inserts, when the
inserts have returned `size()` is the length of the list. -/
theorem size_after_distinct_inserts [DecidableEq K] [Inhabited K] [Inhabited V]
    (pre_hash : K → Nat) (capacity : Nat) (gen gen0 gen' : Generator) (m0 m : CuckooHashMap K V)
    (kvs : List (K × V)) (hcap : 2 ≤ capacity)
    (hc : CuckooHashMap.create pre_hash capacity gen = some (m0, gen0))
    (hk : (kvs.map Prod.fst).Nodup) (h : insert_all m0 kvs gen0 = some (m, gen')) :
    m.size = kvs.length := by
  obtain ⟨hsz, -, hl⟩ := create_spec hc
  have := (insert_all_spec kvs m0 m gen0 gen' (create_inv hcap hc) hk
    (by intro kv _; simp [keys, hl]) h).2
  show m._size = kvs.length
  rw [this, hsz, Nat.zero_add]

/-- Witness for C8: the keys 1, 2, 3 under the stub pre-hash; the third
insert exceeds the cycle limit and rehashes. -/
theorem size_after_distinct_inserts_witness :
    three_inserts.1.size = [(1, 10), (2, 20), (3, 30)].length :=
  size_after_distinct_inserts stub_pre_hash 16 (draws ++ draws) fresh_stub.2 three_inserts.2
    fresh_stub.1 three_inserts.1 [(1, 10), (2, 20), (3, 30)] (by decide)
    (by rfl) (by decide) (by rfl)

/-- C10: whenever `_resize` is entered in a state whose items sit at their
candidate slots with pairwise distinct keys (the state in which `_insert` and
`_erase` call it) and it returns, the `(key, value)` pairs in the slots after
it are a permutation of those before it, and `at(key)` returns `value` for
every pair `(key, value)` that was stored before. -/
theorem resize_preserves_content [DecidableEq K] [Inhabited K] [Inhabited V]
    (m m' : CuckooHashMap K V) (gen gen' : Generator) (hp : Placed m) (hn : (keys m).Nodup)
    (h : _resize m gen = some (m', gen')) :
    (pairs m').Perm (pairs m) ∧
    ∀ key value, (key, value) ∈ pairs m → m'.at_ key = Except.ok value := by
  rcases _resize_spec m m' gen gen' h with ⟨-, hm, -⟩ | ⟨-, -, -, -, -, -, hp', hperm⟩
  · subst hm
    exact ⟨List.Perm.refl _, fun key value hmem => _at_of_mem_pairs hp hn hmem⟩
  · refine ⟨hperm, fun key value hmem => ?_⟩
    have hn' : (keys m').Nodup := by
      rw [keys_eq_map_pairs] at hn ⊢
      exact (hperm.map Prod.fst).nodup_iff.2 hn
    exact _at_of_mem_pairs hp' hn' (hperm.symm.subset hmem)

theorem seven_keys_reachable : Reachable seven_keys_map :=
  reachable_bind_insert_all _ (reachable_create identity_pre_hash 16 draws (by decide)) _
    (fun r => r.2) _ (Option.some_get _).symm

/-- Witness for C10: the growth from capacity 16 to 32 that the eighth insert
triggers. -/
theorem resize_preserves_content_witness :
    seven_keys_map.insert 7 70 draws = some (⟨Index.FIRST, 3⟩, resize_output.1, resize_output.2) ∧
    resize_output.1.capacity = 32 ∧
    ((pairs resize_output.1).Perm (pairs resize_input) ∧
      ∀ key value, (key, value) ∈ pairs resize_input → resize_output.1.at_ key = Except.ok value) :=
  ⟨by rfl, by decide,
    resize_preserves_content resize_input resize_output.1 draws resize_output.2
      (swap_first_placed seven_keys_reachable.inv.placed rfl) (by decide) (by rfl)⟩

/-! ## Counters: `_size` and `_capacity` along the operations -/

theorem _insert_loop_frame (remaining : Nat) (m : CuckooHashMap K V) (p : Option (Item K V)) :
    SameFrame m (_insert_loop remaining m p).1 := by
  induction remaining generalizing m p with
  | zero => cases p <;> simp [_insert_loop, SameFrame.same]
  | succ n ih =>
    cases p with
    | none => simp [_insert_loop, SameFrame.same]
    | some p =>
      have f1 := swap_second_frame m p
      rcases hs : swap_second m p with ⟨m1, q⟩
      rw [hs] at f1
      cases q with
      | none => simp only [_insert_loop, hs]; exact f1
      | some q =>
        have f2 := swap_first_frame m1 q
        rcases hs2 : swap_first m1 q with ⟨m2, r⟩
        rw [hs2] at f2
        simp only [_insert_loop, hs, hs2]
        exact (f1.step f2).step (ih m2 r)

theorem _try_rehash_item_frame (remaining : Nat) (m : CuckooHashMap K V) (p : Item K V) :
    SameFrame m (_try_rehash_item remaining m p).2 := by
  induction remaining generalizing m p with
  | zero => simp [_try_rehash_item, SameFrame.same]
  | succ n ih =>
    have f1 := swap_first_frame m p
    rcases hs : swap_first m p with ⟨m1, q⟩
    rw [hs] at f1
    cases q with
    | none => simp only [_try_rehash_item, hs]; exact f1
    | some q =>
      have f2 := swap_second_frame m1 q
      rcases hs2 : swap_second m1 q with ⟨m2, r⟩
      rw [hs2] at f2
      cases r with
      | none => simp only [_try_rehash_item, hs, hs2]; exact f1.step f2
      | some r =>
        simp only [_try_rehash_item, hs, hs2]
        exact (f1.step f2).step (ih m2 r)

theorem _try_rehash_table_frame (old : List (Option (Item K V))) (m : CuckooHashMap K V) :
    SameFrame m (_try_rehash_table m old).2 := by
  induction old generalizing m with
  | nil => simp [_try_rehash_table, SameFrame.same]
  | cons a old ih =>
    cases a with
    | none => simpa [_try_rehash_table] using ih m
    | some p =>
      have f1 := _try_rehash_item_frame CYCLE_LIMIT m { p with hashes := _hashes m p.key }
      rcases hs : _try_rehash_item CYCLE_LIMIT m { p with hashes := _hashes m p.key } with ⟨b, m1⟩
      rw [hs] at f1
      cases b with
      | false => simp only [_try_rehash_table, hs]; exact f1
      | true => simp only [_try_rehash_table, hs]; exact f1.step (ih m1)

theorem _try_rehash_frame (old : List (Option (Item K V)) × List (Option (Item K V)))
    (m : CuckooHashMap K V) : SameFrame m (_try_rehash m old).2 := by
  have f1 := _try_rehash_table_frame old.1 m
  rcases hs : _try_rehash_table m old.1 with ⟨b, m1⟩
  rw [hs] at f1
  cases b with
  | false => simp only [_try_rehash, hs]; exact f1
  | true => simp only [_try_rehash, hs]; exact f1.step (_try_rehash_table_frame old.2 m1)

theorem _rehash_loop_shape (fuel : Nat) (m m' : CuckooHashMap K V)
    (old : List (Option (Item K V)) × List (Option (Item K V))) (gen gen' : Generator)
    (h : _rehash_loop fuel m old gen = some (m', gen')) : SameShape m m' := by
  induction fuel generalizing m gen with
  | zero => simp [_rehash_loop] at h
  | succ n ih =>
    simp only [_rehash_loop] at h
    split at h
    · cases h
    · rename_i m1 gen1 hr
      obtain ⟨s1, -, -⟩ := regenerate_spec m m1 gen gen1 hr
      have f2 := _try_rehash_frame old m1
      split at h
      · rename_i m2 ht
        cases h
        rw [ht] at f2
        exact s1.step_shape f2.shape
      · rename_i m2 ht
        rw [ht] at f2
        exact (s1.step_shape f2.shape).step_shape (ih m2 gen1 h)

theorem _resize_counters [Inhabited K] [Inhabited V] {m m' : CuckooHashMap K V}
    {gen gen' : Generator} (h : _resize m gen = some (m', gen')) :
    m'._size = m._size ∧ m'._capacity = resized_capacity m._size m._capacity := by
  unfold resized_capacity
  rcases _resize_spec m m' gen gen' h with ⟨hlt, hm, -⟩ | ⟨hge, hcap, -, -, hsz, -⟩
  · subst hm
    exact ⟨rfl, by rw [if_pos hlt]⟩
  · exact ⟨hsz, by rw [if_neg (Nat.not_lt.2 hge), hcap]⟩

theorem _insert_finish_counters [Inhabited K] [Inhabited V] {m m' : CuckooHashMap K V}
    {gen gen' : Generator} (h : _insert_finish m gen = some (m', gen')) :
    m'._size = m._size + 1 ∧
      m'._capacity = if m._size + 1 = m._capacity / 2
        then resized_capacity (m._size + 1) m._capacity else m._capacity := by
  unfold _insert_finish at h
  simp only at h
  split at h
  · rename_i hc
    obtain ⟨a, b⟩ := _resize_counters h
    exact ⟨a, by rw [if_pos hc]; exact b⟩
  · rename_i hc
    cases h
    exact ⟨rfl, by rw [if_neg hc]⟩

theorem _insert_counters [Inhabited K] [Inhabited V] {m m' : CuckooHashMap K V} {p : Item K V}
    {gen gen' : Generator} {it : Iterator} (h : _insert m p gen = some (it, m', gen')) :
    it = ⟨Index.FIRST, p.hashes.1⟩ ∧ m'._size = m._size + 1 ∧
      m'._capacity = if m._size + 1 = m._capacity / 2
        then resized_capacity (m._size + 1) m._capacity else m._capacity := by
  unfold _insert at h
  simp only at h
  have f1 := swap_first_frame m p
  rcases hs : swap_first m p with ⟨m1, q1⟩
  rw [hs] at f1 h
  simp only at f1 h
  have f2 := _insert_loop_frame CYCLE_LIMIT m1 q1
  rcases hl : _insert_loop CYCLE_LIMIT m1 q1 with ⟨m2, q2⟩
  rw [hl] at f2 h
  simp only at f2 h
  cases q2 with
  | none =>
    rcases hfin : _insert_finish m2 gen with _ | ⟨m3, gen3⟩
    · simp [hfin] at h
    simp only [hfin, Option.map_some', Option.some.injEq, Prod.mk.injEq] at h
    obtain ⟨hit, hm, hg⟩ := h
    subst hm hg
    obtain ⟨a, b⟩ := _insert_finish_counters hfin
    rw [f2.count, f1.count] at a b
    rw [f2.capacity, f1.capacity] at b
    exact ⟨hit.symm, a, b⟩
  | some q =>
    rcases hr : _rehash m2 (_items m2) gen with _ | ⟨m3, gen3⟩
    · simp [hr] at h
    · simp only [hr] at h
      rcases hfin : _insert_finish m3 gen3 with _ | ⟨m4, gen4⟩
      · simp [hfin] at h
      simp only [hfin, Option.map_some', Option.some.injEq, Prod.mk.injEq] at h
      obtain ⟨hit, hm, hg⟩ := h
      subst hm hg
      have s3 := _rehash_loop_shape _ m2 m3 _ gen gen3 hr
      obtain ⟨a, b⟩ := _insert_finish_counters hfin
      rw [s3.count, f2.count, f1.count] at a b
      rw [s3.capacity, f2.capacity, f1.capacity] at b
      exact ⟨hit.symm, a, b⟩

theorem _erase_counters [Inhabited K] [Inhabited V] {m m' : CuckooHashMap K V} {table : Index}
    {hash : Nat} {gen gen' : Generator} (h : _erase m table hash gen = some (m', gen')) :
    m'._size = m._size - 1 ∧
      m'._capacity = if m._size - 1 = m._capacity / 8
        then resized_capacity (m._size - 1) m._capacity else m._capacity := by
  unfold _erase at h
  cases table with
  | FIRST =>
    simp only at h
    split at h
    · rename_i hc
      obtain ⟨a, b⟩ := _resize_counters h
      exact ⟨a, by rw [if_pos hc]; exact b⟩
    · rename_i hc
      cases h
      exact ⟨rfl, by rw [if_neg hc]⟩
  | SECOND =>
    simp only at h
    split at h
    · rename_i hc
      obtain ⟨a, b⟩ := _resize_counters h
      exact ⟨a, by rw [if_pos hc]; exact b⟩
    · rename_i hc
      cases h
      exact ⟨rfl, by rw [if_neg hc]⟩

theorem _try_update_frame [DecidableEq K] (m : CuckooHashMap K V) (key : K) (value : V) :
    SameFrame m (_try_update m key value).2 := by
  unfold _try_update
  simp only
  split
  · exact set0_frame _ _ _
  · split
    · exact set1_frame _ _ _
    · exact SameFrame.same m

theorem insert_counters [DecidableEq K] [Inhabited K] [Inhabited V] {m m' : CuckooHashMap K V}
    {key : K} {value : V} {gen gen' : Generator} {it : Iterator}
    (h : m.insert key value gen = some (it, m', gen')) :
    (m.contains key = true → m'._size = m._size ∧ m'._capacity = m._capacity) ∧
    (m.contains key = false → m'._size = m._size + 1 ∧
      m'._capacity = if m._size + 1 = m._capacity / 2
        then resized_capacity (m._size + 1) m._capacity else m._capacity) := by
  unfold CuckooHashMap.insert at h
  cases hc : m.contains key with
  | true =>
    have hne := _try_update_of_contains m key value hc
    have hf := _try_update_frame m key value
    rcases hu : _try_update m key value with ⟨update, m1⟩
    rw [hu] at h hne hf
    simp only at h hne hf
    rw [if_pos hne] at h
    simp only [Option.some.injEq, Prod.mk.injEq] at h
    obtain ⟨-, hm, -⟩ := h
    subst hm
    exact ⟨fun _ => ⟨hf.count, hf.capacity⟩, fun hf => by cases hf⟩
  | false =>
    rw [_try_update_of_not_contains m key value hc] at h
    simp only [ne_eq, not_true_eq_false, if_false] at h
    obtain ⟨-, a, b⟩ := _insert_counters h
    exact ⟨(fun hf => by cases hf), fun _ => ⟨a, b⟩⟩

theorem erase_if_found_counters [DecidableEq K] [Inhabited K] [Inhabited V]
    {m m' : CuckooHashMap K V} {key : K} {gen gen' : Generator} {found : Bool}
    (h : m.erase_if_found key gen = some (found, m', gen')) :
    found = m.contains key ∧ (found = false → m' = m ∧ gen' = gen) ∧
    (found = true → m'._size = m._size - 1 ∧
      m'._capacity = if m._size - 1 = m._capacity / 8
        then resized_capacity (m._size - 1) m._capacity else m._capacity) := by
  unfold CuckooHashMap.erase_if_found at h
  simp only at h
  split at h
  · rename_i h1
    rcases he : _erase m Index.FIRST (_hashes m key).1 gen with _ | ⟨m2, gen2⟩
    · simp [he] at h
    simp only [he, Option.map_some', Option.some.injEq, Prod.mk.injEq] at h
    obtain ⟨hf, hm, hg⟩ := h
    subst hf hm hg
    exact ⟨((contains_iff m key).2 (Or.inl h1)).symm, by simp, fun _ => _erase_counters he⟩
  · rename_i h1
    split at h
    · rename_i h2
      rcases he : _erase m Index.SECOND (_hashes m key).2 gen with _ | ⟨m2, gen2⟩
      · simp [he] at h
      simp only [he, Option.map_some', Option.some.injEq, Prod.mk.injEq] at h
      obtain ⟨hf, hm, hg⟩ := h
      subst hf hm hg
      exact ⟨((contains_iff m key).2 (Or.inr h2)).symm, by simp, fun _ => _erase_counters he⟩
    · rename_i h2
      simp only [Option.some.injEq, Prod.mk.injEq] at h
      obtain ⟨hf, hm, hg⟩ := h
      subst hf hm hg
      refine ⟨?_, fun _ => ⟨rfl, rfl⟩, fun hf => by cases hf⟩
      cases hc : m.contains key with
      | false => rfl
      | true =>
        rcases (contains_iff m key).1 hc with h | h
        · exact absurd h h1
        · exact absurd h h2

theorem subscript_counters [DecidableEq K] [Inhabited K] [Inhabited V] {m m' : CuckooHashMap K V}
    {key : K} {gen gen' : Generator} {v : V} (h : m.subscript key gen = some (v, m', gen')) :
    (m.contains key = true → m' = m ∧ gen' = gen ∧ _at m key = Except.ok v) ∧
    (m.contains key = false → v = default ∧ m'._size = m._size + 1 ∧
      m'._capacity = if m._size + 1 = m._capacity / 2
        then resized_capacity (m._size + 1) m._capacity else m._capacity) := by
  unfold CuckooHashMap.subscript at h
  split at h
  · rename_i v' hat
    simp only [Option.some.injEq, Prod.mk.injEq] at h
    obtain ⟨hv, hm, hg⟩ := h
    subst hv hm hg
    refine ⟨fun _ => ⟨rfl, rfl, hat⟩, fun hc => ?_⟩
    rw [_at_error_of_not_contains hc] at hat
    cases hat
  · rename_i e hat
    have hc := not_contains_of_at_error hat
    rcases hi : _insert m ⟨key, default, _hashes m key⟩ gen with _ | ⟨it, m2, gen2⟩
    · simp [hi] at h
    simp only [hi, Option.some.injEq, Prod.mk.injEq] at h
    obtain ⟨hv, hm, hg⟩ := h
    subst hv hm hg
    obtain ⟨-, a, b⟩ := _insert_counters hi
    exact ⟨(fun h' => by rw [hc] at h'; cases h'), fun _ => ⟨rfl, a, b⟩⟩

theorem insert_or_assign_counters [DecidableEq K] [Inhabited K] [Inhabited V]
    {m m' : CuckooHashMap K V} {key : K} {value : V} {gen gen' : Generator} {r : Iterator × Bool}
    (h : m.insert_or_assign key value gen = some (r, m', gen')) :
    r.2 = !m.contains key ∧
    (m.contains key = true → m'._size = m._size ∧ m'._capacity = m._capacity) ∧
    (m.contains key = false → m'._size = m._size + 1 ∧
      m'._capacity = if m._size + 1 = m._capacity / 2
        then resized_capacity (m._size + 1) m._capacity else m._capacity) := by
  unfold CuckooHashMap.insert_or_assign at h
  rw [_at_assign_eq] at h
  cases hc : m.contains key with
  | true =>
    simp only [hc, if_true, Option.some.injEq, Prod.mk.injEq] at h
    obtain ⟨hr, hm, -⟩ := h
    subst hr hm
    have hf := _try_update_frame m key value
    exact ⟨rfl, fun _ => ⟨hf.count, hf.capacity⟩, fun h' => by cases h'⟩
  | false =>
    simp only [hc, Bool.false_eq_true, if_false] at h
    rcases hi : _insert m ⟨key, value, _hashes m key⟩ gen with _ | ⟨it, m2, gen2⟩
    · simp [hi] at h
    simp only [hi, Option.some.injEq, Prod.mk.injEq] at h
    obtain ⟨hr, hm, -⟩ := h
    subst hr hm
    obtain ⟨-, a, b⟩ := _insert_counters hi
    exact ⟨rfl, (fun h' => by cases h'), fun _ => ⟨a, b⟩⟩

/-- The half of C16 that the code keeps: `find(key)` is `end()` exactly when
`contains(key)` is false. -/
theorem find_eq_end_iff [DecidableEq K] (m : CuckooHashMap K V) (key : K) :
    m.find key = FoundIterator.at_slot m.end_ ↔ m.contains key = false := by
  unfold CuckooHashMap.find _find CuckooHashMap.contains
  simp only
  split
  · simp
  · split <;> simp

/-! ## Claims C11 to C20 -/

/-- C11: in every reachable state, `at(key)` throws `std::invalid_argument`
if and only if `contains(key)` is false; it returns `v` if and only if the
pair `(key, v)` is stored in a slot, and it does return such a value when
`contains(key)` is true.  (`_at` is a `const` method: the embedding gives it
no state to return.) -/
theorem at_fails_iff_absent [DecidableEq K] [Inhabited K] [Inhabited V] (m : CuckooHashMap K V)
    (hm : Reachable m) (key : K) :
    (m.at_ key = Except.error Error.invalid_argument ↔ m.contains key = false) ∧
    (∀ v, m.at_ key = Except.ok v ↔ (key, v) ∈ pairs m) ∧
    (m.contains key = true → ∃ v, m.at_ key = Except.ok v ∧ (key, v) ∈ pairs m) := by
  have hinv := hm.inv
  have hmem : ∀ v, m.at_ key = Except.ok v → (key, v) ∈ pairs m := by
    intro v hv
    obtain ⟨item, hi, hk, hval⟩ := _at_mem hv
    exact List.mem_map.2 ⟨item, hi, by simp [Item.pair, hk, hval]⟩
  refine ⟨⟨fun h => ?_, fun h => _at_error_of_not_contains h⟩,
    fun v => ⟨hmem v, fun h => _at_of_mem_pairs hinv.placed hinv.nodup h⟩, fun hc => ?_⟩
  · cases hc : m.contains key with
    | false => rfl
    | true =>
      obtain ⟨v, hv⟩ := _at_ok_of_contains hc
      have : m.at_ key = Except.ok v := hv
      rw [h] at this
      cases this
  · obtain ⟨v, hv⟩ := _at_ok_of_contains hc
    exact ⟨v, hv, hmem v hv⟩

/-- Witness for C11: key 22 in the map that holds 22, 31 and 98. -/
theorem at_fails_iff_absent_witness :
    Reachable three_keys_map ∧
    ((three_keys_map.at_ 22 = Except.error Error.invalid_argument ↔
        three_keys_map.contains 22 = false) ∧
      (∀ v, three_keys_map.at_ 22 = Except.ok v ↔ (22, v) ∈ pairs three_keys_map) ∧
      (three_keys_map.contains 22 = true →
        ∃ v, three_keys_map.at_ 22 = Except.ok v ∧ (22, v) ∈ pairs three_keys_map)) :=
  ⟨three_keys_reachable, at_fails_iff_absent three_keys_map three_keys_reachable 22⟩

/-- C12: when `contains(key)` is false, `erase(key)` throws
`std::invalid_argument` and `erase_if_found(key)` returns `false`, in both
cases without drawing from the generator and leaving the whole state (size,
capacity, constants, every slot) as it was; and whenever `erase_if_found(key)`
returns, it returns `true` exactly when `contains(key)` was true. -/
theorem erase_absent_key [DecidableEq K] [Inhabited K] [Inhabited V] (m : CuckooHashMap K V)
    (key : K) (gen : Generator) :
    (m.contains key = false →
      m.erase key gen = some (Except.error Error.invalid_argument) ∧
      after_erase m (Except.error Error.invalid_argument) = m ∧
      m.erase_if_found key gen = some (false, m, gen)) ∧
    (∀ found m' gen', m.erase_if_found key gen = some (found, m', gen') →
      (found = true ↔ m.contains key = true)) := by
  refine ⟨fun h => ⟨erase_of_not_contains m key gen h, rfl,
    erase_if_found_of_not_contains m key gen h⟩, ?_⟩
  intro found m' gen' h
  rw [(erase_if_found_counters h).1]

/-- Witness for C12: key 5 is absent from the map that holds 22, 31 and 98,
and key 22 is present. -/
theorem erase_absent_key_witness :
    three_keys_map.contains 5 = false ∧
    three_keys_map.erase 5 draws = some (Except.error Error.invalid_argument) ∧
    three_keys_map.erase_if_found 5 draws = some (false, three_keys_map, draws) ∧
    ((three_keys_map.erase_if_found 22 []).map fun r => r.1) = some true :=
  ⟨by decide, ((erase_absent_key three_keys_map 5 draws).1 (by decide)).1,
    ((erase_absent_key three_keys_map 5 draws).1 (by decide)).2.2, by decide⟩

/-- C13 (the code breaks it): key 3 is absent from the map that holds 1 and 2
under the stub pre-hash; `map[3]` returns (a reference to a
default-constructed value) and `size()` has become 3, but `contains(3)` is
false and `at(3)` throws: the new item was in flight when the cycle limit
was exceeded and was not placed. -/
theorem subscript_loses_inserted_key :
    two_collisions_map.contains 3 = false ∧
    ((two_collisions_map.subscript 3 draws).map fun r =>
      (r.1, r.2.1.size, r.2.1.contains 3, r.2.1.at_ 3)) =
      some (0, 3, false, Except.error Error.invalid_argument) := by
  decide

/-- C14 (the code breaks it): key 3 is absent from the map that holds 1 and 2
under the stub pre-hash; `insert_or_assign(3, 30)` returns `inserted == true`
and `size()` has become 3, but `at(3)` throws instead of returning 30. -/
theorem insert_or_assign_loses_key :
    two_collisions_map.contains 3 = false ∧
    ((two_collisions_map.insert_or_assign 3 30 draws).map fun r =>
      (r.1.2, r.2.1.size, r.2.1.contains 3, r.2.1.at_ 3)) =
      some (true, 3, false, Except.error Error.invalid_argument) := by
  decide

/-- C15 (the code breaks it): in the map that holds 89 in slot 1 of `table0`
and 22 in slot 2 of `table1`, `insert(5, 3)` (candidate slots `(1, 4)`)
returns the iterator made for slot 1 of `table0` before the displacement
chain ran; the chain comes back to that slot, so after the call the slot
holds `(22, 1)`, which is what the iterator dereferences to, while key 5 is
in slot 4 of `table1`. -/
theorem insert_iterator_at_other_key :
    ((pair_keys_map.insert 5 3 []).map fun r =>
      (r.1, dereference r.2.1 r.1, r.2.1.contains 5, dereference r.2.1 ⟨Index.SECOND, 4⟩)) =
      some (⟨Index.FIRST, 1⟩, some (22, 1), true, some (5, 3)) := by
  decide

/-- C16 (the code breaks it): in the map that holds 1 and 2 under the stub
pre-hash, key 1 is stored in slot 1 of `table1`, the position the traversal
reaches it at; `find(1)` returns an iterator whose `_item` is the address of
`_find`'s local copy of that slot's pointer, not the address of the slot. -/
theorem find_iterator_not_at_slot :
    two_collisions_map.contains 1 = true ∧
    slot_at two_collisions_map ⟨Index.SECOND, 1⟩ = some ⟨1, 10, (0, 1)⟩ ∧
    two_collisions_map.find 1 = FoundIterator.at_local (some ⟨1, 10, (0, 1)⟩) ∧
    two_collisions_map.find 3 = FoundIterator.at_slot two_collisions_map.end_ := by
  decide

theorem create_from_list_spec {items : List (K × V)} {pre_hash : K → Nat} {capacity : Nat}
    {gen gen' : Generator} {m : CuckooHashMap K V}
    (h : CuckooHashMap.create_from_list items pre_hash capacity gen = some (m, gen')) :
    m._size = 0 ∧ m._capacity = max items.length capacity := by
  unfold CuckooHashMap.create_from_list at h
  rcases ht : (create_tables (max items.length capacity) gen :
    Option ((Table K V × Table K V) × Generator)) with _ | ⟨⟨t0, t1⟩, g⟩
  · simp [ht] at h
  simp only [ht, Option.some.injEq, Prod.mk.injEq] at h
  obtain ⟨hm, -⟩ := h
  subst hm
  exact ⟨rfl, rfl⟩

theorem constructed_counters [Inhabited K] [Inhabited V] {capacity : Nat} {m : CuckooHashMap K V}
    (h : Constructed capacity m) : m._size = 0 ∧ m._capacity = capacity := by
  cases h with
  | create pre_hash capacity gen gen' m hc =>
    obtain ⟨a, b, -⟩ := create_spec hc
    exact ⟨a, b⟩
  | create_from_list items pre_hash capacity gen gen' m hc => exact create_from_list_spec hc

theorem step_upper_bound [DecidableEq K] [Inhabited K] [Inhabited V] {m m' : CuckooHashMap K V}
    (hs : Step m m') (hcap : MINIMUM_CAPACITY ≤ m._capacity) (hsize : m._size < m._capacity / 2) :
    MINIMUM_CAPACITY ≤ m'._capacity ∧ m'._size < m'._capacity / 2 := by
  have grow : ∀ m2 : CuckooHashMap K V, m2._size = m._size + 1 →
      (m2._capacity = if m._size + 1 = m._capacity / 2
        then resized_capacity (m._size + 1) m._capacity else m._capacity) →
      MINIMUM_CAPACITY ≤ m2._capacity ∧ m2._size < m2._capacity / 2 := by
    intro m2 a b
    unfold resized_capacity at b
    unfold MINIMUM_CAPACITY at *
    split at b
    · split at b <;> omega
    · omega
  have shrink : ∀ m2 : CuckooHashMap K V, m2._size = m._size - 1 →
      (m2._capacity = if m._size - 1 = m._capacity / 8
        then resized_capacity (m._size - 1) m._capacity else m._capacity) →
      MINIMUM_CAPACITY ≤ m2._capacity ∧ m2._size < m2._capacity / 2 := by
    intro m2 a b
    unfold resized_capacity at b
    unfold MINIMUM_CAPACITY at *
    split at b
    · split at b <;> omega
    · omega
  cases hs
  case insert key value gen gen' it h =>
    obtain ⟨h1, h2⟩ := insert_counters h
    cases hc : m.contains key with
    | true =>
      obtain ⟨a, b⟩ := h1 hc
      rw [a, b]; exact ⟨hcap, hsize⟩
    | false =>
      obtain ⟨a, b⟩ := h2 hc
      exact grow m' a b
  case erase_if_found key gen gen' found h =>
    obtain ⟨-, h1, h2⟩ := erase_if_found_counters h
    cases found with
    | false =>
      rw [(h1 rfl).1]; exact ⟨hcap, hsize⟩
    | true =>
      obtain ⟨a, b⟩ := h2 rfl
      exact shrink m' a b
  case erase key gen gen' h =>
    rcases (erase_eq m key gen _).1 h with ⟨m2, g2, h1, h2⟩ | ⟨m2, g2, _, h2⟩
    · cases h2
      obtain ⟨a, b⟩ := (erase_if_found_counters h1).2.2 rfl
      exact shrink m' a b
    · cases h2
  case subscript key gen gen' v h =>
    obtain ⟨h1, h2⟩ := subscript_counters h
    cases hc : m.contains key with
    | true =>
      rw [(h1 hc).1]; exact ⟨hcap, hsize⟩
    | false =>
      obtain ⟨-, a, b⟩ := h2 hc
      exact grow m' a b
  case insert_or_assign key value gen gen' r h =>
    obtain ⟨-, h1, h2⟩ := insert_or_assign_counters h
    cases hc : m.contains key with
    | true =>
      obtain ⟨a, b⟩ := h1 hc
      rw [a, b]; exact ⟨hcap, hsize⟩
    | false =>
      obtain ⟨a, b⟩ := h2 hc
      exact grow m' a b
  case clear =>
    simp [CuckooHashMap.clear, MINIMUM_CAPACITY]

theorem steps_insert_all [DecidableEq K] [Inhabited K] [Inhabited V]
    (kvs : List (K × V)) (m m' : CuckooHashMap K V) (gen gen' : Generator)
    (h : insert_all m kvs gen = some (m', gen')) : Steps m m' := by
  suffices key : ∀ m0, Steps m0 m → Steps m0 m' from key m (Steps.done m)
  induction kvs generalizing m gen with
  | nil =>
    simp only [insert_all, Option.some.injEq, Prod.mk.injEq] at h
    intro m0 hs
    rw [← h.1]; exact hs
  | cons kv kvs ih =>
    obtain ⟨key, value⟩ := kv
    simp only [insert_all] at h
    rcases hi : m.insert key value gen with _ | ⟨it, m1, gen1⟩
    · simp [hi] at h
    · simp only [hi] at h
      intro m0 hs
      exact ih m1 gen1 h m0 (Steps.next m0 m m1 hs (Step.insert m m1 key value gen gen1 it hi))

/-- C17: for a map that a constructor leaves with an initial capacity of at
least `MINIMUM_CAPACITY`, after every sequence of returned calls of `insert`,
`operator[]`, `insert_or_assign`, `erase`, `erase_if_found` and `clear`,
`size() < capacity() / 2`. -/
theorem upper_load_bound [DecidableEq K] [Inhabited K] [Inhabited V] (capacity : Nat)
    (m0 m : CuckooHashMap K V) (hc : Constructed capacity m0)
    (h16 : MINIMUM_CAPACITY ≤ capacity) (hs : Steps m0 m) : m.size < m.capacity / 2 := by
  suffices key : MINIMUM_CAPACITY ≤ m._capacity ∧ m._size < m._capacity / 2 from key.2
  induction hs with
  | done =>
    obtain ⟨a, b⟩ := constructed_counters hc
    rw [a, b]
    unfold MINIMUM_CAPACITY at h16 ⊢
    exact ⟨h16, by omega⟩
  | next m1 m2 _ hstep ih => exact step_upper_bound hstep ih.1 ih.2

/-- Witness for C17: the capacity-16 map after eight inserts, the last of
which grows it to capacity 32. -/
theorem upper_load_bound_witness :
    resize_output.1.capacity = 32 ∧ resize_output.1.size < resize_output.1.capacity / 2 :=
  ⟨by decide,
    upper_load_bound 16 fresh_identity.1 resize_output.1
      (Constructed.create identity_pre_hash 16 draws fresh_identity.2 fresh_identity.1 (by rfl))
      (by decide)
      (Steps.next _ seven_keys_map _
        (steps_insert_all [(0, 0), (1, 10), (2, 20), (3, 30), (4, 40), (5, 50), (6, 60)]
          fresh_identity.1 seven_keys_map fresh_identity.2 (seven_keys.get (by decide)).2 (by rfl))
        (Step.insert seven_keys_map resize_output.1 7 70 draws resize_output.2 ⟨Index.FIRST, 3⟩
          (by rfl)))⟩

theorem structural_erase_counters [DecidableEq K] [Inhabited K] [Inhabited V]
    {m m' : CuckooHashMap K V} {key : K} {gen gen' : Generator}
    (h : m.erase_if_found key gen = some (true, m', gen') ∨
      m.erase key gen = some (Except.ok (m', gen'))) :
    m.contains key = true ∧ m'._size = m._size - 1 ∧
      m'._capacity = if m._size - 1 = m._capacity / 8
        then resized_capacity (m._size - 1) m._capacity else m._capacity := by
  have key : m.erase_if_found key gen = some (true, m', gen') := by
    rcases h with h | h
    · exact h
    · rcases (erase_eq m key gen _).1 h with ⟨m2, g2, h1, h2⟩ | ⟨m2, g2, _, h2⟩
      · cases h2; exact h1
      · cases h2
  obtain ⟨a, -, b⟩ := erase_if_found_counters key
  exact ⟨a.symm, b rfl⟩

/-- C20 (as stated it fails): in the reachable map `three_keys_map` (size 3,
capacity 16) the structural `erase_if_found(22)` brings `size()` down to
`2 == capacity() / 8`, and `capacity()` is 16 afterwards as before: no
shrink occurs, because `4 * size() == 8` is below `MINIMUM_CAPACITY`. -/
theorem shrink_fails_at_floor :
    Reachable three_keys_map ∧
    (three_keys_map.size, three_keys_map.capacity) = (3, 16) ∧
    ((three_keys_map.erase_if_found 22 []).map fun r =>
      (r.1, r.2.1.size, r.2.1.capacity)) = some (true, 2, 16) :=
  ⟨three_keys_reachable, by decide, by decide⟩

/-- C20 (amended): when a structural erase brings `size()` down to
`capacity() / 8` and `4 * size()` is at least `MINIMUM_CAPACITY`, the
capacity afterwards is `4 * size()`, strictly smaller than before; when
`4 * size()` is below `MINIMUM_CAPACITY` the capacity is unchanged. -/
theorem shrink_rule [DecidableEq K] [Inhabited K] [Inhabited V]
    (m m' : CuckooHashMap K V) (key : K) (gen gen' : Generator)
    (h : m.erase_if_found key gen = some (true, m', gen') ∨
      m.erase key gen = some (Except.ok (m', gen')))
    (hhit : m.size = m.capacity / 8 + 1) :
    m'.size = m.capacity / 8 ∧
    (MINIMUM_CAPACITY ≤ 4 * m'.size → m'.capacity = 4 * m'.size ∧ m'.capacity < m.capacity) ∧
    (4 * m'.size < MINIMUM_CAPACITY → m'.capacity = m.capacity) := by
  obtain ⟨-, a, b⟩ := structural_erase_counters h
  unfold resized_capacity at b
  unfold CuckooHashMap.size CuckooHashMap.capacity at *
  unfold MINIMUM_CAPACITY at *
  split at b
  · split at b
    · refine ⟨by omega, fun _ => by omega, fun _ => by omega⟩
    · refine ⟨by omega, fun _ => by omega, fun _ => by omega⟩
  · omega

/-- Witness for C20 (amended): `erase_if_found(3)` on the map of capacity 32
that holds the keys 3 to 7 shrinks it to capacity 16. -/
theorem shrink_rule_witness :
    five_keys_map.capacity = 32 ∧
    (shrink_outcome.2.1.size = five_keys_map.capacity / 8 ∧
      (MINIMUM_CAPACITY ≤ 4 * shrink_outcome.2.1.size →
        shrink_outcome.2.1.capacity = 4 * shrink_outcome.2.1.size ∧
        shrink_outcome.2.1.capacity < five_keys_map.capacity) ∧
      (4 * shrink_outcome.2.1.size < MINIMUM_CAPACITY →
        shrink_outcome.2.1.capacity = five_keys_map.capacity)) :=
  ⟨by decide,
    shrink_rule five_keys_map shrink_outcome.2.1 3 draws shrink_outcome.2.2 (Or.inl (by rfl))
      (by decide)⟩

theorem insert_all_capacity [DecidableEq K] [Inhabited K] [Inhabited V] (kvs : List (K × V))
    (m m' : CuckooHashMap K V) (gen gen' : Generator) (hinv : Inv m)
    (hnd : (kvs.map Prod.fst).Nodup) (hnew : ∀ kv ∈ kvs, kv.1 ∉ keys m)
    (hcap : m._capacity = 16) (hle : m._size + kvs.length ≤ 8)
    (h : insert_all m kvs gen = some (m', gen')) :
    m'._capacity = if m._size + kvs.length = 8 ∧ 0 < kvs.length then 32 else 16 := by
  induction kvs generalizing m gen with
  | nil =>
    simp only [insert_all, Option.some.injEq, Prod.mk.injEq] at h
    rw [← h.1]
    simp [hcap]
  | cons kv kvs ih =>
    obtain ⟨key, value⟩ := kv
    simp only [insert_all] at h
    rcases hi : m.insert key value gen with _ | ⟨it, m1, gen1⟩
    · simp [hi] at h
    · simp only [hi] at h
      have hk : key ∉ keys m := hnew (key, value) (List.mem_cons_self _ _)
      have hc : m.contains key = false := by
        cases hc : m.contains key with
        | false => rfl
        | true => exact absurd (mem_keys_of_contains hc) hk
      obtain ⟨hinv1, -, -, -, hsub⟩ := insert_spec hinv hi
      obtain ⟨hsz, hcap1⟩ := (insert_counters hi).2 hc
      simp only [List.map_cons, List.nodup_cons] at hnd
      simp only [List.length_cons] at hle ⊢
      have hnew1 : ∀ kv ∈ kvs, kv.1 ∉ keys m1 := by
        intro kv hkv hmem
        rcases hsub kv.1 hmem with h1 | h1
        · exact hnd.1 (by rw [← h1]; exact List.mem_map_of_mem _ hkv)
        · exact hnew kv (List.mem_cons_of_mem _ hkv) h1
      unfold resized_capacity MINIMUM_CAPACITY at hcap1
      rw [hcap] at hcap1
      by_cases h8 : m._size + 1 = 8
      · have hnil : kvs = [] := List.length_eq_zero.1 (by omega)
        subst hnil
        simp only [insert_all, Option.some.injEq, Prod.mk.injEq] at h
        rw [← h.1, hcap1]
        simp only [List.length_nil]
        rw [if_pos (by omega), if_neg (by omega), if_pos ⟨by omega, by omega⟩]
        omega
      · have hcap16 : m1._capacity = 16 := by
          rw [hcap1, if_neg (by omega)]
        have := ih m1 gen1 hinv1 hnd.2 hnew1 hcap16 (by omega) h
        rw [this, hsz]
        by_cases htot : m._size + (kvs.length + 1) = 8
        · rw [if_pos ⟨by omega, by omega⟩, if_pos ⟨htot, by omega⟩]
        · rw [if_neg (fun hh => htot (by omega)), if_neg (fun hh => htot hh.1)]

/-- C19: for an `insert` that has returned: if it was structural (the key was
absent), brought `size()` to `capacity() / 2` and `size() * 4` is at least
`MINIMUM_CAPACITY`, then `capacity()` afterwards is `4 * size()`; in every
other case `capacity()` is unchanged.  In particular, on a map constructed
with capacity 16, inserts of seven pairwise distinct keys leave
`capacity() == 16` and inserts of eight make it 32. -/
theorem growth_rule [DecidableEq K] [Inhabited K] [Inhabited V] (m m' : CuckooHashMap K V)
    (key : K) (value : V) (gen gen' : Generator) (it : Iterator)
    (h : m.insert key value gen = some (it, m', gen')) :
    (m.contains key = false → m.size + 1 = m.capacity / 2 →
      MINIMUM_CAPACITY ≤ (m.size + 1) * 4 → m'.capacity = 4 * m'.size) ∧
    (¬ (m.contains key = false ∧ m.size + 1 = m.capacity / 2 ∧
      MINIMUM_CAPACITY ≤ (m.size + 1) * 4) → m'.capacity = m.capacity) ∧
    (∀ (pre_hash : K → Nat) (gen0 g0 g1 : Generator) (m0 m1 : CuckooHashMap K V)
      (kvs : List (K × V)), CuckooHashMap.create pre_hash 16 gen0 = some (m0, g0) →
      (kvs.map Prod.fst).Nodup → insert_all m0 kvs g0 = some (m1, g1) →
      (kvs.length = 7 → m1.capacity = 16) ∧ (kvs.length = 8 → m1.capacity = 32)) := by
  obtain ⟨h1, h2⟩ := insert_counters h
  unfold CuckooHashMap.size CuckooHashMap.capacity
  refine ⟨?_, ?_, ?_⟩
  · intro hc hhalf hmin
    obtain ⟨a, b⟩ := h2 hc
    unfold resized_capacity at b
    rw [if_pos hhalf, if_neg (by omega)] at b
    omega
  · intro hnot
    cases hc : m.contains key with
    | true => exact (h1 hc).2
    | false =>
      obtain ⟨a, b⟩ := h2 hc
      unfold resized_capacity at b
      split at b
      · split at b
        · exact b
        · rename_i hhalf hge
          exact absurd ⟨hc, hhalf, by omega⟩ hnot
      · exact b
  · intro pre_hash gen0 g0 g1 m0 m1 kvs hcreate hnd hall
    obtain ⟨hsz, hcap, hl⟩ := create_spec hcreate
    have key : kvs.length ≤ 8 → m1._capacity =
        if m0._size + kvs.length = 8 ∧ 0 < kvs.length then 32 else 16 := fun hle =>
      insert_all_capacity kvs m0 m1 g0 g1 (create_inv (by decide) hcreate) hnd
        (by intro kv _; simp [keys, hl]) hcap (by omega) hall
    rw [hsz] at key
    constructor
    · intro h7
      rw [key (by omega), if_neg (by omega)]
    · intro h8
      rw [key (by omega), if_pos ⟨by omega, by omega⟩]

/-- Witness for C19: the eighth insert into the capacity-16 map that holds
the keys 0 to 6. -/
theorem growth_rule_witness :
    seven_keys_map.contains 7 = false ∧ seven_keys_map.size + 1 = seven_keys_map.capacity / 2 ∧
    resize_output.1.capacity = 4 * resize_output.1.size ∧ resize_output.1.capacity = 32 :=
  ⟨by decide, by decide,
    (growth_rule seven_keys_map resize_output.1 7 70 draws resize_output.2 ⟨Index.FIRST, 3⟩
      (by rfl)).1 (by decide) (by decide) (by decide), by decide⟩

/-! ## Claims C21 to C30 -/

/-- C30: in every state reachable from a constructor by the public
operations, an item held in a real slot of either table carries the pair
`(table0.hash(pre_hash(key)), table1.hash(pre_hash(key)))` under the tables'
current constants and sizes, and a swap that goes by the cached pair
(`_first(p_item)`, `_second(p_item)`) writes the item to that index of the
table, which is a real slot. -/
theorem cached_hashes_current [DecidableEq K] [Inhabited K] [Inhabited V] (m : CuckooHashMap K V)
    (h : Reachable m) (item : Item K V) (hi : item ∈ live m) :
    item.hashes = (m.table0.hash (m._pre_hash item.key), m.table1.hash (m._pre_hash item.key)) ∧
    (swap_first m item).1.table0.get (m.table0.hash (m._pre_hash item.key)) = some item ∧
    (swap_second m item).1.table1.get (m.table1.hash (m._pre_hash item.key)) = some item ∧
    m.table0.hash (m._pre_hash item.key) < m.table0.size ∧
    m.table1.hash (m._pre_hash item.key) < m.table1.size := by
  have hinv := h.inv
  have hc : Cached m item := by
    rcases mem_live_iff.1 hi with ⟨i, hi⟩ | ⟨j, hj⟩
    · exact (hinv.placed.1 i item hi).1
    · exact (hinv.placed.2 j item hj).1
  have e : item.hashes = (m.table0.hash (m._pre_hash item.key), m.table1.hash (m._pre_hash item.key)) := hc
  have l0 : m.table0.hash (m._pre_hash item.key) < m.table0.size := Nat.mod_lt _ hinv.pos0
  have l1 : m.table1.hash (m._pre_hash item.key) < m.table1.size := Nat.mod_lt _ hinv.pos1
  refine ⟨e, ?_, ?_, l0, l1⟩
  · have l0' : m.table0.hash (m._pre_hash item.key) < m.table0._data._items.length := l0
    simp [swap_first, Table.get, Table.set, getD_set_eq, e, l0']
  · have l1' : m.table1.hash (m._pre_hash item.key) < m.table1._data._items.length := l1
    simp [swap_second, Table.get, Table.set, getD_set_eq, e, l1']

/-- Witness for C30: the item of key 22 in the map that holds 22, 31 and 98. -/
theorem cached_hashes_current_witness :
    (⟨22, 1, (1, 2)⟩ : Item Nat Nat) ∈ live three_keys_map ∧
    (1, 2) = (three_keys_map.table0.hash (three_keys_map._pre_hash 22),
      three_keys_map.table1.hash (three_keys_map._pre_hash 22)) :=
  ⟨by decide, (cached_hashes_current three_keys_map three_keys_reachable ⟨22, 1, (1, 2)⟩ (by decide)).1⟩

/-- C29: let `k1` and `k2` be keys with the same pair of candidate slots, in
a map where `contains(k1)` holds and no real slot holds `k2` (so the keys are
distinct, and one of the two slots inspected for `k2` holds `k1`).  Then
`contains(k2)` is false, `find(k2)` is `end()`, `at(k2)` throws
`std::invalid_argument`, and `erase_if_found(k2)` returns false and leaves
the map as it was, so `contains(k1)` still holds and `at(k1)` gives the same
value as before. -/
theorem lookup_matches_key [DecidableEq K] [Inhabited K] [Inhabited V] (m : CuckooHashMap K V)
    (k1 k2 : K) (gen : Generator) (hsame : _hashes m k1 = _hashes m k2)
    (h1 : m.contains k1 = true) (h2 : k2 ∉ keys m) :
    m.contains k2 = false ∧
    m.find k2 = FoundIterator.at_slot m.end_ ∧
    m.at_ k2 = Except.error Error.invalid_argument ∧
    ∃ m', m.erase_if_found k2 gen = some (false, m', gen) ∧ m'.contains k1 = true ∧
      m'.at_ k1 = m.at_ k1 ∧
      (holds_key (_first m' (_hashes m' k2).1) k1 = true ∨
        holds_key (_second m' (_hashes m' k2).2) k1 = true) := by
  have hc : m.contains k2 = false := by
    cases hk : m.contains k2 with
    | false => rfl
    | true => exact absurd (mem_keys_of_contains hk) h2
  refine ⟨hc, (find_eq_end_iff m k2).2 hc, _at_error_of_not_contains hc, m,
    erase_if_found_of_not_contains m k2 gen hc, h1, rfl, ?_⟩
  rw [← hsame]
  exact (contains_iff m k1).1 h1

/-- Witness for C29: the keys 22 and 89 share the candidate slots `(1, 2)`;
the map holds 22, 31 and 98. -/
theorem lookup_matches_key_witness :
    _hashes three_keys_map 22 = _hashes three_keys_map 89 ∧
    three_keys_map.contains 22 = true ∧ 89 ∉ keys three_keys_map ∧
    three_keys_map.contains 89 = false ∧
    three_keys_map.at_ 89 = Except.error Error.invalid_argument :=
  ⟨by decide, by decide, by decide,
    (lookup_matches_key three_keys_map 22 89 [] (by decide) (by decide) (by decide)).1,
    (lookup_matches_key three_keys_map 22 89 [] (by decide) (by decide) (by decide)).2.2.1⟩

/-! ### Inserts that place the item within one eviction -/

theorem _insert_finish_below_floor [Inhabited K] [Inhabited V] (m : CuckooHashMap K V)
    (gen : Generator) (h : (m._size + 1) * 4 < MINIMUM_CAPACITY) :
    _insert_finish m gen = some ({ m with _size := m._size + 1 }, gen) := by
  unfold _insert_finish
  simp only
  split
  · unfold _resize
    simp only
    rw [if_pos h]
  · rfl

theorem insert_of_not_contains [DecidableEq K] [Inhabited K] [Inhabited V] (m : CuckooHashMap K V)
    (key : K) (value : V) (gen : Generator) (h : m.contains key = false) :
    m.insert key value gen = _insert m ⟨key, value, _hashes m key⟩ gen := by
  unfold CuckooHashMap.insert
  rw [_try_update_of_not_contains m key value h]
  simp

theorem _insert_free_slot [Inhabited K] [Inhabited V] (m : CuckooHashMap K V) (p : Item K V)
    (gen : Generator) (hfree : m.table0.get p.hashes.1 = none) :
    _insert m p gen =
      (_insert_finish { m with table0 := m.table0.set p.hashes.1 (some p) } gen).map
        fun r => (⟨Index.FIRST, p.hashes.1⟩, r) := by
  unfold _insert
  simp only [swap_first, _first, hfree, _insert_loop]

theorem _insert_one_eviction [Inhabited K] [Inhabited V] (m : CuckooHashMap K V) (p q : Item K V)
    (gen : Generator) (hfirst : m.table0.get p.hashes.1 = some q)
    (hfree : m.table1.get q.hashes.2 = none) :
    _insert m p gen =
      (_insert_finish { m with table0 := m.table0.set p.hashes.1 (some p),
                               table1 := m.table1.set q.hashes.2 (some q) } gen).map
        fun r => (⟨Index.FIRST, p.hashes.1⟩, r) := by
  unfold _insert
  have hs : _second { m with table0 := m.table0.set p.hashes.1 (some p) } q.hashes.2 = none := hfree
  simp only [swap_first, _first, hfirst, CYCLE_LIMIT, _insert_loop, swap_second, hs]

theorem get_none_of_live_nil {m : CuckooHashMap K V} (h : live m = []) :
    (∀ i, m.table0.get i = none) ∧ (∀ j, m.table1.get j = none) := by
  constructor
  · intro i
    cases hi : m.table0.get i with
    | none => rfl
    | some item =>
      have := get0_mem_live hi
      rw [h] at this
      cases this
  · intro j
    cases hj : m.table1.get j with
    | none => rfl
    | some item =>
      have := get1_mem_live hj
      rw [h] at this
      cases this

/-- C21: let `m0` be an empty map (no item in a real slot, `_size` zero, at
least one real slot per table, any constants) and `k1`, `k2` distinct keys
with the same pair `(h0, h1)` of candidate slots.  Then `insert(k1, v1)` and
`insert(k2, v2)` both return without drawing from the generator, and in the
state `m2` they leave slot `h0` of `table0` holds `(k2, v2)`, slot `h1` of
`table1` holds `(k1, v1)`, these are the only items, the constants, table
sizes and capacity are those of `m0`, `contains` is true and `at` returns the
inserted value for both keys, and `size()` is 2. -/
theorem two_key_collision [DecidableEq K] [Inhabited K] [Inhabited V] (m0 : CuckooHashMap K V)
    (k1 k2 : K) (v1 v2 : V) (gen : Generator)
    (hempty : live m0 = []) (hsize : m0._size = 0)
    (h0 : 0 < m0.table0.size) (h1 : 0 < m0.table1.size)
    (hne : k1 ≠ k2) (hsame : _hashes m0 k1 = _hashes m0 k2) :
    ∃ it1 m1 it2 m2,
      m0.insert k1 v1 gen = some (it1, m1, gen) ∧ m1.insert k2 v2 gen = some (it2, m2, gen) ∧
      m2.table0.get (_hashes m0 k1).1 = some ⟨k2, v2, _hashes m0 k1⟩ ∧
      m2.table1.get (_hashes m0 k1).2 = some ⟨k1, v1, _hashes m0 k1⟩ ∧
      (live m2).Perm [⟨k2, v2, _hashes m0 k1⟩, ⟨k1, v1, _hashes m0 k1⟩] ∧
      SameFrame m0 { m2 with _size := m0._size } ∧
      m2.contains k1 = true ∧ m2.contains k2 = true ∧
      m2.at_ k1 = Except.ok v1 ∧ m2.at_ k2 = Except.ok v2 ∧ m2.size = 2 := by
  obtain ⟨e0, e1⟩ := get_none_of_live_nil hempty
  have l0 : (_hashes m0 k1).1 < m0.table0._data._items.length := Nat.mod_lt _ h0
  have l1 : (_hashes m0 k1).2 < m0.table1._data._items.length := Nat.mod_lt _ h1
  have hc1 : m0.contains k1 = false := by
    cases hk : m0.contains k1 with
    | false => rfl
    | true =>
      have := mem_keys_of_contains hk
      simp [keys, hempty] at this
  -- the first insert
  have i1 : m0.insert k1 v1 gen = some (⟨Index.FIRST, (_hashes m0 k1).1⟩,
      { m0 with table0 := m0.table0.set (_hashes m0 k1).1 (some ⟨k1, v1, _hashes m0 k1⟩),
                _size := m0._size + 1 }, gen) := by
    rw [insert_of_not_contains m0 k1 v1 gen hc1, _insert_free_slot _ _ _ (e0 _),
      _insert_finish_below_floor _ _ (by simp [hsize, MINIMUM_CAPACITY])]
    rfl
  obtain ⟨m1, hm1⟩ : ∃ m1 : CuckooHashMap K V,
      { m0 with table0 := m0.table0.set (_hashes m0 k1).1 (some ⟨k1, v1, _hashes m0 k1⟩),
                _size := m0._size + 1 } = m1 := ⟨_, rfl⟩
  rw [hm1] at i1
  have f1 : SameFrame m0 { m1 with _size := m0._size } := by
    subst hm1
    constructor <;> simp [Table.set, Table.size, Data.size]
  have hh1 : ∀ key, _hashes m1 key = _hashes m0 key := by
    intro key
    subst hm1
    simp [_hashes, Table.hash, Table.set, Data.size]
  have g10 : m1.table0.get (_hashes m0 k1).1 = some ⟨k1, v1, _hashes m0 k1⟩ := by
    subst hm1
    simp [Table.get, Table.set, getD_set_eq, l0]
  have g11 : m1.table1.get (_hashes m0 k1).2 = none := by
    subst hm1
    exact e1 _
  have s1 : m1._size = 1 := by
    subst hm1
    simp [hsize]
  have hc2 : m1.contains k2 = false := by
    cases hk : m1.contains k2 with
    | false => rfl
    | true =>
      rw [contains_iff, hh1, ← hsame] at hk
      unfold _first _second at hk
      rw [g10, g11] at hk
      simp [holds_key, hne] at hk
  -- the second insert
  have i2 : m1.insert k2 v2 gen = some (⟨Index.FIRST, (_hashes m0 k1).1⟩,
      { m1 with table0 := m1.table0.set (_hashes m0 k1).1 (some ⟨k2, v2, _hashes m0 k1⟩),
                table1 := m1.table1.set (_hashes m0 k1).2 (some ⟨k1, v1, _hashes m0 k1⟩),
                _size := m1._size + 1 }, gen) := by
    rw [insert_of_not_contains m1 k2 v2 gen hc2, hh1, ← hsame,
      _insert_one_eviction _ ⟨k2, v2, _hashes m0 k1⟩ ⟨k1, v1, _hashes m0 k1⟩ _ g10 g11,
      _insert_finish_below_floor _ _ (by simp [s1, MINIMUM_CAPACITY])]
    rfl
  obtain ⟨m2, hm2⟩ : ∃ m2 : CuckooHashMap K V,
      { m1 with table0 := m1.table0.set (_hashes m0 k1).1 (some ⟨k2, v2, _hashes m0 k1⟩),
                table1 := m1.table1.set (_hashes m0 k1).2 (some ⟨k1, v1, _hashes m0 k1⟩),
                _size := m1._size + 1 } = m2 := ⟨_, rfl⟩
  rw [hm2] at i2
  have l0' : (_hashes m0 k1).1 < m1.table0._data._items.length := by
    have := f1.size0
    simp only [Table.size, Data.size] at this
    rw [this]; exact l0
  have l1' : (_hashes m0 k1).2 < m1.table1._data._items.length := by
    have := f1.size1
    simp only [Table.size, Data.size] at this
    rw [this]; exact l1
  have f2 : SameFrame m0 { m2 with _size := m0._size } := by
    subst hm2
    refine SameFrame.step f1 ?_
    constructor <;> simp [Table.set, Table.size, Data.size]
  have hh2 : ∀ key, _hashes m2 key = _hashes m0 key := fun key => f2.hashes key
  have g20 : m2.table0.get (_hashes m0 k1).1 = some ⟨k2, v2, _hashes m0 k1⟩ := by
    subst hm2
    simp [Table.get, Table.set, getD_set_eq, l0']
  have g21 : m2.table1.get (_hashes m0 k1).2 = some ⟨k1, v1, _hashes m0 k1⟩ := by
    subst hm2
    simp [Table.get, Table.set, getD_set_eq, l1']
  have hl : (live m2).Perm [⟨k2, v2, _hashes m0 k1⟩, ⟨k1, v1, _hashes m0 k1⟩] := by
    have a1 := reduceOption_set_perm m0.table0._data._items (_hashes m0 k1).1
      (some ⟨k1, v1, _hashes m0 k1⟩) l0
    have hz0 : m0.table0._data._items.reduceOption = [] := by
      have := hempty
      simp only [live, List.append_eq_nil] at this
      exact this.1
    have hz1 : m0.table1._data._items.reduceOption = [] := by
      have := hempty
      simp only [live, List.append_eq_nil] at this
      exact this.2
    have b1 := reduceOption_set_perm m0.table1._data._items (_hashes m0 k1).2
      (some ⟨k1, v1, _hashes m0 k1⟩) l1
    have ee0 : m0.table0._data._items.getD (_hashes m0 k1).1 none = none := e0 _
    have ee1 : m0.table1._data._items.getD (_hashes m0 k1).2 none = none := e1 _
    rw [ee1, hz1] at b1
    subst hm2
    subst hm1
    show ((((m0.table0._data._items.set _ _).set _ _).reduceOption) ++
      (m0.table1._data._items.set _ _).reduceOption).Perm _
    rw [List.set_set]
    have a2 := reduceOption_set_perm m0.table0._data._items (_hashes m0 k1).1
      (some ⟨k2, v2, _hashes m0 k1⟩) l0
    rw [ee0, hz0] at a2
    simp only [Option.toList, List.append_nil, List.nil_append] at a2 b1
    exact (List.Perm.append a2 b1)
  refine ⟨_, m1, _, m2, i1, i2, g20, g21, hl, f2, ?_, ?_, ?_, ?_, ?_⟩
  · rw [contains_iff, hh2]
    right
    unfold _second
    rw [g21]
    simp [holds_key]
  · rw [contains_iff, hh2, ← hsame]
    left
    unfold _first
    rw [g20]
    simp [holds_key]
  · refine _at_of_second m2 k1 ⟨k1, v1, _hashes m0 k1⟩ ?_ ?_ rfl
    · rw [hh2]
      unfold _first
      rw [g20]
      simp [holds_key, Ne.symm hne]
    · rw [hh2]
      exact g21
  · refine _at_of_first m2 k2 ⟨k2, v2, _hashes m0 k1⟩ ?_ rfl
    rw [hh2, ← hsame]
    exact g20
  · subst hm2
    simp [CuckooHashMap.size, s1]

/-- Witness for C21: the keys 1 and 2 under the stub pre-hash, in a fresh map
of capacity 16. -/
theorem two_key_collision_witness :
    live fresh_stub.1 = [] ∧ _hashes fresh_stub.1 1 = _hashes fresh_stub.1 2 ∧
    ∃ it1 m1 it2 m2,
      fresh_stub.1.insert 1 10 [] = some (it1, m1, []) ∧ m1.insert 2 20 [] = some (it2, m2, []) ∧
      m2.table0.get (_hashes fresh_stub.1 1).1 = some ⟨2, 20, _hashes fresh_stub.1 1⟩ ∧
      m2.table1.get (_hashes fresh_stub.1 1).2 = some ⟨1, 10, _hashes fresh_stub.1 1⟩ ∧
      (live m2).Perm [⟨2, 20, _hashes fresh_stub.1 1⟩, ⟨1, 10, _hashes fresh_stub.1 1⟩] ∧
      SameFrame fresh_stub.1 { m2 with _size := fresh_stub.1._size } ∧
      m2.contains 1 = true ∧ m2.contains 2 = true ∧
      m2.at_ 1 = Except.ok 10 ∧ m2.at_ 2 = Except.ok 20 ∧ m2.size = 2 :=
  ⟨by decide, by decide,
    two_key_collision fresh_stub.1 1 2 10 20 [] (by decide) (by decide) (by decide) (by decide)
      (by decide) (by decide)⟩

theorem _resize_with_sentinel [Inhabited K] [Inhabited V] (m : CuckooHashMap K V)
    (s : Option (Item K V)) (gen : Generator) :
    (_resize (with_sentinel m s) gen).map (fun r => (_items r.1, r.2)) =
      (_resize m gen).map (fun r => (_items r.1, r.2)) := by
  unfold _resize
  simp only
  by_cases h : m._size * 4 < MINIMUM_CAPACITY
  · have h' : (with_sentinel m s)._size * 4 < MINIMUM_CAPACITY := h
    rw [if_pos h, if_pos h']
    rfl
  · have h' : ¬ (with_sentinel m s)._size * 4 < MINIMUM_CAPACITY := h
    rw [if_neg h, if_neg h']
    rfl

theorem _erase_with_sentinel [Inhabited K] [Inhabited V] (m : CuckooHashMap K V)
    (s : Option (Item K V)) (table : Index) (hash : Nat) (gen : Generator) :
    (_erase (with_sentinel m s) table hash gen).map (fun r => (_items r.1, r.2)) =
      (_erase m table hash gen).map (fun r => (_items r.1, r.2)) := by
  cases table with
  | FIRST =>
    unfold _erase
    simp only
    by_cases h : m._size - 1 = m._capacity / 8
    · have h' : (with_sentinel m s)._size - 1 = (with_sentinel m s)._capacity / 8 := h
      rw [if_pos h, if_pos h']
      exact _resize_with_sentinel { m with table0 := m.table0.set hash none, _size := m._size - 1 } s gen
    · have h' : ¬ (with_sentinel m s)._size - 1 = (with_sentinel m s)._capacity / 8 := h
      rw [if_neg h, if_neg h']
      rfl
  | SECOND =>
    unfold _erase
    simp only
    by_cases h : m._size - 1 = m._capacity / 8
    · have h' : (with_sentinel m s)._size - 1 = (with_sentinel m s)._capacity / 8 := h
      rw [if_pos h, if_pos h']
      exact _resize_with_sentinel { m with table1 := m.table1.set hash none, _size := m._size - 1 } s gen
    · have h' : ¬ (with_sentinel m s)._size - 1 = (with_sentinel m s)._capacity / 8 := h
      rw [if_neg h, if_neg h']
      rfl

theorem erase_if_found_with_sentinel [DecidableEq K] [Inhabited K] [Inhabited V]
    (m : CuckooHashMap K V) (s : Option (Item K V)) (key : K) (gen : Generator) :
    ((with_sentinel m s).erase_if_found key gen).map erase_view =
      (m.erase_if_found key gen).map erase_view := by
  have e0 := _erase_with_sentinel m s Index.FIRST (_hashes m key).1 gen
  have e1 := _erase_with_sentinel m s Index.SECOND (_hashes m key).2 gen
  unfold CuckooHashMap.erase_if_found
  simp only
  by_cases h0 : holds_key (_first m (_hashes m key).1) key = true
  · have h0' : holds_key (_first (with_sentinel m s) (_hashes (with_sentinel m s) key).1) key = true := h0
    rw [if_pos h0, if_pos h0']
    change (_erase (with_sentinel m s) Index.FIRST (_hashes m key).1 gen).map _ = _ at e0
    rcases ha : _erase (with_sentinel m s) Index.FIRST (_hashes m key).1 gen with _ | ⟨ma, ga⟩ <;>
      rcases hb : _erase m Index.FIRST (_hashes m key).1 gen with _ | ⟨mb, gb⟩ <;>
      rw [ha, hb] at e0 <;> simp at e0
    · have ha' : _erase (with_sentinel m s) Index.FIRST (_hashes (with_sentinel m s) key).1 gen = none := ha
      rw [ha']
    · have ha' : _erase (with_sentinel m s) Index.FIRST (_hashes (with_sentinel m s) key).1 gen =
          some (ma, ga) := ha
      rw [ha']
      simp [erase_view, e0.1, e0.2]
  · have h0' : ¬ holds_key (_first (with_sentinel m s) (_hashes (with_sentinel m s) key).1) key = true := h0
    rw [if_neg h0, if_neg h0']
    by_cases h1 : holds_key (_second m (_hashes m key).2) key = true
    · have h1' : holds_key (_second (with_sentinel m s) (_hashes (with_sentinel m s) key).2) key = true := h1
      rw [if_pos h1, if_pos h1']
      rcases ha : _erase (with_sentinel m s) Index.SECOND (_hashes m key).2 gen with _ | ⟨ma, ga⟩ <;>
        rcases hb : _erase m Index.SECOND (_hashes m key).2 gen with _ | ⟨mb, gb⟩ <;>
        rw [ha, hb] at e1 <;> simp at e1
      · have ha' : _erase (with_sentinel m s) Index.SECOND (_hashes (with_sentinel m s) key).2 gen = none := ha
        rw [ha']
      · have ha' : _erase (with_sentinel m s) Index.SECOND (_hashes (with_sentinel m s) key).2 gen =
            some (ma, ga) := ha
        rw [ha']
        simp [erase_view, e1.1, e1.2]
    · have h1' : ¬ holds_key (_second (with_sentinel m s) (_hashes (with_sentinel m s) key).2) key = true := h1
      rw [if_neg h1, if_neg h1']
      rfl

/-- C23: for a map whose tables have at least one real slot and a non-zero
prime constant, `Table::hash` of either table is below the table size (and
below the prime) for every pre-hash value; `contains` reads slot `h0` of `table0` and slot `h1` of
`table1` for the pair `(h0, h1)` of `_hashes(key)` only, both are real slots,
and the second is not the position of `end()`.  What `contains`, `at`,
`find`, `erase_if_found` and `erase` return, and the real slots that the two
erasing calls leave, do not depend on what the sentinel word holds, also
when it holds an item with the key that is looked up. -/
theorem sentinel_is_no_lookup_target [DecidableEq K] [Inhabited K] [Inhabited V]
    (m : CuckooHashMap K V) (key : K) (s : Option (Item K V)) (gen : Generator) (x : Nat)
    (h0 : 0 < m.table0.size) (h1 : 0 < m.table1.size)
    (hp0 : m.table0._constants.PRIME ≠ 0) (hp1 : m.table1._constants.PRIME ≠ 0) :
    m.table0.hash x < m.table0.size ∧ m.table1.hash x < m.table1.size ∧
    m.table0.hash x < m.table0._constants.PRIME ∧ m.table1.hash x < m.table1._constants.PRIME ∧
    (_hashes m key).1 < m.table0.size ∧ (_hashes m key).2 < m.table1.size ∧
    (⟨Index.SECOND, (_hashes m key).2⟩ : Iterator) ≠ m.end_ ∧
    m.contains key = (holds_key (m.table0.get (_hashes m key).1) key ||
      holds_key (m.table1.get (_hashes m key).2) key) ∧
    (with_sentinel m s).contains key = m.contains key ∧
    (with_sentinel m s).at_ key = m.at_ key ∧
    (with_sentinel m s).find key = m.find key ∧
    ((with_sentinel m s).erase_if_found key gen).map erase_view =
      (m.erase_if_found key gen).map erase_view ∧
    (((with_sentinel m s).erase key gen).map fun r => r.map fun r => (_items r.1, r.2)) =
      ((m.erase key gen).map fun r => r.map fun r => (_items r.1, r.2)) := by
  have l1 : (_hashes m key).2 < m.table1.size := Nat.mod_lt _ h1
  refine ⟨Nat.mod_lt _ h0, Nat.mod_lt _ h1,
    Nat.lt_of_le_of_lt (Nat.mod_le _ _) (Nat.mod_lt _ (Nat.pos_of_ne_zero hp0)),
    Nat.lt_of_le_of_lt (Nat.mod_le _ _) (Nat.mod_lt _ (Nat.pos_of_ne_zero hp1)),
    Nat.mod_lt _ h0, l1, ?_, ?_, rfl, rfl, rfl,
    erase_if_found_with_sentinel m s key gen, ?_⟩
  · intro he
    simp only [CuckooHashMap.end_, Iterator.mk.injEq, true_and] at he
    omega
  · unfold CuckooHashMap.contains _first _second
    simp only
    cases holds_key (m.table0.get (_hashes m key).1) key <;>
      cases holds_key (m.table1.get (_hashes m key).2) key <;> rfl
  · have e := erase_if_found_with_sentinel m s key gen
    unfold CuckooHashMap.erase
    rcases ha : (with_sentinel m s).erase_if_found key gen with _ | ⟨fa, ma, ga⟩ <;>
      rcases hb : m.erase_if_found key gen with _ | ⟨fb, mb, gb⟩ <;>
      rw [ha, hb] at e <;> simp [erase_view] at e
    obtain ⟨ef, ei, eg⟩ := e
    subst ef
    cases fa <;> simp [Except.map, ei, eg]

/-- Witness for C23: a fresh map of capacity 16, whose sentinel holds an item
with the default key 0, and the lookup of that key. -/
theorem sentinel_is_no_lookup_target_witness :
    fresh_stub.1.table1._data.past = some ⟨0, 0, (0, 0)⟩ ∧
    (_hashes fresh_stub.1 0).2 < fresh_stub.1.table1.size ∧
    fresh_stub.1.contains 0 = false :=
  ⟨by decide,
    (sentinel_is_no_lookup_target fresh_stub.1 0 none [] 0 (by decide) (by decide) (by decide)
      (by decide)).2.2.2.2.2.1, by decide⟩

/-- C24, counterexample: `table0` of a fresh map of capacity 16 has the
constants `(64, 64, 67)` and 8 slots; for the pre-hash value `2 ^ 58` the
product `64 * 2 ^ 58` is `2 ^ 64`, so the `size_t` value of `a * x + b` is 64
and `hash` returns `(64 % 67) % 8 = 0`, while the exact integer
`2 ^ 64 + 64` gives `(14) % 8 = 6`. -/
theorem hash_wraps_around :
    fresh_identity.1.table0._constants = ⟨64, 64, 67⟩ ∧ fresh_identity.1.table0.size = 8 ∧
    2 ^ 58 < 2 ^ SIZE_BITS ∧
    fresh_identity.1.table0.hash (2 ^ 58) = 0 ∧
    ((64 * 2 ^ 58 + 64) % 67) % 8 = 6 := by
  decide

/-- C24, amended: `Table::hash(x)` is `((r mod prime) mod table_size)` for
`r` the value of `a * x + b` reduced modulo `2 ^ 64`, and it is
`((a * x + b) mod prime) mod table_size` for the exact integer whenever
`a * x + b` is below `2 ^ 64`. -/
theorem hash_formula (t : Table K V) (x : Nat) :
    t.hash x = (((t._constants.A * x + t._constants.B) % 2 ^ 64) % t._constants.PRIME) % t.size ∧
    (t._constants.A * x + t._constants.B < 2 ^ 64 →
      t.hash x = ((t._constants.A * x + t._constants.B) % t._constants.PRIME) % t.size) := by
  refine ⟨rfl, fun h => ?_⟩
  show ((t._constants.A * x + t._constants.B) % 2 ^ 64 % t._constants.PRIME) % t._data.size = _
  rw [Nat.mod_eq_of_lt h]
  rfl

/-- Witness for C24: the pre-hash value 22 in `table0` of a fresh map. -/
theorem hash_formula_witness :
    64 * 22 + 64 < 2 ^ 64 ∧ fresh_identity.1.table0.hash 22 = ((64 * 22 + 64) % 67) % 8 :=
  ⟨by decide, (hash_formula fresh_identity.1.table0 22).2 (by decide)⟩

/-- C22: the initializer-list constructor leaves the word that `end()`
refers to unwritten (its body is empty), where the capacity constructor and
`clear` store a dummy item there. -/
theorem initializer_list_sets_no_sentinel [Inhabited K] [Inhabited V] (items : List (K × V))
    (pre_hash : K → Nat) (capacity : Nat) (gen : Generator) :
    (∀ (m : CuckooHashMap K V) (gen' : Generator),
      CuckooHashMap.create_from_list items pre_hash capacity gen = some (m, gen') →
        slot_at m m.end_ = none) ∧
    (∀ (m : CuckooHashMap K V) (gen' : Generator),
      CuckooHashMap.create pre_hash capacity gen = some (m, gen') →
        slot_at m m.end_ = some ⟨default, default, (0, 0)⟩) ∧
    (∀ m : CuckooHashMap K V, slot_at m.clear m.clear.end_ = some ⟨default, default, (0, 0)⟩) := by
  refine ⟨?_, ?_, ?_⟩
  · intro m gen' h
    unfold CuckooHashMap.create_from_list at h
    split at h
    · cases h
    · rename_i t0 t1 gen1 hc
      simp only [Option.some.injEq, Prod.mk.injEq] at h
      obtain ⟨hm, -⟩ := h
      subst hm
      unfold create_tables at hc
      split at hc
      · cases hc
      · rename_i t0' gen0 h0
        split at hc
        · cases hc
        · rename_i t1' gen1' h1
          simp only [Option.some.injEq, Prod.mk.injEq] at hc
          obtain ⟨⟨-, ht1⟩, -⟩ := hc
          subst ht1
          have d1 := generate_constants_data _ _ _ _ h1
          simp [slot_at, CuckooHashMap.end_, d1, Data.create]
  · intro m gen' h
    unfold CuckooHashMap.create at h
    split at h
    · cases h
    · simp only [Option.some.injEq, Prod.mk.injEq] at h
      obtain ⟨hm, -⟩ := h
      subst hm
      simp [slot_at, CuckooHashMap.end_, Table.set_extra, Table.size, Data.size]
  · intro m
    simp [slot_at, CuckooHashMap.end_, CuckooHashMap.clear, Table.set_extra, Table.size, Data.size]

/-- Witness for C22: the map built from the list `{(1, 10)}` is a reachable
state whose sentinel word holds no item. -/
theorem initializer_list_sets_no_sentinel_witness :
    Reachable listed_map ∧ slot_at listed_map listed_map.end_ = none :=
  ⟨Reachable.create_from_list [(1, 10)] stub_pre_hash 16 draws _ listed_map (by decide) (by rfl),
    (initializer_list_sets_no_sentinel [(1, 10)] stub_pre_hash 16 draws).1 listed_map _ (by rfl)⟩

theorem reachable_bind_erase_if_found [DecidableEq K] [Inhabited K] [Inhabited V]
    (o : Option (Bool × CuckooHashMap K V × Generator)) (hr : ∀ r, o = some r → Reachable r.2.1)
    (key : K) (gen : Generator) (r' : Bool × CuckooHashMap K V × Generator)
    (h : (o.bind fun r => r.2.1.erase_if_found key gen) = some r') : Reachable r'.2.1 := by
  cases o with
  | none => cases h
  | some r =>
    obtain ⟨found, m', gen'⟩ := r'
    exact Reachable.erase_if_found r.2.1 m' key gen gen' found (hr r rfl) h

theorem resize_output_reachable : Reachable resize_output.1 :=
  Reachable.insert seven_keys_map resize_output.1 7 70 draws resize_output.2 ⟨Index.FIRST, 3⟩
    seven_keys_reachable (by rfl)

theorem five_keys_reachable : Reachable five_keys_map := by
  refine reachable_bind_erase_if_found _ ?_ 2 [] _ (Option.some_get _).symm
  intro r1 h1
  refine reachable_bind_erase_if_found _ ?_ 1 [] _ h1
  intro r0 h0
  obtain ⟨found, m', gen'⟩ := r0
  exact Reachable.erase_if_found resize_output.1 m' 0 [] gen' found resize_output_reachable h0

/-- C25: after the growth that the eighth insert into a map of capacity 16
brings about, `capacity()` is 32 and both tables have 32 real slots, with one
more word allocated for `table1`; after the shrink that `erase_if_found(3)`
brings about on the map of capacity 32 with five keys, `capacity()` is 16 and
both tables have 16 real slots.  Both states are reachable.  In the state the
capacity constructor leaves for capacity 16, `table1` has 9 allocated words,
all of them real slots, and the sentinel word lies behind them. -/
theorem table_sizes_after_resize :
    Reachable resize_output.1 ∧
    resize_output.1.capacity = 32 ∧ resize_output.1.table0.size = 32 ∧
    resize_output.1.table1.size = 32 ∧ resize_output.1.table1._data.allocated = 33 ∧
    Reachable shrink_outcome.2.1 ∧
    shrink_outcome.2.1.capacity = 16 ∧ shrink_outcome.2.1.table0.size = 16 ∧
    shrink_outcome.2.1.table1.size = 16 ∧ shrink_outcome.2.1.table1._data.allocated = 17 ∧
    fresh_identity.1.capacity = 16 ∧ fresh_identity.1.table0.size = 8 ∧
    fresh_identity.1.table1.size = 9 ∧ fresh_identity.1.table1._data.allocated = 9 :=
  ⟨resize_output_reachable, by decide, by decide, by decide, by decide,
    Reachable.erase_if_found five_keys_map shrink_outcome.2.1 3 draws shrink_outcome.2.2
      shrink_outcome.1 five_keys_reachable (by rfl),
    by decide, by decide, by decide, by decide, by decide, by decide, by decide, by decide⟩

/-! ### Restart of `_rehash` after a failed pass -/

theorem _insert_loop_counted_spec (remaining : Nat) (m : CuckooHashMap K V) (p : Option (Item K V)) :
    (_insert_loop_counted remaining m p).1 = _insert_loop remaining m p ∧
    (_insert_loop_counted remaining m p).2 ≤ 2 * remaining ∧
    ((_insert_loop remaining m p).2.isSome = true → (_insert_loop_counted remaining m p).2 = 2 * remaining) := by
  induction remaining generalizing m p with
  | zero =>
    cases p with
    | none => simp [_insert_loop_counted, _insert_loop]
    | some p => simp [_insert_loop_counted, _insert_loop]
  | succ n ih =>
    cases p with
    | none => simp [_insert_loop_counted, _insert_loop]
    | some p =>
      rcases hs : swap_second m p with ⟨m1, q⟩
      cases q with
      | none =>
        simp [_insert_loop_counted, _insert_loop, hs]
        omega
      | some q =>
        rcases hs1 : swap_first m1 q with ⟨m2, r⟩
        obtain ⟨a, b, c⟩ := ih m2 r
        simp only [_insert_loop_counted, _insert_loop, hs, hs1]
        refine ⟨a, by omega, fun h => ?_⟩
        have := c h
        omega

theorem _try_rehash_item_counted_spec (remaining : Nat) (m : CuckooHashMap K V) (p : Item K V) :
    (_try_rehash_item_counted remaining m p).1 = _try_rehash_item remaining m p ∧
    (_try_rehash_item_counted remaining m p).2 ≤ 2 * remaining ∧
    ((_try_rehash_item remaining m p).1 = false → (_try_rehash_item_counted remaining m p).2 = 2 * remaining) := by
  induction remaining generalizing m p with
  | zero => simp [_try_rehash_item_counted, _try_rehash_item]
  | succ n ih =>
    rcases hs : swap_first m p with ⟨m1, q⟩
    cases q with
    | none =>
      simp [_try_rehash_item_counted, _try_rehash_item, hs]
      omega
    | some q =>
      rcases hs1 : swap_second m1 q with ⟨m2, r⟩
      cases r with
      | none => simp [_try_rehash_item_counted, _try_rehash_item, hs, hs1]
      | some r =>
        obtain ⟨a, b, c⟩ := ih m2 r
        simp only [_try_rehash_item_counted, _try_rehash_item, hs, hs1]
        refine ⟨a, by omega, fun h => ?_⟩
        have := c h
        omega

/-- C26, counterexample: in the map that holds the keys 1 and 2 under the
stub pre-hash, `_insert` of an item for key 3 executes 33 swaps before it
falls back to the rehash, and `_try_rehash`'s loop for that item executes 32
swaps before it reports failure. -/
theorem chain_exceeds_sixteen_swaps :
    _insert_swaps two_collisions_map ⟨3, 30, _hashes two_collisions_map 3⟩ = 33 ∧
    (_insert_loop CYCLE_LIMIT (swap_first two_collisions_map ⟨3, 30, _hashes two_collisions_map 3⟩).1
      (swap_first two_collisions_map ⟨3, 30, _hashes two_collisions_map 3⟩).2).2.isSome = true ∧
    (_try_rehash_item_counted CYCLE_LIMIT two_collisions_map ⟨3, 30, _hashes two_collisions_map 3⟩).2 = 32 ∧
    (_try_rehash_item CYCLE_LIMIT two_collisions_map ⟨3, 30, _hashes two_collisions_map 3⟩).1 = false := by
  decide

/-- C26, amended: `CYCLE_LIMIT` bounds the iterations of the loops, each of
which executes up to two swaps.  `_insert` executes at most
`2 * 16 + 1 = 33` swaps, and exactly 33 when it falls back to the rehash;
`_try_rehash` executes at most `2 * 16 = 32` swaps for a snapshot item, and
exactly 32 when it reports failure.  The counting loops compute what the
loops of `_insert` and `_try_rehash` compute. -/
theorem chain_swap_bound (m : CuckooHashMap K V) (p : Item K V) (o : Option (Item K V)) :
    (_insert_loop_counted CYCLE_LIMIT m o).1 = _insert_loop CYCLE_LIMIT m o ∧
    (_try_rehash_item_counted CYCLE_LIMIT m p).1 = _try_rehash_item CYCLE_LIMIT m p ∧
    _insert_swaps m p ≤ 2 * CYCLE_LIMIT + 1 ∧
    ((_insert_loop CYCLE_LIMIT (swap_first m p).1 (swap_first m p).2).2.isSome = true →
      _insert_swaps m p = 2 * CYCLE_LIMIT + 1) ∧
    (_try_rehash_item_counted CYCLE_LIMIT m p).2 ≤ 2 * CYCLE_LIMIT ∧
    ((_try_rehash_item CYCLE_LIMIT m p).1 = false →
      (_try_rehash_item_counted CYCLE_LIMIT m p).2 = 2 * CYCLE_LIMIT) := by
  obtain ⟨a, -, -⟩ := _insert_loop_counted_spec CYCLE_LIMIT m o
  obtain ⟨-, b, c⟩ := _insert_loop_counted_spec CYCLE_LIMIT (swap_first m p).1 (swap_first m p).2
  obtain ⟨d, e, f⟩ := _try_rehash_item_counted_spec CYCLE_LIMIT m p
  refine ⟨a, d, ?_, ?_, e, f⟩
  · show (_insert_loop_counted CYCLE_LIMIT (swap_first m p).1 (swap_first m p).2).2 + 1 ≤ _
    omega
  · intro h
    show (_insert_loop_counted CYCLE_LIMIT (swap_first m p).1 (swap_first m p).2).2 + 1 = _
    rw [c h]

/-- Witness for C26: the item for key 3 in the map that holds the keys 1 and
2 under the stub pre-hash. -/
theorem chain_swap_bound_witness :
    _insert_swaps two_collisions_map ⟨3, 30, (0, 1)⟩ = 2 * CYCLE_LIMIT + 1 ∧
    (_try_rehash_item_counted CYCLE_LIMIT two_collisions_map ⟨3, 30, (0, 1)⟩).2 = 2 * CYCLE_LIMIT :=
  ⟨(chain_swap_bound two_collisions_map ⟨3, 30, (0, 1)⟩ none).2.2.2.1 (by decide),
    (chain_swap_bound two_collisions_map ⟨3, 30, (0, 1)⟩ none).2.2.2.2.2 (by decide)⟩

/-! ### Advancing an iterator -/

theorem position_end (m : CuckooHashMap K V) :
    position m (m.table0.size + m.table1.size) = m.end_ := by
  simp [position, CuckooHashMap.end_]

theorem step_forward_position (m : CuckooHashMap K V) (p : Nat) :
    step_forward m (position m p) = position m (p + 1) := by
  unfold step_forward position
  by_cases h : p < m.table0.size
  · by_cases h' : p + 1 < m.table0.size
    · have hne : ((p : Int) + 1) ≠ (m.table0.size : Int) := by omega
      simp [h, h', hne]
    · have he : p + 1 = m.table0.size := by omega
      have he' : ((p : Int) + 1) = (m.table0.size : Int) := by omega
      simp [h, h', he', he]
  · have h' : ¬ p + 1 < m.table0.size := by omega
    have e : p + 1 - m.table0.size = p - m.table0.size + 1 := by omega
    simp [h, h', e]

theorem before_second_end_position (layout : Layout) (m : CuckooHashMap K V) (r : Nat)
    (h : r < m.table0.size + m.table1.size)
    (hl : layout = Layout.first_below ∨ m.table0.size ≤ r) :
    before_second_end layout m (position m r) = true := by
  unfold before_second_end position
  by_cases h' : r < m.table0.size
  · rcases hl with hl | hl
    · simp [h', hl]
    · omega
  · simp only [h', if_false, decide_eq_true_eq]
    omega

/-- C31: when `_resize` is entered with `_size * 4` below `MINIMUM_CAPACITY`
it returns the state it was given, without drawing from the generator: the
capacity, both tables (sizes, constants, every slot, the sentinel word) and
`_size` are as before the call. -/
theorem resize_below_floor [Inhabited K] [Inhabited V] (m : CuckooHashMap K V) (gen : Generator)
    (h : m._size * 4 < MINIMUM_CAPACITY) : _resize m gen = some (m, gen) := by
  unfold _resize
  simp only
  rw [if_pos h]

/-- Witness for C31: `erase_if_found(22)` on the capacity-16 map that holds
22, 31 and 98 reaches `_size == _capacity / 8` and calls `_resize`. -/
theorem resize_below_floor_witness :
    _erase three_keys_map Index.FIRST 1 [] = _resize floor_input [] ∧
    floor_input._size = floor_input._capacity / 8 ∧
    _resize floor_input [] = some (floor_input, []) :=
  ⟨by rfl, by decide, resize_below_floor floor_input [] (by decide)⟩

theorem create_from_list_live {items : List (K × V)} {pre_hash : K → Nat} {capacity : Nat}
    {gen gen' : Generator} {m : CuckooHashMap K V}
    (h : CuckooHashMap.create_from_list items pre_hash capacity gen = some (m, gen')) :
    live m = [] := by
  unfold CuckooHashMap.create_from_list at h
  rcases ht : (create_tables (max items.length capacity) gen :
    Option ((Table K V × Table K V) × Generator)) with _ | ⟨⟨t0, t1⟩, g⟩
  · simp [ht] at h
  simp only [ht, Option.some.injEq, Prod.mk.injEq] at h
  obtain ⟨hm, -⟩ := h
  subst hm
  obtain ⟨d0, d1⟩ := create_tables_spec ht
  simp [live, d0, d1, Data.create, reduceOption_replicate_none]

theorem not_contains_of_live_nil [DecidableEq K] {m : CuckooHashMap K V} (h : live m = [])
    (key : K) : m.contains key = false := by
  cases hk : m.contains key with
  | false => rfl
  | true =>
    have := mem_keys_of_contains hk
    simp [keys, h] at this

/-- C37: the map that the initializer-list constructor builds from any list
of pairs has `size() == 0`, `capacity()` equal to the larger of the list's
length and the requested capacity, no item in any real slot, and
`contains(k)` false for every key `k`, those of the list included. -/
theorem initializer_list_only_sizes [DecidableEq K] (items : List (K × V)) (pre_hash : K → Nat)
    (capacity : Nat) (gen gen' : Generator) (m : CuckooHashMap K V)
    (h : CuckooHashMap.create_from_list items pre_hash capacity gen = some (m, gen')) :
    m.size = 0 ∧ m.capacity = max items.length capacity ∧ live m = [] ∧
    (∀ k, m.contains k = false) ∧ ∀ kv ∈ items, m.contains kv.1 = false := by
  obtain ⟨hs, hc⟩ := create_from_list_spec h
  have hl := create_from_list_live h
  exact ⟨hs, hc, hl, not_contains_of_live_nil hl, fun kv _ => not_contains_of_live_nil hl kv.1⟩

/-- Witness for C37: the map built from the list `{(1, 10)}` with requested
capacity 16. -/
theorem initializer_list_only_sizes_witness :
    listed_map.size = 0 ∧ listed_map.capacity = 16 ∧ listed_map.contains 1 = false :=
  ⟨(initializer_list_only_sizes [(1, 10)] stub_pre_hash 16 draws _ listed_map (by rfl)).1,
    by decide, by decide⟩

/-- C36: when `contains(key)` is true, `insert_or_assign(key, value)` returns
`end()` with the flag `false`, without drawing from the generator; the state
it leaves is the one `_try_update` leaves (the value overwritten in the
key's slot), and the position of that slot, which is what `insert` returns
for a present key, holds the key and is not `end()`.  When `contains(key)` is
false the call returns what `_insert` returns for the new item, with the
flag `true`. -/
theorem insert_or_assign_iterator [DecidableEq K] [Inhabited K] [Inhabited V]
    (m : CuckooHashMap K V) (key : K) (value : V) (gen : Generator) :
    (m.contains key = true →
      m.insert_or_assign key value gen =
        some (((_try_update m key value).2.end_, false), (_try_update m key value).2, gen) ∧
      (_try_update m key value).1.1 ≠ (_try_update m key value).2.end_ ∧
      holds_key (slot_at (_try_update m key value).2 (_try_update m key value).1.1) key = true) ∧
    (m.contains key = false →
      m.insert_or_assign key value gen =
        (_insert m ⟨key, value, _hashes m key⟩ gen).map fun r => ((r.1, true), r.2)) := by
  constructor
  · intro hc
    refine ⟨?_, _try_update_of_contains m key value hc, ?_⟩
    · unfold CuckooHashMap.insert_or_assign
      rw [_at_assign_eq, if_pos hc]
    · rw [contains_iff] at hc
      unfold _try_update
      simp only
      by_cases h1 : holds_key (_first m (_hashes m key).1) key = true
      · rw [if_pos h1]
        obtain ⟨item, hi, hk⟩ := (holds_key_iff _ _).1 h1
        have hlt : (_hashes m key).1 < m.table0._data._items.length := get0_lt hi
        simp [slot_at, Table.get, Table.set, getD_set_eq, hlt, hi, set_value, holds_key, hk]
      · rw [if_neg h1]
        have h2 : holds_key (_second m (_hashes m key).2) key = true := by
          rcases hc with h | h
          · exact absurd h h1
          · exact h
        rw [if_pos h2]
        obtain ⟨item, hi, hk⟩ := (holds_key_iff _ _).1 h2
        have hlt : (_hashes m key).2 < m.table1._data._items.length := get1_lt hi
        have hne : ((_hashes m key).2 : Int) ≠ (m.table1._data._items.length : Int) := by omega
        simp [slot_at, Table.get, Table.set, getD_set_eq, hlt, hi, set_value, holds_key, hk,
          Table.size, Data.size, hne]
  · intro hc
    have hn : ¬ (m.contains key = true) := by simp [hc]
    unfold CuckooHashMap.insert_or_assign
    rw [_at_assign_eq, if_neg hn]
    simp only
    cases _insert m ⟨key, value, _hashes m key⟩ gen <;> rfl

/-- Witness for C36: `insert_or_assign(22, 5)` on the map that holds 22, 31 and
98, where `end()` is slot 9 of `table1` and 22 sits in slot 1 of `table0`. -/
theorem insert_or_assign_iterator_witness :
    three_keys_map.contains 22 = true ∧
    (three_keys_map.insert_or_assign 22 5 []).map (fun r => r.1) =
      some (⟨Index.SECOND, 9⟩, false) ∧
    (_try_update three_keys_map 22 5).1.1 = ⟨Index.FIRST, 1⟩ ∧
    (_try_update three_keys_map 22 5).1.1 ≠ (_try_update three_keys_map 22 5).2.end_ :=
  ⟨by decide, by decide, by decide,
    ((insert_or_assign_iterator three_keys_map 22 5 []).1 (by decide)).2.1⟩

/-! ### The operations as sequences of elementary steps -/

theorem Rewritten.join {a b c : CuckooHashMap K V} (h1 : Rewritten a b) (h2 : Rewritten b c) :
    Rewritten a c := by
  induction h2 with
  | same => exact h1
  | set0 m1 i x _ ih => exact Rewritten.set0 _ _ i x ih
  | set1 m1 j x _ ih => exact Rewritten.set1 _ _ j x ih
  | regenerate m1 m2 gen gen' _ hr ih => exact Rewritten.regenerate _ _ _ gen gen' ih hr

theorem swap_first_rewritten (m : CuckooHashMap K V) (p : Item K V) :
    Rewritten m (swap_first m p).1 :=
  Rewritten.set0 m m p.hashes.1 (some p) (Rewritten.same m)

theorem swap_second_rewritten (m : CuckooHashMap K V) (p : Item K V) :
    Rewritten m (swap_second m p).1 :=
  Rewritten.set1 m m p.hashes.2 (some p) (Rewritten.same m)

theorem _insert_loop_rewritten (remaining : Nat) (m : CuckooHashMap K V) (p : Option (Item K V)) :
    Rewritten m (_insert_loop remaining m p).1 := by
  induction remaining generalizing m p with
  | zero => cases p <;> simp [_insert_loop, Rewritten.same]
  | succ n ih =>
    cases p with
    | none => simp [_insert_loop, Rewritten.same]
    | some p =>
      have f1 := swap_second_rewritten m p
      rcases hs : swap_second m p with ⟨m1, q⟩
      rw [hs] at f1
      cases q with
      | none => simp only [_insert_loop, hs]; exact f1
      | some q =>
        have f2 := swap_first_rewritten m1 q
        rcases hs2 : swap_first m1 q with ⟨m2, r⟩
        rw [hs2] at f2
        simp only [_insert_loop, hs, hs2]
        exact (f1.join f2).join (ih m2 r)

theorem _try_rehash_item_rewritten (remaining : Nat) (m : CuckooHashMap K V) (p : Item K V) :
    Rewritten m (_try_rehash_item remaining m p).2 := by
  induction remaining generalizing m p with
  | zero => simp [_try_rehash_item, Rewritten.same]
  | succ n ih =>
    have f1 := swap_first_rewritten m p
    rcases hs : swap_first m p with ⟨m1, q⟩
    rw [hs] at f1
    cases q with
    | none => simp only [_try_rehash_item, hs]; exact f1
    | some q =>
      have f2 := swap_second_rewritten m1 q
      rcases hs2 : swap_second m1 q with ⟨m2, r⟩
      rw [hs2] at f2
      cases r with
      | none => simp only [_try_rehash_item, hs, hs2]; exact f1.join f2
      | some r =>
        simp only [_try_rehash_item, hs, hs2]
        exact (f1.join f2).join (ih m2 r)

theorem _try_rehash_table_rewritten (old : List (Option (Item K V))) (m : CuckooHashMap K V) :
    Rewritten m (_try_rehash_table m old).2 := by
  induction old generalizing m with
  | nil => simp [_try_rehash_table, Rewritten.same]
  | cons a old ih =>
    cases a with
    | none => simpa [_try_rehash_table] using ih m
    | some p =>
      have f1 := _try_rehash_item_rewritten CYCLE_LIMIT m { p with hashes := _hashes m p.key }
      rcases hs : _try_rehash_item CYCLE_LIMIT m { p with hashes := _hashes m p.key } with ⟨b, m1⟩
      rw [hs] at f1
      cases b with
      | false => simp only [_try_rehash_table, hs]; exact f1
      | true => simp only [_try_rehash_table, hs]; exact f1.join (ih m1)

theorem _try_rehash_rewritten (old : List (Option (Item K V)) × List (Option (Item K V)))
    (m : CuckooHashMap K V) : Rewritten m (_try_rehash m old).2 := by
  have f1 := _try_rehash_table_rewritten old.1 m
  rcases hs : _try_rehash_table m old.1 with ⟨b, m1⟩
  rw [hs] at f1
  cases b with
  | false => simp only [_try_rehash, hs]; exact f1
  | true => simp only [_try_rehash, hs]; exact f1.join (_try_rehash_table_rewritten old.2 m1)

theorem _rehash_loop_rewritten (fuel : Nat) (m m' : CuckooHashMap K V)
    (old : List (Option (Item K V)) × List (Option (Item K V))) (gen gen' : Generator)
    (h : _rehash_loop fuel m old gen = some (m', gen')) : Rewritten m m' := by
  induction fuel generalizing m gen with
  | zero => simp [_rehash_loop] at h
  | succ n ih =>
    simp only [_rehash_loop] at h
    split at h
    · cases h
    · rename_i m1 gen1 hr
      have r1 : Rewritten m m1 := Rewritten.regenerate m m m1 gen gen1 (Rewritten.same m) hr
      have f2 := _try_rehash_rewritten old m1
      split at h
      · rename_i m2 ht
        cases h
        rw [ht] at f2
        exact r1.join f2
      · rename_i m2 ht
        rw [ht] at f2
        exact (r1.join f2).join (ih m2 gen1 h)

theorem Evolved.chain [Inhabited K] [Inhabited V] {a b c : CuckooHashMap K V}
    (h1 : Evolved a b) (h2 : Evolved b c) : Evolved a c := by
  induction h2 with
  | same => exact h1
  | rewrite m1 m2 _ hr ih => exact Evolved.rewrite _ _ _ ih hr
  | count m1 n _ ih => exact Evolved.count _ _ n ih
  | resize m1 m2 _ ht hf hr ih => exact Evolved.resize _ _ _ ih ht hf hr

theorem Rewritten.to_evolved [Inhabited K] [Inhabited V] {m m' : CuckooHashMap K V}
    (h : Rewritten m m') : Evolved m m' :=
  Evolved.rewrite m m m' (Evolved.same m) h

theorem _resize_evolved [Inhabited K] [Inhabited V] {m m' : CuckooHashMap K V}
    {gen gen' : Generator} (ht : m._size = m._capacity / 2 ∨ m._size = m._capacity / 8)
    (h : _resize m gen = some (m', gen')) : Evolved m m' := by
  unfold _resize at h
  simp only at h
  split at h
  · cases h
    exact Evolved.same m
  · rename_i hge
    split at h
    · cases h
    · rename_i m2 gen2 hr
      cases h
      exact Evolved.resize m m m2 (Evolved.same m) ht (Nat.le_of_not_lt hge)
        (_rehash_loop_rewritten _ _ m2 _ _ _ hr)

theorem _insert_finish_evolved [Inhabited K] [Inhabited V] {m m' : CuckooHashMap K V}
    {gen gen' : Generator} (h : _insert_finish m gen = some (m', gen')) : Evolved m m' := by
  unfold _insert_finish at h
  simp only at h
  have c : Evolved m { m with _size := m._size + 1 } := Evolved.count m m _ (Evolved.same m)
  split at h
  · rename_i hc
    exact c.chain (_resize_evolved (Or.inl hc) h)
  · cases h
    exact c

theorem _insert_evolved [Inhabited K] [Inhabited V] {m m' : CuckooHashMap K V} {p : Item K V}
    {gen gen' : Generator} {it : Iterator} (h : _insert m p gen = some (it, m', gen')) :
    Evolved m m' := by
  unfold _insert at h
  simp only at h
  have f1 := swap_first_rewritten m p
  rcases hs : swap_first m p with ⟨m1, q1⟩
  rw [hs] at f1 h
  simp only at f1 h
  have f2 := _insert_loop_rewritten CYCLE_LIMIT m1 q1
  rcases hl : _insert_loop CYCLE_LIMIT m1 q1 with ⟨m2, q2⟩
  rw [hl] at f2 h
  simp only at f2 h
  cases q2 with
  | none =>
    rcases hfin : _insert_finish m2 gen with _ | ⟨m3, gen3⟩
    · simp [hfin] at h
    simp only [hfin, Option.map_some', Option.some.injEq, Prod.mk.injEq] at h
    obtain ⟨-, hm, -⟩ := h
    subst hm
    exact (f1.join f2).to_evolved.chain (_insert_finish_evolved hfin)
  | some q =>
    rcases hr : _rehash m2 (_items m2) gen with _ | ⟨m3, gen3⟩
    · simp [hr] at h
    · simp only [hr] at h
      rcases hfin : _insert_finish m3 gen3 with _ | ⟨m4, gen4⟩
      · simp [hfin] at h
      simp only [hfin, Option.map_some', Option.some.injEq, Prod.mk.injEq] at h
      obtain ⟨-, hm, -⟩ := h
      subst hm
      have r3 := _rehash_loop_rewritten _ m2 m3 _ gen gen3 hr
      exact ((f1.join f2).join r3).to_evolved.chain (_insert_finish_evolved hfin)

theorem _erase_evolved [Inhabited K] [Inhabited V] {m m' : CuckooHashMap K V} {table : Index}
    {hash : Nat} {gen gen' : Generator} (h : _erase m table hash gen = some (m', gen')) :
    Evolved m m' := by
  unfold _erase at h
  cases table with
  | FIRST =>
    simp only at h
    have c : Evolved m { m with table0 := m.table0.set hash none, _size := m._size - 1 } :=
      Evolved.count m { m with table0 := m.table0.set hash none } _
        (Rewritten.set0 m m hash none (Rewritten.same m)).to_evolved
    split at h
    · rename_i hc
      exact c.chain (_resize_evolved (Or.inr hc) h)
    · cases h
      exact c
  | SECOND =>
    simp only at h
    have c : Evolved m { m with table1 := m.table1.set hash none, _size := m._size - 1 } :=
      Evolved.count m { m with table1 := m.table1.set hash none } _
        (Rewritten.set1 m m hash none (Rewritten.same m)).to_evolved
    split at h
    · rename_i hc
      exact c.chain (_resize_evolved (Or.inr hc) h)
    · cases h
      exact c

theorem _try_update_rewritten [DecidableEq K] (m : CuckooHashMap K V) (key : K) (value : V) :
    Rewritten m (_try_update m key value).2 := by
  unfold _try_update
  simp only
  split
  · exact Rewritten.set0 m m _ _ (Rewritten.same m)
  · split
    · exact Rewritten.set1 m m _ _ (Rewritten.same m)
    · exact Rewritten.same m

theorem erase_if_found_evolved [DecidableEq K] [Inhabited K] [Inhabited V]
    {m m' : CuckooHashMap K V} {key : K} {gen gen' : Generator} {found : Bool}
    (h : m.erase_if_found key gen = some (found, m', gen')) : Evolved m m' := by
  unfold CuckooHashMap.erase_if_found at h
  simp only at h
  split at h
  · rcases he : _erase m Index.FIRST (_hashes m key).1 gen with _ | ⟨m2, gen2⟩
    · simp [he] at h
    simp only [he, Option.map_some', Option.some.injEq, Prod.mk.injEq] at h
    obtain ⟨-, hm, -⟩ := h
    subst hm
    exact _erase_evolved he
  · split at h
    · rcases he : _erase m Index.SECOND (_hashes m key).2 gen with _ | ⟨m2, gen2⟩
      · simp [he] at h
      simp only [he, Option.map_some', Option.some.injEq, Prod.mk.injEq] at h
      obtain ⟨-, hm, -⟩ := h
      subst hm
      exact _erase_evolved he
    · simp only [Option.some.injEq, Prod.mk.injEq] at h
      obtain ⟨-, hm, -⟩ := h
      subst hm
      exact Evolved.same m

theorem Edit.evolved [DecidableEq K] [Inhabited K] [Inhabited V] {m m' : CuckooHashMap K V}
    (h : Edit m m') : Evolved m m' := by
  cases h
  case insert key value gen gen' it h =>
    unfold CuckooHashMap.insert at h
    have r := _try_update_rewritten m key value
    rcases hu : _try_update m key value with ⟨update, m1⟩
    rw [hu] at h r
    simp only at h r
    split at h
    · simp only [Option.some.injEq, Prod.mk.injEq] at h
      obtain ⟨-, hm, -⟩ := h
      subst hm
      exact r.to_evolved
    · exact r.to_evolved.chain (_insert_evolved h)
  case erase_if_found key gen gen' found h => exact erase_if_found_evolved h
  case erase key gen gen' h =>
    unfold CuckooHashMap.erase at h
    rcases he : m.erase_if_found key gen with _ | ⟨found, m2, gen2⟩
    · simp [he] at h
    · cases found with
      | false => simp [he] at h
      | true =>
        simp only [he, Option.some.injEq, Except.ok.injEq, Prod.mk.injEq] at h
        obtain ⟨hm, -⟩ := h
        subst hm
        exact erase_if_found_evolved he
  case subscript key gen gen' v h =>
    unfold CuckooHashMap.subscript at h
    split at h
    · simp only [Option.some.injEq, Prod.mk.injEq] at h
      obtain ⟨-, hm, -⟩ := h
      subst hm
      exact Evolved.same m
    · rcases hi : _insert m ⟨key, default, _hashes m key⟩ gen with _ | ⟨it, m2, gen2⟩
      · simp [hi] at h
      · simp only [hi, Option.some.injEq, Prod.mk.injEq] at h
        obtain ⟨-, hm, -⟩ := h
        subst hm
        exact _insert_evolved hi
  case insert_or_assign key value gen gen' r h =>
    unfold CuckooHashMap.insert_or_assign at h
    rw [_at_assign_eq] at h
    by_cases hc : m.contains key = true
    · rw [if_pos hc] at h
      simp only [Option.some.injEq, Prod.mk.injEq] at h
      obtain ⟨-, hm, -⟩ := h
      subst hm
      exact (_try_update_rewritten m key value).to_evolved
    · rw [if_neg hc] at h
      simp only at h
      rcases hi : _insert m ⟨key, value, _hashes m key⟩ gen with _ | ⟨it, m2, gen2⟩
      · simp [hi] at h
      · simp only [hi, Option.some.injEq, Prod.mk.injEq] at h
        obtain ⟨-, hm, -⟩ := h
        subst hm
        exact _insert_evolved hi

theorem Edits.all_evolved [DecidableEq K] [Inhabited K] [Inhabited V] {m m' : CuckooHashMap K V}
    (h : Edits m m') : Evolved m m' := by
  induction h with
  | done => exact Evolved.same _
  | next m1 m2 _ he ih => exact ih.chain he.evolved

/-! ### What the elementary steps keep -/

theorem regenerate_extra {m m1 : CuckooHashMap K V} {gen gen1 : Generator}
    (h : regenerate m gen = some (m1, gen1)) :
    m1.table1._data._extra = m.table1._data._extra := by
  unfold regenerate at h
  split at h
  · cases h
  · split at h
    · cases h
    · rename_i t1 gen1' h1
      cases h
      have d1 := generate_constants_data _ _ _ _ h1
      show t1._data._extra = _
      rw [d1]
      rfl

theorem Rewritten.keeps_shape {m m' : CuckooHashMap K V} (h : Rewritten m m') :
    SameShape m m' ∧ m'.table1._data._extra = m.table1._data._extra := by
  induction h with
  | same => exact ⟨SameShape.same_shape _, rfl⟩
  | set0 m1 i x _ ih =>
    refine ⟨ih.1.step_shape ?_, ih.2⟩
    constructor <;> simp [Table.set, Table.size, Data.size]
  | set1 m1 j x _ ih =>
    refine ⟨ih.1.step_shape ?_, ih.2⟩
    constructor <;> simp [Table.set, Table.size, Data.size]
  | regenerate m1 m2 gen gen' _ hr ih =>
    exact ⟨ih.1.step_shape (regenerate_spec _ _ _ _ hr).1, (regenerate_extra hr).trans ih.2⟩

theorem Evolved.small_capacity [Inhabited K] [Inhabited V] {m m' : CuckooHashMap K V}
    (h : Evolved m m') (hc : m._capacity < 8) :
    m'._capacity = m._capacity ∧ m'.table0.size = m.table0.size ∧
      m'.table1.size = m.table1.size := by
  induction h with
  | same => exact ⟨rfl, rfl, rfl⟩
  | rewrite m1 m2 _ hr ih =>
    obtain ⟨s, -⟩ := hr.keeps_shape
    exact ⟨s.capacity.trans ih.1, s.size0.trans ih.2.1, s.size1.trans ih.2.2⟩
  | count m1 n _ ih => exact ih
  | resize m1 m2 _ ht hf _ ih =>
    exfalso
    have hcap : m1._capacity < 8 := by rw [ih.1]; exact hc
    simp only [MINIMUM_CAPACITY] at hf
    rcases ht with ht | ht <;> omega

theorem constructed_sizes [Inhabited K] [Inhabited V] {capacity : Nat} {m : CuckooHashMap K V}
    (h : Constructed capacity m) :
    m.table0.size = capacity / 2 ∧ m.table1.size = capacity / 2 + 1 ∧
      m.table1._data._extra = 0 := by
  cases h with
  | create pre_hash capacity gen gen' m hc =>
    unfold CuckooHashMap.create at hc
    rcases ht : (create_tables capacity gen : Option ((Table K V × Table K V) × Generator))
      with _ | ⟨⟨t0, t1⟩, g⟩
    · simp [ht] at hc
    simp only [ht, Option.some.injEq, Prod.mk.injEq] at hc
    obtain ⟨hm, -⟩ := hc
    subst hm
    obtain ⟨d0, d1⟩ := create_tables_spec ht
    simp [Table.size, Table.set_extra, Data.size, d0, d1, Data.create]
  | create_from_list items pre_hash capacity gen gen' m hc =>
    unfold CuckooHashMap.create_from_list at hc
    rcases ht : (create_tables (max items.length capacity) gen :
      Option ((Table K V × Table K V) × Generator)) with _ | ⟨⟨t0, t1⟩, g⟩
    · simp [ht] at hc
    simp only [ht, Option.some.injEq, Prod.mk.injEq] at hc
    obtain ⟨hm, -⟩ := hc
    subst hm
    obtain ⟨d0, d1⟩ := create_tables_spec ht
    simp [Table.size, Data.size, d0, d1, Data.create]

/-- C39: for a map that a constructor leaves with capacity `c < 8`, every
sequence of returned calls of `insert`, `operator[]`, `insert_or_assign`,
`erase` and `erase_if_found` leaves `capacity() == c`, `table0` with `c / 2`
real slots and `table1` with `c / 2 + 1` real slots, as they were after the
constructor. -/
theorem small_capacity_never_grows [DecidableEq K] [Inhabited K] [Inhabited V] (c : Nat)
    (m0 m : CuckooHashMap K V) (hc : c < 8) (h0 : Constructed c m0) (hs : Edits m0 m) :
    m.capacity = c ∧ m.table0.size = m0.table0.size ∧ m.table1.size = m0.table1.size ∧
    m.table0.size = c / 2 ∧ m.table1.size = c / 2 + 1 := by
  obtain ⟨-, hcap⟩ := constructed_counters h0
  obtain ⟨s0, s1, -⟩ := constructed_sizes h0
  obtain ⟨a, b, d⟩ := hs.all_evolved.small_capacity (by rw [hcap]; exact hc)
  exact ⟨a.trans hcap, b, d, b.trans s0, d.trans s1⟩

/-- Witness for C39: a map constructed with capacity 4; the second insert
reaches `size() == capacity() / 2` and the call of `_resize` stops at the
floor. -/
theorem small_capacity_never_grows_witness :
    small_two.2.1.size = small_two.2.1.capacity / 2 ∧
    small_two.2.1.capacity = 4 ∧ small_two.2.1.table0.size = small_fresh.1.table0.size ∧
    small_two.2.1.table1.size = small_fresh.1.table1.size ∧
    small_two.2.1.table0.size = 4 / 2 ∧ small_two.2.1.table1.size = 4 / 2 + 1 :=
  ⟨by decide,
    small_capacity_never_grows 4 small_fresh.1 small_two.2.1 (by decide)
      (Constructed.create identity_pre_hash 4 draws small_fresh.2 small_fresh.1 (by rfl))
      (Edits.next _ small_one.2.1 _
        (Edits.next _ small_fresh.1 _ (Edits.done _)
          (Edit.insert small_fresh.1 small_one.2.1 1 10 [] small_one.2.2 small_one.1 (by rfl)))
        (Edit.insert small_one.2.1 small_two.2.1 2 20 [] small_two.2.2 small_two.1 (by rfl)))⟩

/-- C38: in the state the capacity constructor leaves, the slot array of
`table1` has as many allocated words as `table1.size()` (it is built by
`Table(table_size)`, with no extra word), so the index `table1.size()` at
which the constructor stores the sentinel is not below the allocated length.
After `clear()`, and after a `_resize` that passes the floor, one extra word
is allocated and the index is below the allocated length. -/
theorem constructor_sentinel_out_of_bounds [Inhabited K] [Inhabited V] (pre_hash : K → Nat)
    (capacity : Nat) (gen gen' : Generator) (m : CuckooHashMap K V)
    (h : CuckooHashMap.create pre_hash capacity gen = some (m, gen')) :
    m.table1._data.past = some ⟨default, default, (0, 0)⟩ ∧
    m.table1._data.allocated = m.table1.size ∧
    ¬ m.table1.size < m.table1._data.allocated ∧
    (∀ m1 : CuckooHashMap K V, m1.clear.table1.size < m1.clear.table1._data.allocated) ∧
    ∀ (m1 m2 : CuckooHashMap K V) (g g' : Generator), MINIMUM_CAPACITY ≤ m1._size * 4 →
      _resize m1 g = some (m2, g') → m2.table1.size < m2.table1._data.allocated := by
  obtain ⟨-, -, he⟩ := constructed_sizes (Constructed.create pre_hash capacity gen gen' m h)
  have hp : m.table1._data.past = some ⟨default, default, (0, 0)⟩ := by
    unfold CuckooHashMap.create at h
    split at h
    · cases h
    · simp only [Option.some.injEq, Prod.mk.injEq] at h
      obtain ⟨hm, -⟩ := h
      subst hm
      rfl
  refine ⟨hp, ?_, ?_, ?_, ?_⟩
  · simp [Data.allocated, Table.size, he]
  · simp [Data.allocated, Table.size, he]
  · intro m1
    simp [Data.allocated, Table.size, CuckooHashMap.clear, Table.reset, Table.set_extra,
      Data.create, Data.size]
  · intro m1 m2 g g' hf hr
    unfold _resize at hr
    simp only at hr
    rw [if_neg (Nat.not_lt.2 hf)] at hr
    split at hr
    · cases hr
    · rename_i m3 g3 hre
      cases hr
      obtain ⟨-, hx⟩ := (_rehash_loop_rewritten _ _ m3 _ _ _ hre).keeps_shape
      have : m3.table1._data._extra = 1 := hx
      simp [Data.allocated, Table.size, Table.set_extra, this]

/-- Witness for C38: the fresh map of capacity 16, where `table1` has 9
allocated words and the sentinel is stored at index 9. -/
theorem constructor_sentinel_out_of_bounds_witness :
    fresh_identity.1.table1.size = 9 ∧ fresh_identity.1.table1._data.allocated = 9 ∧
    fresh_identity.1.table1._data.past = some ⟨0, 0, (0, 0)⟩ ∧
    ¬ fresh_identity.1.table1.size < fresh_identity.1.table1._data.allocated :=
  ⟨by decide, by decide, by decide,
    (constructor_sentinel_out_of_bounds identity_pre_hash 16 draws fresh_identity.2 fresh_identity.1
      (by rfl)).2.2.1⟩

/-! ### The primality test -/

theorem _is_prime_loop_spec (fuel value boundary : Nat) :
    ∀ p, boundary < p + 6 * fuel →
      (_is_prime_loop fuel value boundary p = true ↔
        ∀ k, p + 6 * k ≤ boundary → ¬ value % (p + 6 * k) = 0 ∧ ¬ value % (p + 6 * k + 2) = 0) := by
  induction fuel with
  | zero =>
    intro p hb
    simp only [_is_prime_loop, true_iff]
    intro k hk
    omega
  | succ n ih =>
    intro p hb
    unfold _is_prime_loop
    by_cases hp : p ≤ boundary
    · rw [if_pos hp]
      by_cases hd : value % p = 0 ∨ value % (p + 2) = 0
      · rw [if_pos hd]
        simp only [Bool.false_eq_true, false_iff]
        intro hall
        have := hall 0 (by simpa using hp)
        simp only [Nat.mul_zero, Nat.add_zero] at this
        rcases hd with hd | hd
        · exact this.1 hd
        · exact this.2 hd
      · rw [if_neg hd, ih (p + 6) (by omega)]
        constructor
        · intro hall k hk
          cases k with
          | zero =>
            simp only [Nat.mul_zero, Nat.add_zero]
            exact ⟨fun h => hd (Or.inl h), fun h => hd (Or.inr h)⟩
          | succ k =>
            have := hall k (by omega)
            have e : p + 6 + 6 * k = p + 6 * (k + 1) := by omega
            rw [e] at this
            exact this
        · intro hall k hk
          have := hall (k + 1) (by omega)
          have e : p + 6 * (k + 1) = p + 6 + 6 * k := by omega
          rw [e] at this
          exact this
    · rw [if_neg hp]
      simp only [true_iff]
      intro k hk
      omega

theorem _is_prime_iff (n : Nat) : _is_prime n = true ↔ Nat.Prime n := by
  unfold _is_prime
  by_cases h1 : n ≤ 1
  · rw [if_pos h1]
    simp only [Bool.false_eq_true, false_iff]
    intro hp
    have := hp.two_le
    omega
  rw [if_neg h1]
  by_cases h3 : n ≤ 3
  · rw [if_pos h3]
    simp only [true_iff]
    have : n = 2 ∨ n = 3 := by omega
    rcases this with h | h
    · rw [h]; exact Nat.prime_two
    · rw [h]; exact Nat.prime_three
  rw [if_neg h3]
  by_cases h23 : n % 2 = 0 ∨ n % 3 = 0
  · rw [if_pos h23]
    simp only [Bool.false_eq_true, false_iff]
    intro hp
    rcases h23 with h | h
    · have := (Nat.prime_dvd_prime_iff_eq Nat.prime_two hp).1 (Nat.dvd_of_mod_eq_zero h)
      omega
    · have := (Nat.prime_dvd_prime_iff_eq Nat.prime_three hp).1 (Nat.dvd_of_mod_eq_zero h)
      omega
  rw [if_neg h23, sqrt_from_zero,
    _is_prime_loop_spec n n (Nat.sqrt n) 5 (by have := Nat.sqrt_le_self n; omega)]
  constructor
  · intro hall
    by_contra hnp
    have hq : (Nat.minFac n).Prime := Nat.minFac_prime (by omega)
    have hdvd : Nat.minFac n ∣ n := Nat.minFac_dvd n
    have hsq : Nat.minFac n ≤ Nat.sqrt n := by
      rw [Nat.le_sqrt']
      exact Nat.minFac_sq_le_self (by omega) hnp
    have hmod : n % Nat.minFac n = 0 := Nat.mod_eq_zero_of_dvd hdvd
    generalize Nat.minFac n = q at hq hdvd hsq hmod
    have hq2 : q % 2 ≠ 0 := by
      intro h
      have := (Nat.prime_dvd_prime_iff_eq Nat.prime_two hq).1 (Nat.dvd_of_mod_eq_zero h)
      subst this
      exact h23 (Or.inl hmod)
    have hq3 : q % 3 ≠ 0 := by
      intro h
      have := (Nat.prime_dvd_prime_iff_eq Nat.prime_three hq).1 (Nat.dvd_of_mod_eq_zero h)
      subst this
      exact h23 (Or.inr hmod)
    have hq5 : 2 ≤ q := hq.two_le
    have h6 : q % 6 = 1 ∨ q % 6 = 5 := by omega
    rcases h6 with h6 | h6
    · have hq7 : 7 ≤ q := by omega
      have e : 5 + 6 * ((q - 7) / 6) + 2 = q := by omega
      have := (hall ((q - 7) / 6) (by omega)).2
      rw [e] at this
      exact this hmod
    · have e : 5 + 6 * ((q - 5) / 6) = q := by omega
      have := (hall ((q - 5) / 6) (by omega)).1
      rw [e] at this
      exact this hmod
  · intro hp k hk
    have hle : (5 + 6 * k) * (5 + 6 * k) ≤ n := Nat.le_sqrt.1 hk
    constructor
    · intro h
      have hd := (Nat.dvd_prime hp).1 (Nat.dvd_of_mod_eq_zero h)
      rcases hd with hd | hd
      · omega
      · rw [hd] at hle
        have : n * 2 ≤ n * n := Nat.mul_le_mul_left n (by omega)
        omega
    · intro h
      have hd := (Nat.dvd_prime hp).1 (Nat.dvd_of_mod_eq_zero h)
      rcases hd with hd | hd
      · omega
      · have h5 : 5 * (5 + 6 * k) ≤ (5 + 6 * k) * (5 + 6 * k) :=
          Nat.mul_le_mul_right _ (by omega)
        omega

theorem draw_prime_is_prime {gen rest : Generator} {p : Nat}
    (h : draw_prime gen = some (p, rest)) : _is_prime p = true := by
  induction gen with
  | nil => simp [draw_prime] at h
  | cons d gen ih =>
    unfold draw_prime at h
    split at h
    · rename_i hd
      simp only [Option.some.injEq, Prod.mk.injEq] at h
      rw [← h.1]
      exact hd
    · exact ih h

theorem generate_constants_prime {t t' : Table K V} {gen gen' : Generator}
    (h : t.generate_constants gen = some (t', gen')) : Nat.Prime t'._constants.PRIME := by
  unfold Table.generate_constants at h
  split at h
  · split at h
    · rename_i p rest hd
      simp only [Option.some.injEq, Prod.mk.injEq] at h
      rw [← h.1]
      exact (_is_prime_iff p).1 (draw_prime_is_prime hd)
    · cases h
  · cases h

theorem regenerate_prime {m m1 : CuckooHashMap K V} {gen gen1 : Generator}
    (h : regenerate m gen = some (m1, gen1)) : PrimeConstants m1 := by
  unfold regenerate at h
  split at h
  · cases h
  · rename_i t0 gen0 h0
    split at h
    · cases h
    · rename_i t1 gen1' h1
      cases h
      exact ⟨generate_constants_prime h0, generate_constants_prime h1⟩

theorem Rewritten.primes_of_rewritten {m m' : CuckooHashMap K V} (h : Rewritten m m')
    (hp : PrimeConstants m) : PrimeConstants m' := by
  induction h with
  | same => exact hp
  | set0 m1 i x _ ih => exact ih
  | set1 m1 j x _ ih => exact ih
  | regenerate m1 m2 gen gen' _ hr _ => exact regenerate_prime hr

theorem Evolved.primes_of_evolved [Inhabited K] [Inhabited V] {m m' : CuckooHashMap K V}
    (h : Evolved m m') (hp : PrimeConstants m) : PrimeConstants m' := by
  induction h with
  | same => exact hp
  | rewrite m1 m2 _ hr ih => exact hr.primes_of_rewritten ih
  | count m1 n _ ih => exact ih
  | resize m1 m2 _ _ _ hr ih =>
    have h1 : PrimeConstants (reset_tables m1) := ih
    exact hr.primes_of_rewritten h1

theorem create_tables_prime {capacity : Nat} {gen gen1 : Generator} {t0 t1 : Table K V}
    (h : create_tables capacity gen = some ((t0, t1), gen1)) :
    Nat.Prime t0._constants.PRIME ∧ Nat.Prime t1._constants.PRIME := by
  unfold create_tables at h
  rcases h0 : (Table.create (capacity / 2) gen : Option (Table K V × Generator)) with _ | ⟨a, g0⟩
  · simp [h0] at h
  simp only [h0] at h
  rcases h1 : (Table.create (capacity / 2 + 1) g0 : Option (Table K V × Generator)) with _ | ⟨b, g1⟩
  · simp [h1] at h
  simp only [h1, Option.some.injEq, Prod.mk.injEq] at h
  obtain ⟨⟨ha, hb⟩, -⟩ := h
  subst ha hb
  exact ⟨generate_constants_prime h0, generate_constants_prime h1⟩

theorem constructed_primes [Inhabited K] [Inhabited V] {capacity : Nat} {m : CuckooHashMap K V}
    (h : Constructed capacity m) : PrimeConstants m := by
  cases h with
  | create pre_hash capacity gen gen' m hc =>
    unfold CuckooHashMap.create at hc
    rcases ht : (create_tables capacity gen : Option ((Table K V × Table K V) × Generator))
      with _ | ⟨⟨t0, t1⟩, g⟩
    · simp [ht] at hc
    simp only [ht, Option.some.injEq, Prod.mk.injEq] at hc
    obtain ⟨hm, -⟩ := hc
    subst hm
    obtain ⟨a, b⟩ := create_tables_prime ht
    exact ⟨a, b⟩
  | create_from_list items pre_hash capacity gen gen' m hc =>
    unfold CuckooHashMap.create_from_list at hc
    rcases ht : (create_tables (max items.length capacity) gen :
      Option ((Table K V × Table K V) × Generator)) with _ | ⟨⟨t0, t1⟩, g⟩
    · simp [ht] at hc
    simp only [ht, Option.some.injEq, Prod.mk.injEq] at hc
    obtain ⟨hm, -⟩ := hc
    subst hm
    exact create_tables_prime ht

theorem Reachable.primes [DecidableEq K] [Inhabited K] [Inhabited V] {m : CuckooHashMap K V}
    (h : Reachable m) : PrimeConstants m := by
  induction h with
  | create pre_hash capacity gen gen' m _ hc =>
    exact constructed_primes (Constructed.create pre_hash capacity gen gen' m hc)
  | create_from_list items pre_hash capacity gen gen' m _ hc =>
    exact constructed_primes (Constructed.create_from_list items pre_hash capacity gen gen' m hc)
  | insert m m' key value gen gen' it _ h ih =>
    exact (Edit.insert m m' key value gen gen' it h).evolved.primes_of_evolved ih
  | erase_if_found m m' key gen gen' found _ h ih =>
    exact (Edit.erase_if_found m m' key gen gen' found h).evolved.primes_of_evolved ih
  | erase m m' key gen gen' _ h ih =>
    exact (Edit.erase m m' key gen gen' h).evolved.primes_of_evolved ih
  | subscript m m' key gen gen' v _ h ih =>
    exact (Edit.subscript m m' key gen gen' v h).evolved.primes_of_evolved ih
  | insert_or_assign m m' key value gen gen' r _ h ih =>
    exact (Edit.insert_or_assign m m' key value gen gen' r h).evolved.primes_of_evolved ih
  | clear m _ ih => exact ih

/-- C32: `Table::_is_prime(n)` is true exactly when `n` is a prime number,
with the loop boundary the integer square root of `n`.  The constant `PRIME`
that `generate_constants` leaves is a prime, hence not zero; and in every
reachable state the constant `PRIME` of either table is a prime and both
divisors of `Table::hash`, the prime and the table size, are non-zero for
either table. -/
theorem primality_test_exact [DecidableEq K] [Inhabited K] [Inhabited V] (n : Nat)
    (t t' : Table K V) (gen gen' : Generator) :
    (_is_prime n = true ↔ Nat.Prime n) ∧
    (t.generate_constants gen = some (t', gen') →
      Nat.Prime t'._constants.PRIME ∧ t'._constants.PRIME ≠ 0) ∧
    ∀ m : CuckooHashMap K V, Reachable m →
      Nat.Prime m.table0._constants.PRIME ∧ Nat.Prime m.table1._constants.PRIME ∧
      m.table0._constants.PRIME ≠ 0 ∧ m.table1._constants.PRIME ≠ 0 ∧
      m.table0._data.size ≠ 0 ∧ m.table1._data.size ≠ 0 := by
  refine ⟨_is_prime_iff n, fun h => ?_, fun m hm => ?_⟩
  · have hp := generate_constants_prime h
    exact ⟨hp, hp.ne_zero⟩
  · obtain ⟨p0, p1⟩ := hm.primes
    have hinv := hm.inv
    exact ⟨p0, p1, p0.ne_zero, p1.ne_zero, Nat.pos_iff_ne_zero.1 hinv.pos0,
      Nat.pos_iff_ne_zero.1 hinv.pos1⟩

/-- Witness for C32: the draw 67, and the map that holds 22, 31 and 98, whose
tables both have the prime 67. -/
theorem primality_test_exact_witness :
    _is_prime 67 = true ∧ Nat.Prime 67 ∧ _is_prime 65 = false ∧
    three_keys_map.table0._constants.PRIME = 67 ∧
    Nat.Prime three_keys_map.table0._constants.PRIME :=
  ⟨by decide,
    (primality_test_exact 67 three_keys_map.table0 three_keys_map.table0 [] []).1.1 (by decide),
    by decide, by decide,
    ((primality_test_exact 67 three_keys_map.table0 three_keys_map.table0 [] []).2.2
      three_keys_map three_keys_reachable).1⟩

/-! ## Iterators and the layout of the two slot arrays -/

theorem slot_at_position_first (m : CuckooHashMap K V) (r : Nat) (h : r < m.table0.size) :
    slot_at m (position m r) = m.table0.get r := by
  simp [slot_at, position, h]

theorem slot_at_position_second (m : CuckooHashMap K V) (r : Nat) (h : m.table0.size ≤ r)
    (h' : r < m.table0.size + m.table1.size) :
    slot_at m (position m r) = m.table1.get (r - m.table0.size) := by
  have h0 : ¬ r < m.table0.size := by omega
  have hne : ((r - m.table0.size : Nat) : Int) ≠ (m.table1.size : Int) := by omega
  simp [slot_at, position, h0, hne]

theorem live_nil_iff_slots (m : CuckooHashMap K V) :
    live m = [] ↔ ∀ r, r < m.table0.size + m.table1.size → slot_at m (position m r) = none := by
  constructor
  · intro h r hr
    obtain ⟨e0, e1⟩ := get_none_of_live_nil h
    rcases Nat.lt_or_ge r m.table0.size with h0 | h0
    · rw [slot_at_position_first m r h0]; exact e0 r
    · rw [slot_at_position_second m r h0 hr]; exact e1 _
  · intro h
    rw [List.eq_nil_iff_forall_not_mem]
    intro item hi
    rcases mem_live_iff.1 hi with ⟨i, hi⟩ | ⟨j, hj⟩
    · have hlt : i < m.table0.size := get0_lt hi
      have := h i (by omega)
      rw [slot_at_position_first m i hlt, hi] at this
      cases this
    · have hlt : j < m.table1.size := get1_lt hj
      have := h (m.table0.size + j) (by omega)
      rw [slot_at_position_second m _ (by omega) (by omega)] at this
      simp only [Nat.add_sub_cancel_left] at this
      rw [hj] at this
      cases this

theorem position_eq_end_iff (m : CuckooHashMap K V) (q : Nat)
    (h : q ≤ m.table0.size + m.table1.size) :
    position m q = m.end_ ↔ q = m.table0.size + m.table1.size := by
  constructor
  · intro he
    unfold position CuckooHashMap.end_ at he
    by_cases h0 : q < m.table0.size
    · simp [h0] at he
    · simp only [h0, if_false, Iterator.mk.injEq, true_and] at he
      omega
  · intro he
    rw [he, position_end]

theorem position_injective (m : CuckooHashMap K V) (a b : Nat)
    (h : position m a = position m b) : a = b := by
  unfold position at h
  by_cases ha : a < m.table0.size <;> by_cases hb : b < m.table0.size <;>
    simp [ha, hb] at h <;> omega

theorem increment_loop_reach (layout : Layout) (m : CuckooHashMap K V) (fuel : Nat) :
    ∀ p, p < m.table0.size + m.table1.size → m.table0.size + m.table1.size - p ≤ fuel →
      (layout = Layout.first_below ∨ m.table0.size ≤ p + 1) →
      ∃ q, increment_loop fuel layout m (position m p) = some (position m q) ∧ p < q ∧
        q ≤ m.table0.size + m.table1.size ∧
        (q < m.table0.size + m.table1.size → slot_at m (position m q) ≠ none) ∧
        ∀ r, p < r → r < q → slot_at m (position m r) = none := by
  induction fuel with
  | zero =>
    intro p hp hf
    omega
  | succ n ih =>
    intro p hp hf hl
    unfold increment_loop
    simp only [step_forward_position]
    rcases Nat.lt_or_ge (p + 1) (m.table0.size + m.table1.size) with hlt | hge
    · by_cases hnone : slot_at m (position m (p + 1)) = none
      · obtain ⟨q, hq, hpq, hqn, hsq, hall⟩ :=
          ih (p + 1) hlt (by omega) (hl.imp id (fun h => by omega))
        refine ⟨q, ?_, by omega, hqn, hsq, ?_⟩
        · simp [hnone, before_second_end_position layout m (p + 1) hlt hl, hq]
        · intro r hr hrq
          rcases Nat.eq_or_lt_of_le (Nat.succ_le_of_lt hr) with h | h
          · rw [← h]; exact hnone
          · exact hall r h hrq
      · refine ⟨p + 1, ?_, by omega, by omega, fun _ => hnone, ?_⟩
        · have : (slot_at m (position m (p + 1))).isNone = false := by
            cases hx : slot_at m (position m (p + 1)) with
            | none => exact absurd hx hnone
            | some _ => rfl
          simp [this]
        · intro r hr hrq
          omega
    · have he : p + 1 = m.table0.size + m.table1.size := by omega
      refine ⟨p + 1, ?_, by omega, by omega, fun h => by omega, fun r hr hrq => by omega⟩
      have hb : before_second_end layout m (position m (p + 1)) = false := by
        rw [he, position_end]
        simp [before_second_end, CuckooHashMap.end_]
      simp [hb]

theorem begin_unfold (layout : Layout) (m : CuckooHashMap K V) :
    m.begin_ layout =
      if (slot_at m (position m 0)).isNone && before_second_end layout m (position m 0)
      then increment_loop (m.table0.size + m.table1.size + 1) layout m (position m 0)
      else some (position m 0) := by
  have hstep : step_forward m ⟨Index.FIRST, -1⟩ = position m 0 := by
    unfold step_forward position
    by_cases h0 : 0 < m.table0.size
    · have hne : (0 : Int) ≠ (m.table0.size : Int) := by omega
      simp [h0, hne]
    · have he : m.table0.size = 0 := by omega
      simp [he]
  show increment_loop (m.table0.size + m.table1.size + 1 + 1) layout m ⟨Index.FIRST, -1⟩ = _
  rw [increment_loop]
  simp only [hstep]

theorem begin_spec (m : CuckooHashMap K V) :
    ∃ q, m.begin_ Layout.first_below = some (position m q) ∧
      q ≤ m.table0.size + m.table1.size ∧
      (q < m.table0.size + m.table1.size → slot_at m (position m q) ≠ none) ∧
      ∀ r, r < q → slot_at m (position m r) = none := by
  have hunfold := begin_unfold Layout.first_below m
  rcases Nat.eq_zero_or_pos (m.table0.size + m.table1.size) with hz | hpos
  · refine ⟨0, ?_, by omega, fun h => by omega, fun r hr => by omega⟩
    have hb : before_second_end Layout.first_below m (position m 0) = false := by
      have := position_end m
      rw [hz] at this
      rw [this]
      simp [before_second_end, CuckooHashMap.end_]
    rw [hunfold]
    simp [hb]
  · by_cases hnone : slot_at m (position m 0) = none
    · obtain ⟨q, hq, hpq, hqn, hsq, hall⟩ :=
        increment_loop_reach Layout.first_below m (m.table0.size + m.table1.size + 1) 0 hpos
          (by omega) (Or.inl rfl)
      refine ⟨q, ?_, hqn, hsq, ?_⟩
      · rw [hunfold]
        simp [hnone, before_second_end_position Layout.first_below m 0 hpos (Or.inl rfl), hq]
      · intro r hr
        rcases Nat.eq_zero_or_pos r with h | h
        · rw [h]; exact hnone
        · exact hall r h hr
    · refine ⟨0, ?_, by omega, fun _ => hnone, fun r hr => by omega⟩
      have : (slot_at m (position m 0)).isNone = false := by
        cases hx : slot_at m (position m 0) with
        | none => exact absurd hx hnone
        | some _ => rfl
      rw [hunfold]
      simp [this]

theorem begin_eq_end_iff (m : CuckooHashMap K V) :
    m.begin_ Layout.first_below = some m.end_ ↔ live m = [] := by
  obtain ⟨q, hq, hqn, hsq, hall⟩ := begin_spec m
  rw [hq, live_nil_iff_slots]
  constructor
  · intro he
    have he' : position m q = m.end_ := by simpa using he
    have hN := (position_eq_end_iff m q hqn).1 he'
    intro r hr
    exact hall r (by omega)
  · intro h
    have hN : q = m.table0.size + m.table1.size := by
      rcases Nat.eq_or_lt_of_le hqn with h' | h'
      · exact h'
      · exact absurd (h q h') (hsq h')
    rw [hN, position_end]

theorem begin_second_below (m : CuckooHashMap K V) (h0 : 0 < m.table0.size) :
    m.begin_ Layout.second_below = some ⟨Index.FIRST, 0⟩ ∧
    (⟨Index.FIRST, 0⟩ : Iterator) ≠ m.end_ := by
  have hp : position m 0 = ⟨Index.FIRST, 0⟩ := by simp [position, h0]
  refine ⟨?_, by simp [CuckooHashMap.end_]⟩
  rw [begin_unfold, hp]
  simp [before_second_end]

theorem step_backward_position (m : CuckooHashMap K V) (r : Nat) :
    step_backward m (position m (r + 1)) = position m r := by
  unfold step_backward position
  by_cases h : r + 1 < m.table0.size
  · have h' : r < m.table0.size := by omega
    simp [h, h']
  · by_cases he : r + 1 = m.table0.size
    · have h' : r < m.table0.size := by omega
      have e1 : r + 1 - m.table0.size = 0 := by omega
      have e2 : (m.table0.size : Int) - 1 = (r : Int) := by omega
      simp [h, h', e1, e2]
    · have h' : ¬ r < m.table0.size := by omega
      have e1 : r + 1 - m.table0.size = (r - m.table0.size) + 1 := by omega
      have hne : ¬ (((r - m.table0.size : Nat) : Int) + 1 = 0) := by omega
      simp [h, h', e1, hne]

theorem from_first_begin_position (m : CuckooHashMap K V) (r : Nat) :
    from_first_begin Layout.first_below (position m r) = true := by
  unfold from_first_begin position
  by_cases h : r < m.table0.size <;> simp [h]

theorem decrement_loop_spec (m : CuckooHashMap K V) (p : Nat)
    (hp : slot_at m (position m p) ≠ none) (fuel : Nat) :
    ∀ q, p < q → q - p ≤ fuel → (∀ r, p < r → r < q → slot_at m (position m r) = none) →
      decrement_loop fuel Layout.first_below m (position m q) = some (position m p) := by
  induction fuel with
  | zero =>
    intro q hpq hf
    omega
  | succ n ih =>
    intro q hpq hf hall
    obtain ⟨q', rfl⟩ : ∃ q', q = q' + 1 := ⟨q - 1, by omega⟩
    unfold decrement_loop
    simp only [step_backward_position]
    rcases Nat.eq_or_lt_of_le (Nat.le_of_lt_succ hpq) with he | hlt
    · subst he
      have : (slot_at m (position m p)).isNone = false := by
        cases hx : slot_at m (position m p) with
        | none => exact absurd hx hp
        | some _ => rfl
      simp [this]
    · have hnone := hall q' hlt (by omega)
      simp only [hnone, Option.isNone_none, from_first_begin_position, Bool.and_self, if_true]
      exact ih q' hlt (by omega) (fun r hr hrq => hall r hr (by omega))

theorem decrement_second_below (m : CuckooHashMap K V) (r : Nat) (hr : m.table0.size ≤ r) :
    decrement Layout.second_below m (position m (r + 1)) = some (position m r) := by
  have hp : position m r = ⟨Index.SECOND, ((r - m.table0.size : Nat) : Int)⟩ := by
    have : ¬ r < m.table0.size := by omega
    simp [position, this]
  show decrement_loop (m.table0.size + m.table1.size + 1 + 1) Layout.second_below m
    (position m (r + 1)) = _
  rw [decrement_loop]
  simp only [step_backward_position]
  rw [hp]
  simp [from_first_begin]

theorem cleared_fresh_reachable : Reachable cleared_fresh :=
  Reachable.clear _ (reachable_create identity_pre_hash 16 draws (by decide) fresh_identity (by rfl))

theorem cleared_pair_reachable : Reachable cleared_pair_map :=
  reachable_insert_all [(22, 1), (89, 2)] cleared_fresh cleared_pair_map []
    (cleared_pair.get (by decide)).2 cleared_fresh_reachable (by rfl)

/-- C33 (the code breaks it): with the array of `table0` below that of
`table1`, `begin()` equals `end()` exactly when no real slot holds an item,
and otherwise it is the position of the first real slot that holds an item.
With the array of `table0` above that of `table1`, the test
`_item < table1.end()` fails at slot 0 of `table0`, so `begin()` is that slot
whatever it holds, and it is not `end()`, also when the map is empty. -/
theorem begin_depends_on_layout (m : CuckooHashMap K V) (h0 : 0 < m.table0.size) :
    (m.begin_ Layout.first_below = some m.end_ ↔ live m = []) ∧
    (∃ q, m.begin_ Layout.first_below = some (position m q) ∧
      q ≤ m.table0.size + m.table1.size ∧
      (∀ r, r < q → slot_at m (position m r) = none) ∧
      (live m ≠ [] → q < m.table0.size + m.table1.size ∧ slot_at m (position m q) ≠ none)) ∧
    m.begin_ Layout.second_below = some ⟨Index.FIRST, 0⟩ ∧
    (⟨Index.FIRST, 0⟩ : Iterator) ≠ m.end_ ∧
    m.begin_ Layout.second_below ≠ some m.end_ := by
  obtain ⟨hb, hne⟩ := begin_second_below m h0
  refine ⟨begin_eq_end_iff m, ?_, hb, hne, ?_⟩
  · obtain ⟨q, hq, hqn, hsq, hall⟩ := begin_spec m
    refine ⟨q, hq, hqn, hall, fun hl => ?_⟩
    have hlt : q < m.table0.size + m.table1.size := by
      rcases Nat.eq_or_lt_of_le hqn with h | h
      · exfalso
        apply hl
        rw [live_nil_iff_slots]
        intro r hr
        exact hall r (by omega)
      · exact h
    exact ⟨hlt, hsq hlt⟩
  · rw [hb]
    intro h
    exact hne (Option.some.inj h)

/-- Witness for C33: a fresh map after `clear()` holds no item, and with the
array of `table1` below that of `table0` its `begin()` is slot 0 of `table0`,
not `end()`; after the inserts of 22 and 89 the first occupied slot is slot 1
of `table0`, and `begin()` is still the null slot 0. -/
theorem begin_depends_on_layout_witness :
    Reachable cleared_fresh ∧ live cleared_fresh = [] ∧
    cleared_fresh.begin_ Layout.second_below = some ⟨Index.FIRST, 0⟩ ∧
    cleared_fresh.begin_ Layout.second_below ≠ some cleared_fresh.end_ ∧
    Reachable cleared_pair_map ∧
    cleared_pair_map.begin_ Layout.second_below = some ⟨Index.FIRST, 0⟩ ∧
    slot_at cleared_pair_map ⟨Index.FIRST, 0⟩ = none ∧
    cleared_pair_map.begin_ Layout.first_below = some ⟨Index.FIRST, 1⟩ :=
  ⟨cleared_fresh_reachable, by decide,
    (begin_depends_on_layout cleared_fresh (by decide)).2.2.1,
    (begin_depends_on_layout cleared_fresh (by decide)).2.2.2.2,
    cleared_pair_reachable, by decide, by decide, by decide⟩

/-- C34 (the code breaks it): number the iterator positions in traversal
order and let position `p` be a real slot that holds an item.  With the
array of `table0` below that of `table1`, `operator++` leaves the iterator
at the next occupied position `q` (or `end()`) and `operator--` applied
there leaves it at `p`.  With the array of `table0` above that of `table1`
and `p` the last slot of `table0` or a slot of `table1`, `operator++` leaves
the iterator at such a `q` as well, but the test `_item >= table0.begin()`
fails for every slot of `table1`, so `operator--` stops after one step: when
`q` is not the position right after `p`, the iterator is left at the null
slot before `q`, not at `p`. -/
theorem round_trip_depends_on_layout (m : CuckooHashMap K V) (p : Nat)
    (hp : p < m.table0.size + m.table1.size) (ho : slot_at m (position m p) ≠ none) :
    (∃ q, increment Layout.first_below m (position m p) = some (position m q) ∧ p < q ∧
      q ≤ m.table0.size + m.table1.size ∧
      (q < m.table0.size + m.table1.size → slot_at m (position m q) ≠ none) ∧
      (∀ r, p < r → r < q → slot_at m (position m r) = none) ∧
      decrement Layout.first_below m (position m q) = some (position m p)) ∧
    (m.table0.size ≤ p + 1 →
      ∃ q, increment Layout.second_below m (position m p) = some (position m q) ∧ p < q ∧
        q ≤ m.table0.size + m.table1.size ∧
        (q < m.table0.size + m.table1.size → slot_at m (position m q) ≠ none) ∧
        (∀ r, p < r → r < q → slot_at m (position m r) = none) ∧
        (p + 1 < q →
          decrement Layout.second_below m (position m q) = some (position m (q - 1)) ∧
          slot_at m (position m (q - 1)) = none ∧
          decrement Layout.second_below m (position m q) ≠ some (position m p))) := by
  constructor
  · obtain ⟨q, hq, hpq, hqn, hsq, hall⟩ :=
      increment_loop_reach Layout.first_below m (m.table0.size + m.table1.size + 2) p hp
        (by omega) (Or.inl rfl)
    exact ⟨q, hq, hpq, hqn, hsq, hall,
      decrement_loop_spec m p ho (m.table0.size + m.table1.size + 2) q hpq (by omega) hall⟩
  · intro h0
    obtain ⟨q, hq, hpq, hqn, hsq, hall⟩ :=
      increment_loop_reach Layout.second_below m (m.table0.size + m.table1.size + 2) p hp
        (by omega) (Or.inr h0)
    refine ⟨q, hq, hpq, hqn, hsq, hall, fun hlt => ?_⟩
    obtain ⟨r, rfl⟩ : ∃ r, q = r + 1 := ⟨q - 1, by omega⟩
    have hd := decrement_second_below m r (by omega)
    simp only [Nat.add_sub_cancel]
    refine ⟨hd, hall r (by omega) (by omega), ?_⟩
    rw [hd]
    intro h
    have := position_injective m r p (Option.some.inj h)
    omega

/-- Witness for C34: in the map that holds 89 in slot 1 of `table0` and 22
in slot 1 of `table1` (position 9), with the array of `table1` below that of
`table0`, `++` from position 9 gives `end()` and `--` from `end()` gives the
null slot 7 of `table1`. -/
theorem round_trip_depends_on_layout_witness :
    Reachable cleared_pair_map ∧
    slot_at cleared_pair_map (position cleared_pair_map 9) = some ⟨22, 1, (1, 1)⟩ ∧
    increment Layout.second_below cleared_pair_map (position cleared_pair_map 9) =
      some cleared_pair_map.end_ ∧
    decrement Layout.second_below cleared_pair_map cleared_pair_map.end_ =
      some ⟨Index.SECOND, 7⟩ ∧
    slot_at cleared_pair_map ⟨Index.SECOND, 7⟩ = none ∧
    (cleared_pair_map.table0.size ≤ 9 + 1 →
      ∃ q, increment Layout.second_below cleared_pair_map (position cleared_pair_map 9) =
          some (position cleared_pair_map q) ∧ 9 < q ∧
        q ≤ cleared_pair_map.table0.size + cleared_pair_map.table1.size ∧
        (q < cleared_pair_map.table0.size + cleared_pair_map.table1.size →
          slot_at cleared_pair_map (position cleared_pair_map q) ≠ none) ∧
        (∀ r, 9 < r → r < q → slot_at cleared_pair_map (position cleared_pair_map r) = none) ∧
        (9 + 1 < q →
          decrement Layout.second_below cleared_pair_map (position cleared_pair_map q) =
            some (position cleared_pair_map (q - 1)) ∧
          slot_at cleared_pair_map (position cleared_pair_map (q - 1)) = none ∧
          decrement Layout.second_below cleared_pair_map (position cleared_pair_map q) ≠
            some (position cleared_pair_map 9))) :=
  ⟨cleared_pair_reachable, by decide, by decide, by decide, by decide,
    (round_trip_depends_on_layout cleared_pair_map 9 (by decide) (by decide)).2⟩

/-- C35 (the code breaks it): whatever the state, after `clear()` `size()` is
0, `is_empty()` is true, `capacity()` is `MINIMUM_CAPACITY`, both tables have
`capacity() / 2` real slots, every real slot is null and `contains(key)` is
false for every key.  With the array of `table0` below that of `table1`,
`begin()` equals `end()`; with the arrays the other way round `begin()` is
slot 0 of `table0`, not `end()`. -/
theorem clear_begin_depends_on_layout [DecidableEq K] [Inhabited K] [Inhabited V]
    (m : CuckooHashMap K V) :
    m.clear.size = 0 ∧ m.clear.is_empty = true ∧ m.clear.capacity = MINIMUM_CAPACITY ∧
    m.clear.table0.size = m.clear.capacity / 2 ∧ m.clear.table1.size = m.clear.capacity / 2 ∧
    (∀ i, m.clear.table0.get i = none) ∧ (∀ j, m.clear.table1.get j = none) ∧
    (∀ key, m.clear.contains key = false) ∧
    m.clear.begin_ Layout.first_below = some m.clear.end_ ∧
    m.clear.begin_ Layout.second_below = some ⟨Index.FIRST, 0⟩ ∧
    m.clear.begin_ Layout.second_below ≠ some m.clear.end_ := by
  have hl : live m.clear = [] := by
    simp [live, CuckooHashMap.clear, Table.reset, Table.set_extra, Data.create,
      reduceOption_replicate_none]
  obtain ⟨e0, e1⟩ := get_none_of_live_nil hl
  have s0 : m.clear.table0.size = m.clear.capacity / 2 := by
    simp [CuckooHashMap.clear, CuckooHashMap.capacity, Table.reset, Table.size, Data.size,
      Data.create]
  have hpos : 0 < m.clear.table0.size := by
    rw [s0]
    show 0 < MINIMUM_CAPACITY / 2
    decide
  obtain ⟨hb, hne⟩ := begin_second_below m.clear hpos
  refine ⟨rfl, rfl, rfl, s0, ?_, e0, e1, not_contains_of_live_nil hl,
    (begin_eq_end_iff _).2 hl, hb, ?_⟩
  · simp [CuckooHashMap.clear, CuckooHashMap.capacity, Table.reset, Table.set_extra, Table.size,
      Data.size, Data.create]
  · rw [hb]
    intro h
    exact hne (Option.some.inj h)

end Lemmas

end CuckooHashTable
